import Mathlib

/-!
# Wavefront storage driver (`storage/wavefront/wavefront.go`)

A shallow embedding of the Wavefront storage driver of cAdvisor: the metric
encoder (`containerStatsToValues`, `containerFsStatsToValues`), the line
formatter and the per-container flush throttle of `AddStats`.

Modelling conventions.

* Go strings are Lean `String`s; byte-level library functions
  (`strings.Contains`, `strings.Split`, `fmt`) are transcribed on the list
  of characters, which agrees with the byte view for the ASCII markers the
  driver looks for (`~`, `%`).
* `uint64` values are natural numbers; `+=` reduces modulo `2 ^ 64`.
* A Go map is an association list with distinct keys.  The iteration order
  of `range` over a map is not specified by Go, so it is an input
  (`RangeOrder`): an arbitrary permutation of the entries.
* `time.Now()` is an input: every call of `AddStats` receives the three
  successive clock readings it takes.
* `float64` arithmetic (`Duration.Seconds`, `float64(interval)`) is
  round-to-nearest-even on exact fractions.
* `fmt.Fprintf(conn, fmt.Sprintf(...))` hands the formatted line to `Fprintf`
  as its format, with no operands: `formatNoArgs` transcribes what `doPrintf`
  does with such a format.  The connection records the texts of the `Write`
  calls that succeed.
-/

namespace Wavefront

/-! ## Go maps -/

/-- Lookup `m[k]` with the comma-ok result: `none` when the key is absent. -/
def mapLookup {β : Type} : List (String × β) → String → Option β
  | [], _ => none
  | (k', v) :: m, k => if k' = k then some v else mapLookup m k

/-- Assignment `m[k] = v`: replaces the entry of `k` or adds a new one. -/
def mapInsert {β : Type} : List (String × β) → String → β → List (String × β)
  | [], k, v => [(k, v)]
  | (k', v') :: m, k, v => if k' = k then (k, v) :: m else (k', v') :: mapInsert m k v

/-- The keys of a map, in storage order. -/
def mapKeys {β : Type} (m : List (String × β)) : List String := m.map Prod.fst

/-- One possible iteration order of `range` over a map: Go leaves the order
unspecified, so it is any permutation of the entries. -/
structure RangeOrder (α : Type) where
  order : List α → List α
  perm : ∀ l, List.Perm (order l) l

/-- The iteration order that visits the entries in storage order. -/
def RangeOrder.storage (α : Type) : RangeOrder α := ⟨fun l => l, fun l => List.Perm.refl l⟩

/-- The iteration order that visits the entries in reverse storage order. -/
def RangeOrder.reversed (α : Type) : RangeOrder α :=
  ⟨fun l => l.reverse, fun l => List.reverse_perm l⟩

/-! ## `strings` and `fmt` -/

/-- Go `strings.Contains(s, "~")`-style test for a one-character substring. -/
def containsChar (s : String) (c : Char) : Bool := s.data.contains c

/-- Splitting of a character list at every occurrence of `sep`. -/
def splitChars (sep : Char) : List Char → List (List Char)
  | [] => [[]]
  | c :: cs =>
    if c = sep then [] :: splitChars sep cs
    else
      match splitChars sep cs with
      | p :: ps => (c :: p) :: ps
      | [] => [[c]]

/-- Go `strings.Split(s, sep)` for a one-character separator. -/
def Split (s : String) (sep : Char) : List String := (splitChars sep s.data).map String.mk

/-- Flag characters of a `fmt` directive. -/
def isFlag (c : Char) : Bool := c = '#' || c = '0' || c = '+' || c = '-' || c = ' '

/-- The flag loop of `doPrintf`: flags are skipped. -/
def skipFlags : List Char → List Char
  | [] => []
  | c :: cs => if isFlag c then skipFlags cs else c :: cs

/-- Go `fmt.parsenum` on the remaining slice: `(num, isnum, rest)`.  A number
that grows beyond `10 ^ 6` aborts the scan and consumes the whole slice. -/
def parsenum : Nat → Bool → List Char → Nat × Bool × List Char
  | num, isnum, [] => (num, isnum, [])
  | num, isnum, c :: cs =>
    if c.isDigit then
      if 1000000 < num then (0, false, [])
      else parsenum (num * 10 + (c.toNat - 48)) true cs
    else (num, isnum, c :: cs)

/-- Go `fmt.parseArgNumber` on a slice that starts with `[`: the number of
characters to skip and whether a well-formed `[n]` was read. -/
def parseArgNumber (cs : List Char) : Nat × Bool :=
  if cs.length < 3 then (1, false)
  else
    let tl := cs.drop 1
    if tl.contains ']' then
      let inner := tl.takeWhile (fun c => c != ']')
      let r := parsenum 0 false inner
      if r.2.1 && r.2.2.isEmpty then (inner.length + 2, true) else (inner.length + 2, false)
    else (1, false)

/-- Go `pp.argNumber` with an empty operand list: `(rest, found, bad)`.  Any
explicit index is out of range, so a bracket always clears `goodArgNum`. -/
def argNumber (cs : List Char) : List Char × Bool × Bool :=
  match cs with
  | '[' :: _ =>
    let r := parseArgNumber cs
    (cs.drop r.1, r.2, true)
  | _ => (cs, false, false)

/-- The width stage of one directive: `(output, rest, afterIndex, good)`. -/
def widthStage (cs : List Char) (afterIndex good : Bool) :
    List Char × List Char × Bool × Bool :=
  match cs with
  | '*' :: rest => ("%!(BADWIDTH)".data, rest, false, good)
  | _ =>
    let r := parsenum 0 false cs
    ([], r.2.2, afterIndex, good && !(afterIndex && r.2.1))

/-- The precision stage of one directive: `(output, rest, afterIndex, good)`. -/
def precStage (cs : List Char) (afterIndex good : Bool) :
    List Char × List Char × Bool × Bool :=
  match cs with
  | '.' :: rest =>
    let good1 := good && !afterIndex
    let a := argNumber rest
    let good2 := good1 && !a.2.2
    match a.1 with
    | '*' :: rest2 => ("%!(BADPREC)".data, rest2, false, good2)
    | _ => ([], (parsenum 0 false a.1).2.2, a.2.1, good2)
  | _ => ([], cs, afterIndex, good)

/-- One directive of `doPrintf` with an empty operand list, started right
after its `%`: the text it emits and the rest of the format (`none` when the
format ended before a verb). -/
def directive (cs : List Char) : List Char × Option (List Char) :=
  let a := argNumber (skipFlags cs)
  let w := widthStage a.1 a.2.1 (!a.2.2)
  let p := precStage w.2.1 w.2.2.1 w.2.2.2
  let b := if p.2.2.1 then (p.2.1, p.2.2.1, false) else argNumber p.2.1
  let good := p.2.2.2 && !b.2.2
  let out := w.1 ++ p.1
  match b.1 with
  | [] => (out ++ "%!(NOVERB)".data, none)
  | verb :: rest =>
    if verb = '%' then (out ++ ['%'], some rest)
    else if !good then (out ++ "%!".data ++ [verb] ++ "(BADINDEX)".data, some rest)
    else (out ++ "%!".data ++ [verb] ++ "(MISSING)".data, some rest)

/-- Go `pp.doPrintf(format, nil)`: literal text is copied, every directive
is rendered as the error text of a directive without operand. -/
def doPrintf : Nat → List Char → List Char
  | 0, _ => []
  | _ + 1, [] => []
  | fuel + 1, c :: cs =>
    if c = '%' then
      match directive cs with
      | (out, none) => out
      | (out, some rest) => out ++ doPrintf fuel rest
    else c :: doPrintf fuel cs

/-- The text `fmt.Fprintf(w, format)` produces when called with a format and
no operands. -/
def formatNoArgs (format : String) : String := String.mk (doPrintf (format.length + 1) format.data)

/-- Go `strconv.FormatInt(i, 10)`. -/
def FormatInt (i : Int) : String := Int.repr i

/-- The rendering of a `uint64` by the verb `%v`. -/
def formatUint (n : Nat) : String := Nat.repr n

/-! ## Connection -/

/-- The outbound connection: the texts delivered so far, one per successful
`Write`, and the outcome of the coming `Write` calls (`true`: the call
fails and delivers nothing; an exhausted list means success). -/
structure Conn where
  sent : List String
  faults : List Bool
  deriving DecidableEq, Repr

/-- One `Write` on the connection: the new connection and whether the call
returned an error. -/
def Conn.Write (c : Conn) (p : String) : Conn × Bool :=
  match c.faults with
  | true :: rest => ({ c with faults := rest }, true)
  | false :: rest => ({ sent := c.sent ++ [p], faults := rest }, false)
  | [] => ({ c with sent := c.sent ++ [p] }, false)

/-- Go `fmt.Fprintf(w, format)` without operands: format, then one `Write`. -/
def Fprintf (w : Conn) (format : String) : Conn × Bool := w.Write (formatNoArgs format)

/-! ## `float64` -/

/-- An exact fraction `num / den` (`den` positive), not normalised. -/
structure Frac where
  num : Int
  den : Nat
  deriving DecidableEq, Repr

/-- The fraction of an integer. -/
def Frac.ofInt (i : Int) : Frac := ⟨i, 1⟩

/-- Exact sum. -/
def Frac.add (a b : Frac) : Frac := ⟨a.num * b.den + b.num * a.den, a.den * b.den⟩

/-- Exact quotient (the divisor is non-zero wherever the driver divides). -/
def Frac.div (a b : Frac) : Frac :=
  if 0 ≤ b.num then ⟨a.num * b.den, a.den * b.num.natAbs⟩
  else ⟨-(a.num * b.den), a.den * b.num.natAbs⟩

/-- Comparison `a < b`. -/
def Frac.lt (a b : Frac) : Bool := decide (a.num * b.den < b.num * a.den)

/-- Position of the highest set bit, by halving. -/
def log2Fuel : Nat → Nat → Nat
  | 0, _ => 0
  | fuel + 1, n => if 2 ≤ n then log2Fuel fuel (n / 2) + 1 else 0

/-- Floor of the binary logarithm of a positive natural number. -/
def flog2 (n : Nat) : Nat := log2Fuel n n

/-- Floor of the binary logarithm of the positive fraction `n / d`. -/
def ilog2 (n d : Nat) : Int :=
  let e0 : Int := (flog2 n : Int) - (flog2 d : Int)
  if 0 ≤ e0 then (if d * 2 ^ e0.toNat ≤ n then e0 else e0 - 1)
  else (if d ≤ n * 2 ^ (-e0).toNat then e0 else e0 - 1)

/-- The integer nearest to `n / d`, ties to the even one. -/
def roundHalfEven (n : Int) (d : Nat) : Int :=
  let q := n / (d : Int)
  let r := n % (d : Int)
  if 2 * r < d then q else if (d : Int) < 2 * r then q + 1 else if q % 2 = 0 then q else q + 1

/-- Rounding of an exact value to `float64` (53-bit significand, round to
nearest, ties to even).  Exponent range limits are left out: every value
the driver forms is `0` or has a magnitude between `10 ^ (-9)` and `2 ^ 64`. -/
def roundF64 (x : Frac) : Frac :=
  if x.num = 0 then ⟨0, 1⟩
  else
    let e := ilog2 x.num.natAbs x.den - 52
    if 0 ≤ e then ⟨roundHalfEven x.num (x.den * 2 ^ e.toNat) * 2 ^ e.toNat, 1⟩
    else ⟨roundHalfEven (x.num * 2 ^ (-e).toNat) x.den, 2 ^ (-e).toNat⟩

/-! ## `time` -/

/-- A Go `time.Time` as far as the driver observes it: the wall clock in
nanoseconds since January 1 of year 1 UTC and, when the value carries one,
the monotonic clock reading in nanoseconds. -/
structure Time where
  wall : Int
  mono : Option Int
  deriving DecidableEq, Repr

/-- The zero `time.Time`, which a map lookup yields for an absent key. -/
def zeroTime : Time := ⟨0, none⟩

/-- Largest `time.Duration` (nanoseconds in an `int64`). -/
def maxDuration : Int := 9223372036854775807

/-- Smallest `time.Duration`. -/
def minDuration : Int := -9223372036854775808

/-- Saturation of an exact difference to the range of `time.Duration`. -/
def clampDuration (d : Int) : Int :=
  if maxDuration < d then maxDuration else if d < minDuration then minDuration else d

/-- Go `t.Sub(u)`: the monotonic readings are used when both values carry
one, the wall clock otherwise; the result saturates. -/
def Time.Sub (t u : Time) : Int :=
  match t.mono, u.mono with
  | some a, some b => clampDuration (a - b)
  | _, _ => clampDuration (t.wall - u.wall)

/-- Go `t.Unix()`: seconds since January 1, 1970 UTC. -/
def Time.Unix (t : Time) : Int := t.wall / 1000000000 - 62135596800

/-- Go `d.Seconds()`:
`float64(d / Second) + float64(d % Second) / 1e9`. -/
def Seconds (d : Int) : Frac :=
  roundF64 (Frac.add (roundF64 (Frac.ofInt (Int.tdiv d 1000000000)))
    (roundF64 (Frac.div (roundF64 (Frac.ofInt (Int.tmod d 1000000000)))
      (roundF64 (Frac.ofInt 1000000000)))))

/-! ## Data model -/

/-- Modelled from the spec: the per-device record `info.FsStats` of the
cAdvisor `info/v1` package (device identifier, limit, usage; `uint64`). -/
structure FsStats where
  Device : String
  Limit : Nat
  Usage : Nat
  deriving DecidableEq, Repr

/-- Modelled from the spec: `info.CpuUsage`, of which the driver reads the
cumulative total. -/
structure CpuUsage where
  Total : Nat
  deriving DecidableEq, Repr

/-- Modelled from the spec: `info.CpuStats`. -/
structure CpuStats where
  Usage : CpuUsage
  deriving DecidableEq, Repr

/-- Modelled from the spec: `info.MemoryStats` (usage and working set). -/
structure MemoryStats where
  Usage : Nat
  WorkingSet : Nat
  deriving DecidableEq, Repr

/-- Modelled from the spec: `info.NetworkStats` (cumulative byte and error
counters of both directions). -/
structure NetworkStats where
  RxBytes : Nat
  RxErrors : Nat
  TxBytes : Nat
  TxErrors : Nat
  deriving DecidableEq, Repr

/-- Modelled from the spec: the stats snapshot `info.ContainerStats` with the
fields the driver reads. -/
structure ContainerStats where
  Cpu : CpuStats
  Memory : MemoryStats
  Network : NetworkStats
  Filesystem : List FsStats
  deriving DecidableEq, Repr

/-- Modelled from the spec: the container reference `info.ContainerReference`
(name, aliases, namespace, labels). -/
structure ContainerReference where
  Name : String
  Aliases : List String
  Namespace : String
  Labels : List (String × String)
  deriving DecidableEq, Repr

/-- The driver state, `wavefrontStorage`. -/
structure wavefrontStorage where
  Source : String
  ProxyAddress : String
  LastFlush : List (String × Time)
  Conn : Conn
  WfInterval : Int
  WfAddTags : String
  WfPrefix : String
  deriving DecidableEq, Repr

/-- What one call of `AddStats` reads from its environment: the three
successive results of `time.Now()` and the iteration orders of the two
`range` loops over maps. -/
structure Env where
  current : Time
  flushed : Time
  stamped : Time
  labelOrder : RangeOrder (String × String)
  seriesOrder : RangeOrder (String × Nat)

def colCpuCumulativeUsage : String := "cpu_cumulative_usage"
def colMemoryUsage : String := "memory_usage"
def colMemoryWorkingSet : String := "memory_working_set"
def colRxBytes : String := "rx_bytes"
def colRxErrors : String := "rx_errors"
def colTxBytes : String := "tx_bytes"
def colTxErrors : String := "tx_errors"
def colFsSummary : String := "fs_summary"
def colFsLimit : String := "fs_limit"
def colFsUsage : String := "fs_usage"

/-- Reading `series[k]`: the zero value when the key is absent. -/
def seriesGet (series : List (String × Nat)) (k : String) : Nat := (mapLookup series k).getD 0

/-! ## Metric encoder -/

/-- The method `containerStatsToValues`. -/
def containerStatsToValues (stats : ContainerStats) : List (String × Nat) :=
  let series : List (String × Nat) := []
  let series := mapInsert series colCpuCumulativeUsage stats.Cpu.Usage.Total
  let series := mapInsert series colMemoryUsage stats.Memory.Usage
  let series := mapInsert series colMemoryWorkingSet stats.Memory.WorkingSet
  let series := mapInsert series colRxBytes stats.Network.RxBytes
  let series := mapInsert series colRxErrors stats.Network.RxErrors
  let series := mapInsert series colTxBytes stats.Network.TxBytes
  let series := mapInsert series colTxErrors stats.Network.TxErrors
  series

/-- The body of the loop of `containerFsStatsToValues` for one record. -/
def fsStep (series : List (String × Nat)) (fsStat : FsStats) : List (String × Nat) :=
  let series := mapInsert series (colFsSummary ++ "." ++ colFsLimit)
    ((seriesGet series (colFsSummary ++ "." ++ colFsLimit) + fsStat.Limit) % 2 ^ 64)
  let series := mapInsert series (colFsSummary ++ "." ++ colFsUsage)
    ((seriesGet series (colFsSummary ++ "." ++ colFsUsage) + fsStat.Usage) % 2 ^ 64)
  let series := mapInsert series (fsStat.Device ++ "~" ++ colFsLimit) fsStat.Limit
  let series := mapInsert series (fsStat.Device ++ "~" ++ colFsUsage) fsStat.Usage
  series

/-- The method `containerFsStatsToValues`: the series after the loop over
`stats.Filesystem`. -/
def containerFsStatsToValues (series : List (String × Nat)) (stats : ContainerStats) :
    List (String × Nat) :=
  stats.Filesystem.foldl fsStep series

/-! ## `AddStats` -/

/-- The container name used in the output: the first alias when there is
one, the raw name otherwise. -/
def displayName (ref : ContainerReference) : String :=
  match ref.Aliases with
  | a :: _ => a
  | [] => ref.Name

/-- Reading `driver.LastFlush[name]`: the zero time when absent. -/
def lastFlushOf (driver : wavefrontStorage) (name : String) : Time :=
  (mapLookup driver.LastFlush name).getD zeroTime

/-- The throttle test `dur.Seconds() < float64(interval)`. -/
def throttled (dur : Int) (interval : Int) : Bool :=
  Frac.lt (Seconds dur) (roundF64 (Frac.ofInt interval))

/-- The namespace tag and the label tags, `appendTags`. -/
def appendTagsOf (order : RangeOrder (String × String)) (ref : ContainerReference) : String :=
  let appendTags := ""
  let appendTags :=
    if ref.Namespace ≠ "" then appendTags ++ " namespace=\"" ++ ref.Namespace ++ "\"" else appendTags
  (order.order ref.Labels).foldl
    (fun acc kv => acc ++ " " ++ kv.1 ++ "=\"" ++ kv.2 ++ "\"") appendTags

/-- The text of
`Sprintf("%s%s %v %s source=%s container=\"%s\" %s %s \n", ...)`. -/
def sprintfPlain (wfPrefix key : String) (value : Nat)
    (timestamp source containerName addTags appendTags : String) : String :=
  wfPrefix ++ key ++ " " ++ formatUint value ++ " " ++ timestamp ++ " source=" ++ source
    ++ " container=\"" ++ containerName ++ "\" " ++ addTags ++ " " ++ appendTags ++ " \n"

/-- The text of
`Sprintf("%s%s %v %s source=%s container=\"%s\" device=\"%s\" %s %s \n", ...)`. -/
def sprintfDevice (wfPrefix newKey : String) (value : Nat)
    (timestamp source containerName pointTagVal addTags appendTags : String) : String :=
  wfPrefix ++ newKey ++ " " ++ formatUint value ++ " " ++ timestamp ++ " source=" ++ source
    ++ " container=\"" ++ containerName ++ "\" device=\"" ++ pointTagVal ++ "\" "
    ++ addTags ++ " " ++ appendTags ++ " \n"

/-- The string the body of the loop over `series` hands to `fmt.Fprintf` as
its format, for one entry. -/
def lineFormat (wfPrefix timestamp source containerName addTags appendTags : String)
    (kv : String × Nat) : String :=
  if containsChar kv.1 '~' then
    let parts := Split kv.1 '~'
    let newKey := parts.getD 1 ""
    let pointTagVal := parts.getD 0 ""
    sprintfDevice wfPrefix newKey kv.2 timestamp source containerName pointTagVal addTags appendTags
  else
    sprintfPlain wfPrefix kv.1 kv.2 timestamp source containerName addTags appendTags

/-- The text the connection receives for one entry. -/
def lineText (wfPrefix timestamp source containerName addTags appendTags : String)
    (kv : String × Nat) : String :=
  formatNoArgs (lineFormat wfPrefix timestamp source containerName addTags appendTags kv)

/-- The loop over `series`: one `Fprintf` per entry, its error dropped. -/
def writeSeries (conn : Conn) (wfPrefix timestamp source containerName addTags appendTags : String)
    (entries : List (String × Nat)) : Conn :=
  entries.foldl
    (fun c kv =>
      (Fprintf c (lineFormat wfPrefix timestamp source containerName addTags appendTags kv)).1)
    conn

/-- The method `AddStats`: the new driver state and the returned error
(`none` is Go's `nil`). -/
def AddStats (env : Env) (driver : wavefrontStorage) (ref : ContainerReference)
    (stats : Option ContainerStats) : wavefrontStorage × Option String :=
  match stats with
  | none => (driver, none)
  | some stats =>
    let containerName := displayName ref
    let current := env.current
    let dur := current.Sub (lastFlushOf driver containerName)
    let interval := driver.WfInterval
    if throttled dur interval then (driver, none)
    else
      let lastFlush := mapInsert driver.LastFlush containerName env.flushed
      let timestamp := FormatInt env.stamped.Unix
      let source := driver.Source
      let addTags := driver.WfAddTags
      let appendTags := appendTagsOf env.labelOrder ref
      let series := containerStatsToValues stats
      let series := containerFsStatsToValues series stats
      let conn := writeSeries driver.Conn driver.WfPrefix timestamp source containerName addTags
        appendTags (env.seriesOrder.order series)
      ({ driver with LastFlush := lastFlush, Conn := conn }, none)

/-- The constructor `newStorage` after the dial: `conn` is the connection
the dial produced, `getenv` the process environment and `atoi` the integer
`strconv.Atoi` returns with its error dropped. -/
def newStorage (getenv : String → String) (atoi : String → Int) (conn : Conn)
    (source proxyAddress : String) : wavefrontStorage :=
  let s : wavefrontStorage :=
    { Source := source, ProxyAddress := proxyAddress, LastFlush := [], Conn := conn,
      WfInterval := 0, WfAddTags := "", WfPrefix := "cadvisor." }
  let s := if getenv "WF_INTERVAL" ≠ "" then { s with WfInterval := atoi (getenv "WF_INTERVAL") } else s
  let s := if getenv "WF_ADD_TAGS" ≠ "" then { s with WfAddTags := getenv "WF_ADD_TAGS" } else s
  let s := if getenv "WF_PREFIX" ≠ "" then { s with WfPrefix := getenv "WF_PREFIX" } else s
  s

/-- The lines a call delivered: what `sent` holds after the call beyond what
it held before. -/
def linesWritten (before after : wavefrontStorage) : List String :=
  after.Conn.sent.drop before.Conn.sent.length

/-! ## Reference values for the statements -/

/-- The base series: the seven CPU, memory and network entries. -/
def baseEntries (stats : ContainerStats) : List (String × Nat) :=
  [("cpu_cumulative_usage", stats.Cpu.Usage.Total), ("memory_usage", stats.Memory.Usage),
   ("memory_working_set", stats.Memory.WorkingSet), ("rx_bytes", stats.Network.RxBytes),
   ("rx_errors", stats.Network.RxErrors), ("tx_bytes", stats.Network.TxBytes),
   ("tx_errors", stats.Network.TxErrors)]

/-- The two per-device entries of every record, in record order. -/
def perDeviceEntries (fs : List FsStats) : List (String × Nat) :=
  fs.flatMap (fun f =>
    [(f.Device ++ "~" ++ colFsLimit, f.Limit), (f.Device ++ "~" ++ colFsUsage, f.Usage)])

/-- The value of a fraction. -/
def Frac.toRat (x : Frac) : ℚ := (x.num : ℚ) / (x.den : ℚ)

/-- The integer nearest to a rational, ties to the even one. -/
def rneQ (x : ℚ) : ℤ :=
  if x - ⌊x⌋ < 1 / 2 then ⌊x⌋ else if 1 / 2 < x - ⌊x⌋ then ⌊x⌋ + 1
  else if ⌊x⌋ % 2 = 0 then ⌊x⌋ else ⌊x⌋ + 1

/-- Rounding of a rational of binary exponent `e` to a 53-bit significand. -/
def roundAt (e : ℤ) (x : ℚ) : ℚ := (rneQ (x / (2 : ℚ) ^ (e - 52)) : ℚ) * (2 : ℚ) ^ (e - 52)

/-! ## Concrete inputs -/

/-- A snapshot whose two device records have limits that add up to `2 ^ 64`. -/
def overflowStats : ContainerStats :=
  ⟨⟨⟨0⟩⟩, ⟨0, 0⟩, ⟨0, 0, 0, 0⟩,
    [⟨"/dev/sda1", 9223372036854775808, 1⟩, ⟨"/dev/sdb1", 9223372036854775808, 2⟩]⟩

/-- The snapshot of the round-trip scenario: one device record. -/
def oneDeviceStats : ContainerStats :=
  ⟨⟨⟨100⟩⟩, ⟨50, 40⟩, ⟨10, 0, 20, 1⟩, [⟨"/dev/sda1", 100, 5⟩]⟩

/-- A reference without alias, namespace or labels. -/
def plainRef : ContainerReference := ⟨"c1", [], "", []⟩

/-- A clock reading in September 2026 (Unix time `1790000000` at `m = 0`) with
monotonic reading `m` nanoseconds. -/
def readingAt (m : Int) : Time := ⟨63925596800000000000 + m, some m⟩

/-- An environment whose three clock readings coincide at monotonic time `m`
and whose maps are visited in storage order. -/
def envAt (m : Int) : Env :=
  ⟨readingAt m, readingAt m, readingAt m, RangeOrder.storage _, RangeOrder.storage _⟩

/-- A freshly constructed driver with the given interval, default prefix,
source `host1` and a healthy connection. -/
def freshDriver (interval : Int) : wavefrontStorage :=
  { Source := "host1", ProxyAddress := "wavefront:2878", LastFlush := [], Conn := ⟨[], []⟩,
    WfInterval := interval, WfAddTags := "", WfPrefix := "cadvisor." }

/-- A snapshot without filesystem device records. -/
def noDeviceStats : ContainerStats := ⟨⟨⟨100⟩⟩, ⟨50, 40⟩, ⟨10, 0, 20, 1⟩, []⟩

/-- A reference to a raw container whose name holds a percent sign. -/
def percentRef : ContainerReference := ⟨"/batch%1", [], "", []⟩

/-- A reference with a namespace. -/
def namespacedRef : ContainerReference := ⟨"c1", [], "prod", []⟩

/-- A reference with two aliases. -/
def aliasedRef : ContainerReference := ⟨"/docker/0a1b2c", ["web", "0a1b2c"], "", []⟩

/-- A snapshot whose single device identifier holds the separator. -/
def tildeDeviceStats : ContainerStats :=
  ⟨⟨⟨100⟩⟩, ⟨50, 40⟩, ⟨10, 0, 20, 1⟩, [⟨"a~b", 7, 3⟩]⟩

/-- The texts a connection delivers out of the payloads of successive `Write`
calls, under the script of their outcomes. -/
def delivered : List Bool → List String → List String
  | _, [] => []
  | true :: faults, _ :: texts => delivered faults texts
  | false :: faults, t :: texts => t :: delivered faults texts
  | [], t :: texts => t :: delivered [] texts

/-- A fresh driver with interval `0` whose connection fails the second
`Write` it receives. -/
def faultyDriver : wavefrontStorage :=
  { freshDriver 0 with Conn := ⟨[], [false, true]⟩ }

/-- Two references with different names and the same first alias. -/
def webRefA : ContainerReference := ⟨"/docker/0a1b2c", ["web"], "", []⟩

/-- The second reference with first alias `web`. -/
def webRefB : ContainerReference := ⟨"/docker/9f8e7d", ["web", "9f8e7d"], "", []⟩

/-- A snapshot in which the device `/dev/sda1` occurs in two records. -/
def duplicateDeviceStats : ContainerStats :=
  ⟨⟨⟨100⟩⟩, ⟨50, 40⟩, ⟨10, 0, 20, 1⟩, [⟨"/dev/sda1", 100, 5⟩, ⟨"/dev/sda1", 200, 7⟩]⟩

/-- Go `t.Before(u)`: the monotonic readings are compared when both values
carry one, the wall clock otherwise. -/
def Time.Before (t u : Time) : Bool :=
  match t.mono, u.mono with
  | some a, some b => decide (a < b)
  | _, _ => decide (t.wall < u.wall)

/-- The reading `u` was taken from the same clock as `t`, not earlier: both
carry a monotonic reading or neither does, and no clock ran backwards. -/
def laterReading (t u : Time) : Bool :=
  decide (t.wall ≤ u.wall) &&
    (match t.mono, u.mono with
     | some a, some b => decide (a ≤ b)
     | none, none => true
     | _, _ => false)

/-- A wall-clock reading without monotonic part, `s` nanoseconds after the
instant of `readingAt 0`. -/
def wallReadingAt (s : Int) : Time := ⟨63925596800000000000 + s, none⟩

/-- An environment whose three clock readings are the wall-clock reading
`wallReadingAt s`. -/
def envWallAt (s : Int) : Env :=
  ⟨wallReadingAt s, wallReadingAt s, wallReadingAt s, RangeOrder.storage _, RangeOrder.storage _⟩

/-- A driver whose prefix ends in `%[` and whose extra tags hold a closing
bracket. -/
def bracketDriver : wavefrontStorage :=
  { freshDriver 0 with WfPrefix := "wf%[", WfAddTags := "rack=\"r[1]\"" }

/-- A reference whose single label value ends in a percent sign. -/
def percentLabelRef : ContainerReference := ⟨"c1", [], "", [("load", "50%")]⟩

/-- A reference with an empty namespace and a label named `namespace`. -/
def namespaceLabelRef : ContainerReference := ⟨"c1", [], "", [("namespace", "")]⟩

/-- A reference with an alias, a namespace and two labels whose values hold a
space and double quotes. -/
def labelledRef : ContainerReference :=
  ⟨"/docker/0a1b2c", ["web"], "prod", [("tier", "front end"), ("owner", "\"ops\"")]⟩

/-- A driver with an extra-tag string. -/
def taggedDriver : wavefrontStorage := { freshDriver 0 with WfAddTags := "dc=\"east\"" }

/-- A reference with an alias, an empty namespace and one label. -/
def unnamespacedRef : ContainerReference :=
  ⟨"/docker/0a1b2c", ["web"], "", [("tier", "front end")]⟩

/-! # Theorems -/

/-! ## Maps and the metric encoder -/

theorem mapInsert_of_not_mem {β : Type} (m : List (String × β)) (k : String) (v : β)
    (h : k ∉ mapKeys m) : mapInsert m k v = m ++ [(k, v)] := by
  induction m with
  | nil => simp [mapInsert]
  | cons p m ih =>
    obtain ⟨k', v'⟩ := p
    simp only [mapKeys, List.map_cons, List.mem_cons, not_or] at h
    have h1 : k' ≠ k := fun e => h.1 e.symm
    simp [mapInsert, h1, ih (by simpa [mapKeys] using h.2)]

theorem mapInsert_append_cons {β : Type} (l1 l2 : List (String × β)) (k : String) (v0 v : β)
    (h : k ∉ mapKeys l1) : mapInsert (l1 ++ (k, v0) :: l2) k v = l1 ++ (k, v) :: l2 := by
  induction l1 with
  | nil => simp [mapInsert]
  | cons p m ih =>
    obtain ⟨k', v'⟩ := p
    simp only [mapKeys, List.map_cons, List.mem_cons, not_or] at h
    have h1 : k' ≠ k := fun e => h.1 e.symm
    simp [mapInsert, h1, ih (by simpa [mapKeys] using h.2)]

theorem mapLookup_append_cons {β : Type} (l1 l2 : List (String × β)) (k : String) (v0 : β)
    (h : k ∉ mapKeys l1) : mapLookup (l1 ++ (k, v0) :: l2) k = some v0 := by
  induction l1 with
  | nil => simp [mapLookup]
  | cons p m ih =>
    obtain ⟨k', v'⟩ := p
    simp only [mapKeys, List.map_cons, List.mem_cons, not_or] at h
    have h1 : k' ≠ k := fun e => h.1 e.symm
    simp [mapLookup, h1, ih (by simpa [mapKeys] using h.2)]

theorem mapLookup_of_not_mem {β : Type} (m : List (String × β)) (k : String)
    (h : k ∉ mapKeys m) : mapLookup m k = none := by
  induction m with
  | nil => simp [mapLookup]
  | cons p m ih =>
    obtain ⟨k', v'⟩ := p
    simp only [mapKeys, List.map_cons, List.mem_cons, not_or] at h
    have h1 : k' ≠ k := fun e => h.1 e.symm
    simp [mapLookup, h1, ih (by simpa [mapKeys] using h.2)]

theorem tilde_mem_devKey (d s : String) : '~' ∈ (d ++ "~" ++ s).data := by
  simp [String.data_append]

theorem devKey_ne_of_no_tilde (d s k : String) (hk : '~' ∉ k.data) : d ++ "~" ++ s ≠ k := by
  intro h
  apply hk
  rw [← h]
  exact tilde_mem_devKey d s

/-- Two per-device keys coincide only for the same device and the same metric suffix. -/
theorem devKey_inj (d d' s s' : String) (hlen : s.data.length = s'.data.length)
    (h : d ++ "~" ++ s = d' ++ "~" ++ s') : d = d' ∧ s = s' := by
  have h1 : (d ++ "~" ++ s).data = (d' ++ "~" ++ s').data := by rw [h]
  simp only [String.data_append, List.append_assoc] at h1
  have h2 := List.append_inj' h1 (by simp [hlen])
  refine ⟨String.ext h2.1, String.ext ?_⟩
  simpa using h2.2

theorem containerStatsToValues_eq (stats : ContainerStats) :
    containerStatsToValues stats = baseEntries stats := by
  simp [containerStatsToValues, baseEntries, mapInsert, colCpuCumulativeUsage, colMemoryUsage,
    colMemoryWorkingSet, colRxBytes, colRxErrors, colTxBytes, colTxErrors]

theorem baseKeys_no_tilde (stats : ContainerStats) :
    ∀ k ∈ mapKeys (baseEntries stats), '~' ∉ k.data := by
  intro k hk
  simp only [baseEntries, mapKeys, List.map_cons, List.map_nil, List.mem_cons, List.mem_singleton,
    List.not_mem_nil, or_false] at hk
  rcases hk with h | h | h | h | h | h | h <;> subst h <;> decide

theorem fsStep_shape (B X : List (String × Nat)) (a b : Nat) (f : FsStats)
    (hB : ∀ k ∈ mapKeys B, '~' ∉ k.data ∧ k ≠ "fs_summary.fs_limit" ∧ k ≠ "fs_summary.fs_usage")
    (hX : f.Device ++ "~" ++ colFsLimit ∉ mapKeys X ∧ f.Device ++ "~" ++ colFsUsage ∉ mapKeys X) :
    fsStep (B ++ ("fs_summary.fs_limit", a) :: ("fs_summary.fs_usage", b) :: X) f
      = B ++ ("fs_summary.fs_limit", (a + f.Limit) % 2 ^ 64)
          :: ("fs_summary.fs_usage", (b + f.Usage) % 2 ^ 64)
          :: (X ++ [(f.Device ++ "~" ++ colFsLimit, f.Limit), (f.Device ++ "~" ++ colFsUsage, f.Usage)]) := by
  have e1 : colFsSummary ++ "." ++ colFsLimit = "fs_summary.fs_limit" := by decide
  have e2 : colFsSummary ++ "." ++ colFsUsage = "fs_summary.fs_usage" := by decide
  have hBL : "fs_summary.fs_limit" ∉ mapKeys B := fun h => (hB _ h).2.1 rfl
  have hBU : "fs_summary.fs_usage" ∉ mapKeys (B ++ [("fs_summary.fs_limit", (a + f.Limit) % 2 ^ 64)]) := by
    intro h
    simp only [mapKeys, List.map_append, List.map_cons, List.map_nil, List.mem_append,
      List.mem_singleton] at h
    rcases h with h | h
    · exact (hB _ h).2.2 rfl
    · exact absurd h (by decide)
  unfold fsStep
  simp only [e1, e2]
  have g1 : seriesGet (B ++ ("fs_summary.fs_limit", a) :: ("fs_summary.fs_usage", b) :: X)
      "fs_summary.fs_limit" = a := by
    simp [seriesGet, mapLookup_append_cons _ _ _ _ hBL]
  rw [g1, mapInsert_append_cons _ _ _ _ _ hBL]
  have r1 : B ++ ("fs_summary.fs_limit", (a + f.Limit) % 2 ^ 64) :: ("fs_summary.fs_usage", b) :: X
      = (B ++ [("fs_summary.fs_limit", (a + f.Limit) % 2 ^ 64)]) ++ ("fs_summary.fs_usage", b) :: X := by
    simp
  have g2 : seriesGet (B ++ ("fs_summary.fs_limit", (a + f.Limit) % 2 ^ 64) :: ("fs_summary.fs_usage", b) :: X)
      "fs_summary.fs_usage" = b := by
    rw [r1, seriesGet, mapLookup_append_cons _ _ _ _ hBU]
    rfl
  rw [g2, r1, mapInsert_append_cons _ _ _ _ _ hBU]
  have n1 : f.Device ++ "~" ++ colFsLimit ∉ mapKeys ((B ++ [("fs_summary.fs_limit", (a + f.Limit) % 2 ^ 64)])
      ++ ("fs_summary.fs_usage", (b + f.Usage) % 2 ^ 64) :: X) := by
    intro h
    simp only [mapKeys, List.map_append, List.map_cons, List.map_nil, List.mem_append,
      List.mem_singleton, List.mem_cons, List.not_mem_nil, or_false] at h
    rcases h with (h | h) | h | h
    · exact (hB _ h).1 (tilde_mem_devKey _ _)
    · exact devKey_ne_of_no_tilde _ _ _ (by decide) h
    · exact devKey_ne_of_no_tilde _ _ _ (by decide) h
    · exact hX.1 h
  rw [mapInsert_of_not_mem _ _ _ n1]
  have n2 : f.Device ++ "~" ++ colFsUsage ∉ mapKeys (((B ++ [("fs_summary.fs_limit", (a + f.Limit) % 2 ^ 64)])
      ++ ("fs_summary.fs_usage", (b + f.Usage) % 2 ^ 64) :: X) ++ [(f.Device ++ "~" ++ colFsLimit, f.Limit)]) := by
    intro h
    simp only [mapKeys, List.map_append, List.map_cons, List.map_nil, List.mem_append,
      List.mem_singleton, List.mem_cons, List.not_mem_nil, or_false] at h
    rcases h with ((h | h) | h | h) | h
    · exact (hB _ h).1 (tilde_mem_devKey _ _)
    · exact devKey_ne_of_no_tilde _ _ _ (by decide) h
    · exact devKey_ne_of_no_tilde _ _ _ (by decide) h
    · exact hX.2 h
    · have := (devKey_inj _ _ _ _ (by decide) h).2
      exact absurd this (by decide)
  rw [mapInsert_of_not_mem _ _ _ n2]
  simp

theorem foldl_fsStep_shape (fs : List FsStats) (B X : List (String × Nat)) (a b : Nat)
    (hB : ∀ k ∈ mapKeys B, '~' ∉ k.data ∧ k ≠ "fs_summary.fs_limit" ∧ k ≠ "fs_summary.fs_usage")
    (ha : a < 2 ^ 64) (hb : b < 2 ^ 64)
    (hX : ∀ f ∈ fs, f.Device ++ "~" ++ colFsLimit ∉ mapKeys X ∧ f.Device ++ "~" ++ colFsUsage ∉ mapKeys X)
    (hnd : (fs.map FsStats.Device).Nodup) :
    fs.foldl fsStep (B ++ ("fs_summary.fs_limit", a) :: ("fs_summary.fs_usage", b) :: X)
      = B ++ ("fs_summary.fs_limit", (a + (fs.map FsStats.Limit).sum) % 2 ^ 64)
          :: ("fs_summary.fs_usage", (b + (fs.map FsStats.Usage).sum) % 2 ^ 64)
          :: (X ++ perDeviceEntries fs) := by
  induction fs generalizing X a b with
  | nil =>
    simp only [List.foldl_nil, List.map_nil, List.sum_nil, Nat.add_zero, perDeviceEntries,
      List.flatMap_nil, List.append_nil, Nat.mod_eq_of_lt ha, Nat.mod_eq_of_lt hb]
  | cons f fs ih =>
    rw [List.foldl_cons, fsStep_shape B X a b f hB (hX f (List.mem_cons_self _ _))]
    rw [List.map_cons, List.nodup_cons] at hnd
    rw [ih _ _ _ (Nat.mod_lt _ (by norm_num)) (Nat.mod_lt _ (by norm_num)) ?_ hnd.2]
    · simp only [List.map_cons, List.sum_cons, Nat.mod_add_mod, Nat.add_assoc, perDeviceEntries,
        List.flatMap_cons, List.append_assoc, List.cons_append, List.nil_append]
    · intro g hg
      have hne : g.Device ≠ f.Device := by
        intro e
        exact hnd.1 (e ▸ List.mem_map_of_mem FsStats.Device hg)
      have hXg := hX g (List.mem_cons_of_mem _ hg)
      constructor
      · intro h
        simp only [mapKeys, List.map_append, List.map_cons, List.map_nil, List.mem_append,
          List.mem_singleton, List.mem_cons, List.not_mem_nil, or_false] at h
        rcases h with h | h | h
        · exact hXg.1 (by simpa [mapKeys] using h)
        · exact hne (devKey_inj _ _ _ _ rfl h).1
        · exact absurd (devKey_inj _ _ _ _ (by decide) h).2 (by decide)
      · intro h
        simp only [mapKeys, List.map_append, List.map_cons, List.map_nil, List.mem_append,
          List.mem_singleton, List.mem_cons, List.not_mem_nil, or_false] at h
        rcases h with h | h | h
        · exact hXg.2 (by simpa [mapKeys] using h)
        · exact absurd (devKey_inj _ _ _ _ (by decide) h).2 (by decide)
        · exact hne (devKey_inj _ _ _ _ rfl h).1

theorem fsStep_first (B : List (String × Nat)) (f : FsStats)
    (hB : ∀ k ∈ mapKeys B, '~' ∉ k.data ∧ k ≠ "fs_summary.fs_limit" ∧ k ≠ "fs_summary.fs_usage") :
    fsStep B f = B ++ ("fs_summary.fs_limit", f.Limit % 2 ^ 64)
      :: ("fs_summary.fs_usage", f.Usage % 2 ^ 64)
      :: [(f.Device ++ "~" ++ colFsLimit, f.Limit), (f.Device ++ "~" ++ colFsUsage, f.Usage)] := by
  have e1 : colFsSummary ++ "." ++ colFsLimit = "fs_summary.fs_limit" := by decide
  have e2 : colFsSummary ++ "." ++ colFsUsage = "fs_summary.fs_usage" := by decide
  have hBL : "fs_summary.fs_limit" ∉ mapKeys B := fun h => (hB _ h).2.1 rfl
  have hBU : "fs_summary.fs_usage" ∉ mapKeys B := fun h => (hB _ h).2.2 rfl
  have hBU2 : "fs_summary.fs_usage" ∉ mapKeys (B ++ [("fs_summary.fs_limit", f.Limit % 2 ^ 64)]) := by
    intro h
    simp only [mapKeys, List.map_append, List.map_cons, List.map_nil, List.mem_append,
      List.mem_singleton] at h
    rcases h with h | h
    · exact hBU h
    · exact absurd h (by decide)
  unfold fsStep
  simp only [e1, e2]
  have g1 : seriesGet B "fs_summary.fs_limit" = 0 := by
    rw [seriesGet, mapLookup_of_not_mem _ _ hBL]; rfl
  rw [g1, mapInsert_of_not_mem B _ _ hBL, Nat.zero_add]
  have g2 : seriesGet (B ++ [("fs_summary.fs_limit", f.Limit % 2 ^ 64)]) "fs_summary.fs_usage" = 0 := by
    rw [seriesGet, mapLookup_of_not_mem _ _ hBU2]; rfl
  rw [g2, mapInsert_of_not_mem (B ++ [("fs_summary.fs_limit", f.Limit % 2 ^ 64)]) _ _ hBU2,
    Nat.zero_add]
  have n1 : f.Device ++ "~" ++ colFsLimit ∉ mapKeys (B ++ [("fs_summary.fs_limit", f.Limit % 2 ^ 64)]
      ++ [("fs_summary.fs_usage", f.Usage % 2 ^ 64)]) := by
    intro h
    simp only [mapKeys, List.map_append, List.map_cons, List.map_nil, List.mem_append,
      List.mem_singleton, List.mem_cons, List.not_mem_nil, or_false] at h
    rcases h with (h | h) | h
    · exact (hB _ h).1 (tilde_mem_devKey _ _)
    · exact devKey_ne_of_no_tilde _ _ _ (by decide) h
    · exact devKey_ne_of_no_tilde _ _ _ (by decide) h
  rw [mapInsert_of_not_mem _ _ _ n1]
  have n2 : f.Device ++ "~" ++ colFsUsage ∉ mapKeys (B ++ [("fs_summary.fs_limit", f.Limit % 2 ^ 64)]
      ++ [("fs_summary.fs_usage", f.Usage % 2 ^ 64)] ++ [(f.Device ++ "~" ++ colFsLimit, f.Limit)]) := by
    intro h
    simp only [mapKeys, List.map_append, List.map_cons, List.map_nil, List.mem_append,
      List.mem_singleton, List.mem_cons, List.not_mem_nil, or_false] at h
    rcases h with ((h | h) | h) | h
    · exact (hB _ h).1 (tilde_mem_devKey _ _)
    · exact devKey_ne_of_no_tilde _ _ _ (by decide) h
    · exact devKey_ne_of_no_tilde _ _ _ (by decide) h
    · exact absurd (devKey_inj _ _ _ _ (by decide) h).2 (by decide)
  rw [mapInsert_of_not_mem _ _ _ n2]
  simp

theorem baseKeys_spec (stats : ContainerStats) :
    ∀ k ∈ mapKeys (baseEntries stats),
      '~' ∉ k.data ∧ k ≠ "fs_summary.fs_limit" ∧ k ≠ "fs_summary.fs_usage" := by
  intro k hk
  simp only [baseEntries, mapKeys, List.map_cons, List.map_nil, List.mem_cons, List.mem_singleton,
    List.not_mem_nil, or_false] at hk
  rcases hk with h | h | h | h | h | h | h <;> subst h <;> decide

/-- The metric set of a snapshot with pairwise distinct device identifiers. -/
theorem series_shape (stats : ContainerStats) (hne : stats.Filesystem ≠ [])
    (hnd : (stats.Filesystem.map FsStats.Device).Nodup) :
    containerFsStatsToValues (containerStatsToValues stats) stats
      = baseEntries stats
        ++ ("fs_summary.fs_limit", (stats.Filesystem.map FsStats.Limit).sum % 2 ^ 64)
        :: ("fs_summary.fs_usage", (stats.Filesystem.map FsStats.Usage).sum % 2 ^ 64)
        :: perDeviceEntries stats.Filesystem := by
  rw [containerStatsToValues_eq, containerFsStatsToValues]
  cases hfs : stats.Filesystem with
  | nil => exact absurd hfs hne
  | cons f fs =>
    rw [hfs] at hnd
    rw [List.map_cons, List.nodup_cons] at hnd
    rw [List.foldl_cons, fsStep_first _ _ (baseKeys_spec stats),
      foldl_fsStep_shape fs _ _ _ _ (baseKeys_spec stats) (Nat.mod_lt _ (by norm_num))
        (Nat.mod_lt _ (by norm_num)) ?_ hnd.2]
    · simp only [List.map_cons, List.sum_cons, Nat.mod_add_mod, perDeviceEntries,
        List.flatMap_cons, List.append_assoc, List.cons_append, List.nil_append]
    · intro g hg
      have hne : g.Device ≠ f.Device := by
        intro e
        exact hnd.1 (e ▸ List.mem_map_of_mem FsStats.Device hg)
      constructor
      · intro h
        simp only [mapKeys, List.map_cons, List.map_nil,
          List.mem_singleton, List.mem_cons, List.not_mem_nil, or_false] at h
        rcases h with h | h
        · exact hne (devKey_inj _ _ _ _ rfl h).1
        · exact absurd (devKey_inj _ _ _ _ (by decide) h).2 (by decide)
      · intro h
        simp only [mapKeys, List.map_cons, List.map_nil,
          List.mem_singleton, List.mem_cons, List.not_mem_nil, or_false] at h
        rcases h with h | h
        · exact absurd (devKey_inj _ _ _ _ (by decide) h).2 (by decide)
        · exact hne (devKey_inj _ _ _ _ rfl h).1

theorem mapLookup_insert_self {β : Type} (m : List (String × β)) (k : String) (v : β) :
    mapLookup (mapInsert m k v) k = some v := by
  induction m with
  | nil => simp [mapInsert, mapLookup]
  | cons p m ih =>
    obtain ⟨k', v'⟩ := p
    by_cases h : k' = k
    · simp [mapInsert, mapLookup, h]
    · simp [mapInsert, mapLookup, h, ih]

theorem mapLookup_insert_ne {β : Type} (m : List (String × β)) (k k' : String) (v : β)
    (hne : k' ≠ k) : mapLookup (mapInsert m k v) k' = mapLookup m k' := by
  induction m with
  | nil => simp [mapInsert, mapLookup, hne.symm]
  | cons p m ih =>
    obtain ⟨k'', v'⟩ := p
    by_cases h : k'' = k
    · subst h
      simp [mapInsert, mapLookup, hne.symm]
    · simp [mapInsert, mapLookup, h, ih]

theorem seriesGet_insert_self (m : List (String × Nat)) (k : String) (v : Nat) :
    seriesGet (mapInsert m k v) k = v := by
  simp [seriesGet, mapLookup_insert_self]

theorem seriesGet_insert_ne (m : List (String × Nat)) (k k' : String) (v : Nat) (h : k' ≠ k) :
    seriesGet (mapInsert m k v) k' = seriesGet m k' := by
  simp [seriesGet, mapLookup_insert_ne _ _ _ _ h]

theorem seriesGet_fsStep_limit (s : List (String × Nat)) (f : FsStats) :
    seriesGet (fsStep s f) "fs_summary.fs_limit"
      = (seriesGet s "fs_summary.fs_limit" + f.Limit) % 2 ^ 64 := by
  have e1 : colFsSummary ++ "." ++ colFsLimit = "fs_summary.fs_limit" := by decide
  have e2 : colFsSummary ++ "." ++ colFsUsage = "fs_summary.fs_usage" := by decide
  unfold fsStep
  simp only [e1, e2]
  rw [seriesGet_insert_ne _ _ _ _ (devKey_ne_of_no_tilde _ _ _ (by decide)).symm,
    seriesGet_insert_ne _ _ _ _ (devKey_ne_of_no_tilde _ _ _ (by decide)).symm,
    seriesGet_insert_ne _ _ _ _ (by decide), seriesGet_insert_self]

theorem seriesGet_fsStep_usage (s : List (String × Nat)) (f : FsStats) :
    seriesGet (fsStep s f) "fs_summary.fs_usage"
      = (seriesGet s "fs_summary.fs_usage" + f.Usage) % 2 ^ 64 := by
  have e1 : colFsSummary ++ "." ++ colFsLimit = "fs_summary.fs_limit" := by decide
  have e2 : colFsSummary ++ "." ++ colFsUsage = "fs_summary.fs_usage" := by decide
  unfold fsStep
  simp only [e1, e2]
  rw [seriesGet_insert_ne _ _ _ _ (devKey_ne_of_no_tilde _ _ _ (by decide)).symm,
    seriesGet_insert_ne _ _ _ _ (devKey_ne_of_no_tilde _ _ _ (by decide)).symm,
    seriesGet_insert_self, seriesGet_insert_ne _ _ _ _ (by decide)]

theorem seriesGet_foldl_limit_mod (fs : List FsStats) (s : List (String × Nat)) :
    seriesGet (fs.foldl fsStep s) "fs_summary.fs_limit" % 2 ^ 64
      = (seriesGet s "fs_summary.fs_limit" + (fs.map FsStats.Limit).sum) % 2 ^ 64 := by
  induction fs generalizing s with
  | nil => simp
  | cons f fs ih =>
    rw [List.foldl_cons, ih, seriesGet_fsStep_limit, List.map_cons, List.sum_cons,
      Nat.mod_add_mod, Nat.add_assoc]

theorem seriesGet_foldl_usage_mod (fs : List FsStats) (s : List (String × Nat)) :
    seriesGet (fs.foldl fsStep s) "fs_summary.fs_usage" % 2 ^ 64
      = (seriesGet s "fs_summary.fs_usage" + (fs.map FsStats.Usage).sum) % 2 ^ 64 := by
  induction fs generalizing s with
  | nil => simp
  | cons f fs ih =>
    rw [List.foldl_cons, ih, seriesGet_fsStep_usage, List.map_cons, List.sum_cons,
      Nat.mod_add_mod, Nat.add_assoc]

theorem seriesGet_foldl_limit_lt (fs : List FsStats) (s : List (String × Nat))
    (h : seriesGet s "fs_summary.fs_limit" < 2 ^ 64) :
    seriesGet (fs.foldl fsStep s) "fs_summary.fs_limit" < 2 ^ 64 := by
  induction fs generalizing s with
  | nil => simpa using h
  | cons f fs ih =>
    rw [List.foldl_cons]
    apply ih
    rw [seriesGet_fsStep_limit]
    exact Nat.mod_lt _ (by norm_num)

theorem seriesGet_foldl_usage_lt (fs : List FsStats) (s : List (String × Nat))
    (h : seriesGet s "fs_summary.fs_usage" < 2 ^ 64) :
    seriesGet (fs.foldl fsStep s) "fs_summary.fs_usage" < 2 ^ 64 := by
  induction fs generalizing s with
  | nil => simpa using h
  | cons f fs ih =>
    rw [List.foldl_cons]
    apply ih
    rw [seriesGet_fsStep_usage]
    exact Nat.mod_lt _ (by norm_num)

/-- The summary entries after the filesystem step on a series in which they
are absent or hold `uint64` values: the sums of the records, modulo `2 ^ 64`. -/
theorem fs_summary_limit_eq (s : List (String × Nat)) (stats : ContainerStats)
    (h : seriesGet s "fs_summary.fs_limit" < 2 ^ 64) :
    seriesGet (containerFsStatsToValues s stats) "fs_summary.fs_limit"
      = (seriesGet s "fs_summary.fs_limit" + (stats.Filesystem.map FsStats.Limit).sum) % 2 ^ 64 := by
  rw [← seriesGet_foldl_limit_mod]
  exact (Nat.mod_eq_of_lt (seriesGet_foldl_limit_lt _ _ h)).symm

theorem fs_summary_usage_eq (s : List (String × Nat)) (stats : ContainerStats)
    (h : seriesGet s "fs_summary.fs_usage" < 2 ^ 64) :
    seriesGet (containerFsStatsToValues s stats) "fs_summary.fs_usage"
      = (seriesGet s "fs_summary.fs_usage" + (stats.Filesystem.map FsStats.Usage).sum) % 2 ^ 64 := by
  rw [← seriesGet_foldl_usage_mod]
  exact (Nat.mod_eq_of_lt (seriesGet_foldl_usage_lt _ _ h)).symm

theorem base_no_summary (stats : ContainerStats) :
    seriesGet (containerStatsToValues stats) "fs_summary.fs_limit" = 0 ∧
    seriesGet (containerStatsToValues stats) "fs_summary.fs_usage" = 0 := by
  rw [containerStatsToValues_eq]
  constructor <;> simp [seriesGet, mapLookup]

/-! ## Formatting and the write loop -/

theorem doPrintf_of_no_percent (fuel : Nat) (cs : List Char) (h : '%' ∉ cs)
    (hf : cs.length < fuel) : doPrintf fuel cs = cs := by
  induction cs generalizing fuel with
  | nil => cases fuel <;> simp [doPrintf] at *
  | cons c cs ih =>
    cases fuel with
    | zero => simp at hf
    | succ fuel =>
      simp only [List.mem_cons, not_or] at h
      have hc : c ≠ '%' := fun e => h.1 e.symm
      simp only [doPrintf, hc, if_false]
      rw [ih fuel h.2 (by simpa using hf)]

theorem formatNoArgs_of_no_percent (s : String) (h : '%' ∉ s.data) : formatNoArgs s = s := by
  unfold formatNoArgs
  have e : doPrintf (s.length + 1) s.data = s.data :=
    doPrintf_of_no_percent _ _ h (Nat.lt_succ_self _)
  rw [e]

theorem digitChar_isDigit (n : Nat) (h : n < 10) : (Nat.digitChar n).isDigit = true := by
  interval_cases n <;> decide

theorem toDigitsCore_isDigit (fuel n : Nat) (ds : List Char)
    (hds : ∀ c ∈ ds, c.isDigit = true) :
    ∀ c ∈ Nat.toDigitsCore 10 fuel n ds, c.isDigit = true := by
  induction fuel generalizing n ds with
  | zero => simpa [Nat.toDigitsCore] using hds
  | succ fuel ih =>
    have hd : (Nat.digitChar (n % 10)).isDigit = true :=
      digitChar_isDigit _ (Nat.mod_lt _ (by norm_num))
    have hds' : ∀ c ∈ Nat.digitChar (n % 10) :: ds, c.isDigit = true := by
      intro c hc
      rcases List.mem_cons.1 hc with h | h
      · rw [h]; exact hd
      · exact hds c h
    simp only [Nat.toDigitsCore]
    split
    · exact hds'
    · exact ih _ _ hds'

theorem natRepr_isDigit (n : Nat) : ∀ c ∈ (Nat.repr n).data, c.isDigit = true := by
  intro c hc
  have : (Nat.repr n).data = Nat.toDigits 10 n := by simp [Nat.repr, List.asString]
  rw [this] at hc
  exact toDigitsCore_isDigit _ _ [] (by simp) c hc

theorem formatUint_no_percent (n : Nat) : '%' ∉ (formatUint n).data := by
  intro h
  have := natRepr_isDigit n _ h
  exact absurd this (by decide)

theorem formatUint_no_tilde (n : Nat) : '~' ∉ (formatUint n).data := by
  intro h
  have := natRepr_isDigit n _ h
  exact absurd this (by decide)

theorem FormatInt_no_percent (i : Int) : '%' ∉ (FormatInt i).data := by
  intro h
  cases i with
  | ofNat m =>
    have := natRepr_isDigit m _ (by simpa [FormatInt, Int.repr] using h)
    exact absurd this (by decide)
  | negSucc m =>
    simp only [FormatInt, Int.repr, String.data_append, List.mem_append] at h
    rcases h with h | h
    · exact absurd h (by decide)
    · exact absurd (natRepr_isDigit _ _ h) (by decide)

theorem splitChars_of_not_mem (sep : Char) (cs : List Char) (h : sep ∉ cs) :
    splitChars sep cs = [cs] := by
  induction cs with
  | nil => rfl
  | cons c cs ih =>
    simp only [List.mem_cons, not_or] at h
    have hc : c ≠ sep := fun e => h.1 e.symm
    simp [splitChars, hc, ih h.2]

theorem splitChars_append_sep (sep : Char) (d rest : List Char) (h : sep ∉ d) :
    splitChars sep (d ++ sep :: rest) = d :: splitChars sep rest := by
  induction d with
  | nil => simp [splitChars]
  | cons c cs ih =>
    simp only [List.mem_cons, not_or] at h
    have hc : c ≠ sep := fun e => h.1 e.symm
    simp [splitChars, hc, ih h.2]

/-- Splitting a per-device key whose device identifier has no separator. -/
theorem Split_devKey (d s : String) (hd : '~' ∉ d.data) (hs : '~' ∉ s.data) :
    Split (d ++ "~" ++ s) '~' = [d, s] := by
  have e : (d ++ "~" ++ s).data = d.data ++ '~' :: s.data := by
    simp [String.data_append]
  simp [Split, e, splitChars_append_sep _ _ _ hd, splitChars_of_not_mem _ _ hs]

theorem containsChar_devKey (d s : String) : containsChar (d ++ "~" ++ s) '~' = true := by
  simp [containsChar, String.data_append]

theorem containsChar_eq_false (k : String) (h : '~' ∉ k.data) : containsChar k '~' = false := by
  simpa [containsChar] using h

theorem lineFormat_plain (p ts src name add app : String) (kv : String × Nat)
    (h : '~' ∉ kv.1.data) :
    lineFormat p ts src name add app kv = sprintfPlain p kv.1 kv.2 ts src name add app := by
  simp [lineFormat, containsChar_eq_false _ h]

theorem lineFormat_device (p ts src name add app d s : String) (v : Nat)
    (hd : '~' ∉ d.data) (hs : '~' ∉ s.data) :
    lineFormat p ts src name add app (d ++ "~" ++ s, v)
      = sprintfDevice p s v ts src name d add app := by
  simp [lineFormat, containsChar_devKey, Split_devKey _ _ hd hs]

theorem write_healthy (c : Conn) (p : String) (h : c.faults = []) :
    (c.Write p).1 = { sent := c.sent ++ [p], faults := [] } := by
  obtain ⟨sent, faults⟩ := c
  simp only at h
  subst h
  rfl

theorem writeSeries_healthy (entries : List (String × Nat)) (c : Conn)
    (p ts src name add app : String) (h : c.faults = []) :
    writeSeries c p ts src name add app entries
      = { sent := c.sent ++ entries.map (lineText p ts src name add app), faults := [] } := by
  induction entries generalizing c with
  | nil =>
    obtain ⟨sent, faults⟩ := c
    simp only at h
    subst h
    simp [writeSeries]
  | cons kv entries ih =>
    simp only [writeSeries, List.foldl_cons, Fprintf] at ih ⊢
    rw [write_healthy _ _ h, ih _ rfl]
    simp [lineText]

theorem AddStats_throttled (env : Env) (driver : wavefrontStorage) (ref : ContainerReference)
    (stats : ContainerStats)
    (h : throttled (env.current.Sub (lastFlushOf driver (displayName ref))) driver.WfInterval = true) :
    AddStats env driver ref (some stats) = (driver, none) := by
  simp [AddStats, h]

theorem AddStats_flush (env : Env) (driver : wavefrontStorage) (ref : ContainerReference)
    (stats : ContainerStats)
    (h : throttled (env.current.Sub (lastFlushOf driver (displayName ref))) driver.WfInterval = false) :
    AddStats env driver ref (some stats)
      = ({ driver with
            LastFlush := mapInsert driver.LastFlush (displayName ref) env.flushed,
            Conn := writeSeries driver.Conn driver.WfPrefix (FormatInt env.stamped.Unix)
              driver.Source (displayName ref) driver.WfAddTags (appendTagsOf env.labelOrder ref)
              (env.seriesOrder.order
                (containerFsStatsToValues (containerStatsToValues stats) stats)) }, none) := by
  simp [AddStats, h]

theorem linesWritten_self (d : wavefrontStorage) : linesWritten d d = [] := by
  simp [linesWritten]

/-- The lines a flushing call delivers over a healthy connection. -/
theorem linesWritten_flush (env : Env) (driver : wavefrontStorage) (ref : ContainerReference)
    (stats : ContainerStats)
    (h : throttled (env.current.Sub (lastFlushOf driver (displayName ref))) driver.WfInterval = false)
    (hc : driver.Conn.faults = []) :
    linesWritten driver (AddStats env driver ref (some stats)).1
      = (env.seriesOrder.order (containerFsStatsToValues (containerStatsToValues stats) stats)).map
          (lineText driver.WfPrefix (FormatInt env.stamped.Unix) driver.Source (displayName ref)
            driver.WfAddTags (appendTagsOf env.labelOrder ref)) := by
  rw [AddStats_flush _ _ _ _ h]
  simp [linesWritten, writeSeries_healthy _ _ _ _ _ _ _ _ hc]

/-! ## Rounding to float64 -/

theorem log2Fuel_spec (fuel n : Nat) (hn : 0 < n) (hf : n ≤ fuel) :
    2 ^ log2Fuel fuel n ≤ n ∧ n < 2 ^ (log2Fuel fuel n + 1) := by
  induction fuel generalizing n with
  | zero => omega
  | succ fuel ih =>
    unfold log2Fuel
    by_cases h2 : 2 ≤ n
    · simp only [h2, if_true]
      have hdiv : 0 < n / 2 := Nat.div_pos h2 (by norm_num)
      have := ih (n / 2) hdiv (by omega)
      rw [pow_succ, pow_succ, pow_succ]
      rw [pow_succ] at this
      constructor <;> omega
    · simp only [h2, if_false]
      simp
      omega

theorem flog2_spec (n : Nat) (hn : 0 < n) : 2 ^ flog2 n ≤ n ∧ n < 2 ^ (flog2 n + 1) :=
  log2Fuel_spec n n hn (Nat.le_refl n)

theorem floor_div_eq (n : Int) (d : Nat) : ⌊(n : ℚ) / (d : ℚ)⌋ = n / (d : Int) := by
  have := Rat.floor_intCast_div_natCast n d
  simpa using this

theorem roundHalfEven_eq (n : Int) (d : Nat) (hd : 0 < d) :
    roundHalfEven n d = rneQ ((n : ℚ) / (d : ℚ)) := by
  have hdq : (0 : ℚ) < (d : ℚ) := by exact_mod_cast hd
  have hfl := floor_div_eq n d
  have hfrac : (n : ℚ) / (d : ℚ) - ((n / (d : Int) : Int) : ℚ) = ((n % (d : Int) : Int) : ℚ) / (d : ℚ) := by
    have h1 : n = (d : Int) * (n / (d : Int)) + n % (d : Int) := (Int.ediv_add_emod n d).symm
    have h2 : (n : ℚ) = (d : ℚ) * ((n / (d : Int) : Int) : ℚ) + ((n % (d : Int) : Int) : ℚ) := by
      exact_mod_cast h1
    field_simp
    linarith
  unfold roundHalfEven rneQ
  rw [hfl, hfrac]
  have c1 : (((n % (d : Int) : Int) : ℚ) / (d : ℚ) < 1 / 2) ↔ (2 * (n % (d : Int)) < (d : Int)) := by
    rw [div_lt_div_iff₀ hdq (by norm_num)]
    constructor
    · intro h
      have : ((2 * (n % (d : Int)) : Int) : ℚ) < ((d : Int) : ℚ) := by push_cast; linarith
      exact_mod_cast this
    · intro h
      have : ((2 * (n % (d : Int)) : Int) : ℚ) < ((d : Int) : ℚ) := by exact_mod_cast h
      push_cast at this; linarith
  have c2 : ((1 : ℚ) / 2 < ((n % (d : Int) : Int) : ℚ) / (d : ℚ)) ↔ ((d : Int) < 2 * (n % (d : Int))) := by
    rw [div_lt_div_iff₀ (by norm_num) hdq]
    constructor
    · intro h
      have : ((d : Int) : ℚ) < ((2 * (n % (d : Int)) : Int) : ℚ) := by push_cast; linarith
      exact_mod_cast this
    · intro h
      have : ((d : Int) : ℚ) < ((2 * (n % (d : Int)) : Int) : ℚ) := by exact_mod_cast h
      push_cast at this; linarith
  simp only [c1, c2]

theorem rneQ_intCast (n : ℤ) : rneQ (n : ℚ) = n := by
  simp [rneQ]

theorem floor_le_rneQ (x : ℚ) : ⌊x⌋ ≤ rneQ x := by
  unfold rneQ
  split_ifs <;> omega

theorem rneQ_le_floor_add_one (x : ℚ) : rneQ x ≤ ⌊x⌋ + 1 := by
  unfold rneQ
  split_ifs <;> omega

theorem rneQ_mono {x y : ℚ} (h : x ≤ y) : rneQ x ≤ rneQ y := by
  have hfl : ⌊x⌋ ≤ ⌊y⌋ := Int.floor_mono h
  rcases lt_or_eq_of_le hfl with hlt | heq
  · calc rneQ x ≤ ⌊x⌋ + 1 := rneQ_le_floor_add_one x
      _ ≤ ⌊y⌋ := hlt
      _ ≤ rneQ y := floor_le_rneQ y
  · unfold rneQ
    rw [heq]
    have hxy : x - (⌊y⌋ : ℚ) ≤ y - (⌊y⌋ : ℚ) := by linarith
    split_ifs <;> first | omega | (exfalso; linarith)

theorem ilog2_spec (n d : Nat) (hn : 0 < n) (hd : 0 < d) :
    (2 : ℚ) ^ (ilog2 n d) ≤ (n : ℚ) / (d : ℚ) ∧ (n : ℚ) / (d : ℚ) < (2 : ℚ) ^ (ilog2 n d + 1) := by
  obtain ⟨ha1, ha2⟩ := flog2_spec n hn
  obtain ⟨hb1, hb2⟩ := flog2_spec d hd
  have hdq : (0 : ℚ) < (d : ℚ) := by exact_mod_cast hd
  have ha1q : (2 : ℚ) ^ (flog2 n : ℤ) ≤ (n : ℚ) := by
    rw [zpow_natCast]; exact_mod_cast ha1
  have ha2q : (n : ℚ) < (2 : ℚ) ^ ((flog2 n : ℤ) + 1) := by
    have : (n : ℚ) < (2 : ℚ) ^ (flog2 n + 1) := by exact_mod_cast ha2
    rwa [← zpow_natCast, Nat.cast_add, Nat.cast_one] at this
  have hb1q : (2 : ℚ) ^ (flog2 d : ℤ) ≤ (d : ℚ) := by
    rw [zpow_natCast]; exact_mod_cast hb1
  have hb2q : (d : ℚ) < (2 : ℚ) ^ ((flog2 d : ℤ) + 1) := by
    have : (d : ℚ) < (2 : ℚ) ^ (flog2 d + 1) := by exact_mod_cast hb2
    rwa [← zpow_natCast, Nat.cast_add, Nat.cast_one] at this
  have h2 : (0 : ℚ) < 2 := by norm_num
  have hp : ∀ k : ℤ, (0 : ℚ) < (2 : ℚ) ^ k := fun k => zpow_pos h2 k
  -- upper bound: n / d < 2 ^ (e0 + 1)
  have hup : (n : ℚ) / (d : ℚ) < (2 : ℚ) ^ ((flog2 n : ℤ) - (flog2 d : ℤ) + 1) := by
    rw [div_lt_iff₀ hdq]
    have e : (2 : ℚ) ^ ((flog2 n : ℤ) - (flog2 d : ℤ) + 1) * (2 : ℚ) ^ (flog2 d : ℤ)
        = (2 : ℚ) ^ ((flog2 n : ℤ) + 1) := by
      rw [← zpow_add₀ (by norm_num : (2 : ℚ) ≠ 0)]; congr 1; ring
    calc (n : ℚ) < (2 : ℚ) ^ ((flog2 n : ℤ) + 1) := ha2q
      _ = (2 : ℚ) ^ ((flog2 n : ℤ) - (flog2 d : ℤ) + 1) * (2 : ℚ) ^ (flog2 d : ℤ) := e.symm
      _ ≤ (2 : ℚ) ^ ((flog2 n : ℤ) - (flog2 d : ℤ) + 1) * (d : ℚ) :=
        mul_le_mul_of_nonneg_left hb1q (le_of_lt (hp _))
  -- lower bound: 2 ^ (e0 - 1) ≤ n / d
  have hlow : (2 : ℚ) ^ ((flog2 n : ℤ) - (flog2 d : ℤ) - 1) ≤ (n : ℚ) / (d : ℚ) := by
    rw [le_div_iff₀ hdq]
    have e : (2 : ℚ) ^ ((flog2 n : ℤ) - (flog2 d : ℤ) - 1) * (2 : ℚ) ^ ((flog2 d : ℤ) + 1)
        = (2 : ℚ) ^ (flog2 n : ℤ) := by
      rw [← zpow_add₀ (by norm_num : (2 : ℚ) ≠ 0)]; congr 1; ring
    calc (2 : ℚ) ^ ((flog2 n : ℤ) - (flog2 d : ℤ) - 1) * (d : ℚ)
        ≤ (2 : ℚ) ^ ((flog2 n : ℤ) - (flog2 d : ℤ) - 1) * (2 : ℚ) ^ ((flog2 d : ℤ) + 1) :=
          mul_le_mul_of_nonneg_left (le_of_lt hb2q) (le_of_lt (hp _))
      _ = (2 : ℚ) ^ (flog2 n : ℤ) := e
      _ ≤ (n : ℚ) := ha1q
  -- the test
  have htest : ∀ e0 : ℤ,
      ((if 0 ≤ e0 then decide (d * 2 ^ e0.toNat ≤ n) else decide (d ≤ n * 2 ^ (-e0).toNat)) = true)
        ↔ (2 : ℚ) ^ e0 ≤ (n : ℚ) / (d : ℚ) := by
    intro e0
    rw [le_div_iff₀ hdq]
    by_cases h0 : 0 ≤ e0
    · simp only [h0, if_true, decide_eq_true_eq]
      have e : (2 : ℚ) ^ e0 = ((2 ^ e0.toNat : ℕ) : ℚ) := by
        rw [Nat.cast_pow, ← zpow_natCast, Int.toNat_of_nonneg h0]; norm_num
      rw [e, mul_comm]
      exact_mod_cast Iff.rfl
    · simp only [h0, if_false, decide_eq_true_eq]
      have hneg : 0 ≤ -e0 := by omega
      have e : (2 : ℚ) ^ e0 = 1 / ((2 ^ (-e0).toNat : ℕ) : ℚ) := by
        rw [Nat.cast_pow, ← zpow_natCast, Int.toNat_of_nonneg hneg, zpow_neg]; norm_num
      have hpos : (0 : ℚ) < ((2 ^ (-e0).toNat : ℕ) : ℚ) := by positivity
      rw [e, one_div, inv_mul_le_iff₀ hpos, mul_comm]
      exact_mod_cast Iff.rfl
  unfold ilog2
  simp only
  have ht := htest ((flog2 n : ℤ) - (flog2 d : ℤ))
  by_cases h0 : 0 ≤ (flog2 n : ℤ) - (flog2 d : ℤ)
  · simp only [h0, if_true] at ht ⊢
    by_cases hT : d * 2 ^ ((flog2 n : ℤ) - (flog2 d : ℤ)).toNat ≤ n
    · simp only [hT, if_true]
      exact ⟨ht.1 (by simpa using hT), hup⟩
    · simp only [hT, if_false]
      refine ⟨hlow, ?_⟩
      rw [sub_add_cancel]
      by_contra hcon
      exact hT (by simpa using ht.2 (not_lt.1 hcon))
  · simp only [h0, if_false] at ht ⊢
    by_cases hT : d ≤ n * 2 ^ (-((flog2 n : ℤ) - (flog2 d : ℤ))).toNat
    · simp only [hT, if_true]
      exact ⟨ht.1 (by simpa using hT), hup⟩
    · simp only [hT, if_false]
      refine ⟨hlow, ?_⟩
      rw [sub_add_cancel]
      by_contra hcon
      exact hT (by simpa using ht.2 (not_lt.1 hcon))

theorem two_zpow_pos (k : ℤ) : (0 : ℚ) < (2 : ℚ) ^ k := zpow_pos (by norm_num) k

theorem roundAt_bounds (e : ℤ) (x : ℚ) (h1 : (2 : ℚ) ^ e ≤ x) (h2 : x < (2 : ℚ) ^ (e + 1)) :
    (2 : ℚ) ^ e ≤ roundAt e x ∧ roundAt e x ≤ (2 : ℚ) ^ (e + 1) := by
  have hp := two_zpow_pos (e - 52)
  have hlo : ((2 ^ 52 : ℤ) : ℚ) ≤ x / (2 : ℚ) ^ (e - 52) := by
    rw [le_div_iff₀ hp]
    have : ((2 ^ 52 : ℤ) : ℚ) * (2 : ℚ) ^ (e - 52) = (2 : ℚ) ^ e := by
      have h52 : ((2 ^ 52 : ℤ) : ℚ) = (2 : ℚ) ^ (52 : ℤ) := by norm_num
      rw [h52, ← zpow_add₀ (by norm_num : (2 : ℚ) ≠ 0)]; congr 1; ring
    rw [this]; exact h1
  have hhi : x / (2 : ℚ) ^ (e - 52) ≤ ((2 ^ 53 : ℤ) : ℚ) := by
    rw [div_le_iff₀ hp]
    have : ((2 ^ 53 : ℤ) : ℚ) * (2 : ℚ) ^ (e - 52) = (2 : ℚ) ^ (e + 1) := by
      have h53 : ((2 ^ 53 : ℤ) : ℚ) = (2 : ℚ) ^ (53 : ℤ) := by norm_num
      rw [h53, ← zpow_add₀ (by norm_num : (2 : ℚ) ≠ 0)]; congr 1; ring
    rw [this]; exact le_of_lt h2
  have r1 : (2 ^ 52 : ℤ) ≤ rneQ (x / (2 : ℚ) ^ (e - 52)) := by
    have := rneQ_mono hlo
    rwa [rneQ_intCast] at this
  have r2 : rneQ (x / (2 : ℚ) ^ (e - 52)) ≤ (2 ^ 53 : ℤ) := by
    have := rneQ_mono hhi
    rwa [rneQ_intCast] at this
  have r1q : ((2 ^ 52 : ℤ) : ℚ) ≤ (rneQ (x / (2 : ℚ) ^ (e - 52)) : ℚ) := by exact_mod_cast r1
  have r2q : (rneQ (x / (2 : ℚ) ^ (e - 52)) : ℚ) ≤ ((2 ^ 53 : ℤ) : ℚ) := by exact_mod_cast r2
  unfold roundAt
  constructor
  · have : (2 : ℚ) ^ e = ((2 ^ 52 : ℤ) : ℚ) * (2 : ℚ) ^ (e - 52) := by
      have h52 : ((2 ^ 52 : ℤ) : ℚ) = (2 : ℚ) ^ (52 : ℤ) := by norm_num
      rw [h52, ← zpow_add₀ (by norm_num : (2 : ℚ) ≠ 0)]; congr 1; ring
    rw [this]
    exact mul_le_mul_of_nonneg_right r1q (le_of_lt hp)
  · have : (2 : ℚ) ^ (e + 1) = ((2 ^ 53 : ℤ) : ℚ) * (2 : ℚ) ^ (e - 52) := by
      have h53 : ((2 ^ 53 : ℤ) : ℚ) = (2 : ℚ) ^ (53 : ℤ) := by norm_num
      rw [h53, ← zpow_add₀ (by norm_num : (2 : ℚ) ≠ 0)]; congr 1; ring
    rw [this]
    exact mul_le_mul_of_nonneg_right r2q (le_of_lt hp)

theorem roundAt_mono (ex ey : ℤ) (x y : ℚ) (hx1 : (2 : ℚ) ^ ex ≤ x) (hx2 : x < (2 : ℚ) ^ (ex + 1))
    (hy1 : (2 : ℚ) ^ ey ≤ y) (hy2 : y < (2 : ℚ) ^ (ey + 1)) (hxy : x ≤ y) :
    roundAt ex x ≤ roundAt ey y := by
  have hlt : (2 : ℚ) ^ ex < (2 : ℚ) ^ (ey + 1) := lt_of_le_of_lt (le_trans hx1 hxy) hy2
  have hle : ex < ey + 1 := (zpow_lt_zpow_iff_right₀ (by norm_num : (1 : ℚ) < 2)).1 hlt
  rcases eq_or_lt_of_le (Int.lt_add_one_iff.1 hle) with heq | hlt2
  · subst heq
    unfold roundAt
    have hp := two_zpow_pos (ex - 52)
    have : x / (2 : ℚ) ^ (ex - 52) ≤ y / (2 : ℚ) ^ (ex - 52) :=
      div_le_div_of_nonneg_right hxy (le_of_lt hp)
    have := rneQ_mono this
    have hq : (rneQ (x / (2 : ℚ) ^ (ex - 52)) : ℚ) ≤ (rneQ (y / (2 : ℚ) ^ (ex - 52)) : ℚ) := by
      exact_mod_cast this
    exact mul_le_mul_of_nonneg_right hq (le_of_lt hp)
  · calc roundAt ex x ≤ (2 : ℚ) ^ (ex + 1) := (roundAt_bounds ex x hx1 hx2).2
      _ ≤ (2 : ℚ) ^ ey := (zpow_le_zpow_iff_right₀ (by norm_num : (1 : ℚ) < 2)).2 (by omega)
      _ ≤ roundAt ey y := (roundAt_bounds ey y hy1 hy2).1

theorem roundAt_exact (e k : ℤ) (m : ℤ) (x : ℚ) (h1 : (2 : ℚ) ^ e ≤ x)
    (hm : m < 2 ^ 53) (hx : x = (m : ℚ) * (2 : ℚ) ^ k) : roundAt e x = x := by
  have hpk := two_zpow_pos k
  have hmq : (m : ℚ) < (2 : ℚ) ^ (53 : ℤ) := by
    have : (m : ℚ) < ((2 ^ 53 : ℤ) : ℚ) := by exact_mod_cast hm
    have e53 : ((2 ^ 53 : ℤ) : ℚ) = (2 : ℚ) ^ (53 : ℤ) := by norm_num
    rwa [e53] at this
  have hlt : (2 : ℚ) ^ e < (2 : ℚ) ^ (53 + k) := by
    rw [zpow_add₀ (by norm_num : (2 : ℚ) ≠ 0)]
    calc (2 : ℚ) ^ e ≤ x := h1
      _ = (m : ℚ) * (2 : ℚ) ^ k := hx
      _ < (2 : ℚ) ^ (53 : ℤ) * (2 : ℚ) ^ k := mul_lt_mul_of_pos_right hmq hpk
  have hek : e < 53 + k := (zpow_lt_zpow_iff_right₀ (by norm_num : (1 : ℚ) < 2)).1 hlt
  have hj : 0 ≤ k - (e - 52) := by omega
  have hdiv : x / (2 : ℚ) ^ (e - 52) = ((m * 2 ^ (k - (e - 52)).toNat : ℤ) : ℚ) := by
    rw [hx, mul_div_assoc, ← zpow_sub₀ (by norm_num : (2 : ℚ) ≠ 0)]
    push_cast
    rw [← zpow_natCast, Int.toNat_of_nonneg hj]
  unfold roundAt
  rw [hdiv, rneQ_intCast]
  push_cast
  rw [← zpow_natCast, Int.toNat_of_nonneg hj, hx, mul_assoc,
    ← zpow_add₀ (by norm_num : (2 : ℚ) ≠ 0)]
  congr 2
  ring

theorem roundF64_of_exp_nonneg (x : Frac) (hn : x.num ≠ 0)
    (he : 0 ≤ ilog2 x.num.natAbs x.den - 52) :
    roundF64 x = ⟨roundHalfEven x.num (x.den * 2 ^ (ilog2 x.num.natAbs x.den - 52).toNat)
      * 2 ^ (ilog2 x.num.natAbs x.den - 52).toNat, 1⟩ := by
  simp only [roundF64, hn, he, if_true, if_false]

theorem roundF64_of_exp_neg (x : Frac) (hn : x.num ≠ 0)
    (he : ¬ 0 ≤ ilog2 x.num.natAbs x.den - 52) :
    roundF64 x = ⟨roundHalfEven (x.num * 2 ^ (-(ilog2 x.num.natAbs x.den - 52)).toNat) x.den,
      2 ^ (-(ilog2 x.num.natAbs x.den - 52)).toNat⟩ := by
  simp only [roundF64, hn, he, if_false]

theorem roundF64_of_num_zero (x : Frac) (hn : x.num = 0) : roundF64 x = ⟨0, 1⟩ := by
  simp only [roundF64, hn, if_true]

theorem natAbs_cast_of_pos (n : ℤ) (hn : 0 < n) : ((n.natAbs : ℕ) : ℚ) = (n : ℚ) := by
  rw [Nat.cast_natAbs, abs_of_pos hn]

theorem roundF64_den_pos (x : Frac) : 0 < (roundF64 x).den := by
  by_cases hn : x.num = 0
  · rw [roundF64_of_num_zero x hn]; exact Nat.one_pos
  · by_cases he : 0 ≤ ilog2 x.num.natAbs x.den - 52
    · rw [roundF64_of_exp_nonneg x hn he]; exact Nat.one_pos
    · rw [roundF64_of_exp_neg x hn he]; positivity

theorem toRat_binade (x : Frac) (hn : 0 < x.num) (hd : 0 < x.den) :
    (2 : ℚ) ^ (ilog2 x.num.natAbs x.den) ≤ x.toRat
      ∧ x.toRat < (2 : ℚ) ^ (ilog2 x.num.natAbs x.den + 1) := by
  have h := ilog2_spec x.num.natAbs x.den (Int.natAbs_pos.2 (ne_of_gt hn)) hd
  rw [natAbs_cast_of_pos _ hn] at h
  exact h

theorem roundF64_toRat_pos (x : Frac) (hn : 0 < x.num) (hd : 0 < x.den) :
    (roundF64 x).toRat = roundAt (ilog2 x.num.natAbs x.den) x.toRat := by
  have hne : x.num ≠ 0 := ne_of_gt hn
  unfold roundAt
  by_cases he : 0 ≤ ilog2 x.num.natAbs x.den - 52
  · rw [roundF64_of_exp_nonneg x hne he]
    have hpos : 0 < x.den * 2 ^ (ilog2 x.num.natAbs x.den - 52).toNat := by positivity
    rw [roundHalfEven_eq _ _ hpos]
    have e2 : (2 : ℚ) ^ (ilog2 x.num.natAbs x.den - 52)
        = ((2 ^ (ilog2 x.num.natAbs x.den - 52).toNat : ℕ) : ℚ) := by
      rw [Nat.cast_pow, ← zpow_natCast, Int.toNat_of_nonneg he]; norm_num
    simp only [Frac.toRat]
    rw [e2]
    push_cast
    rw [div_div]
    simp
  · rw [roundF64_of_exp_neg x hne he]
    have hneg : 0 ≤ -(ilog2 x.num.natAbs x.den - 52) := by omega
    rw [roundHalfEven_eq _ _ hd]
    have e2 : (2 : ℚ) ^ (ilog2 x.num.natAbs x.den - 52)
        = (((2 ^ (-(ilog2 x.num.natAbs x.den - 52)).toNat : ℕ) : ℚ))⁻¹ := by
      rw [Nat.cast_pow, ← zpow_natCast, Int.toNat_of_nonneg hneg, zpow_neg, inv_inv]; norm_num
    simp only [Frac.toRat]
    rw [e2]
    push_cast
    rw [div_inv_eq_mul, div_eq_mul_inv (rneQ _ : ℚ)]
    congr 2
    ring_nf

theorem roundF64_toRat_zero (x : Frac) (hn : x.num = 0) : (roundF64 x).toRat = 0 := by
  simp [roundF64, hn, Frac.toRat]

theorem toRat_pos_iff (x : Frac) (hd : 0 < x.den) : 0 < x.toRat ↔ 0 < x.num := by
  have hdq : (0 : ℚ) < (x.den : ℚ) := by exact_mod_cast hd
  unfold Frac.toRat
  rw [div_pos_iff_of_pos_right hdq]
  exact_mod_cast Iff.rfl

theorem toRat_eq_zero_iff (x : Frac) (hd : 0 < x.den) : x.toRat = 0 ↔ x.num = 0 := by
  have hdq : (x.den : ℚ) ≠ 0 := by exact_mod_cast (ne_of_gt hd)
  unfold Frac.toRat
  rw [div_eq_zero_iff]
  simp [hdq]

theorem roundF64_pos (x : Frac) (hn : 0 < x.num) (hd : 0 < x.den) : 0 < (roundF64 x).toRat := by
  rw [roundF64_toRat_pos x hn hd]
  obtain ⟨h1, h2⟩ := toRat_binade x hn hd
  exact lt_of_lt_of_le (two_zpow_pos _) (roundAt_bounds _ _ h1 h2).1

theorem roundF64_nonneg (x : Frac) (hn : 0 ≤ x.num) (hd : 0 < x.den) : 0 ≤ (roundF64 x).toRat := by
  rcases eq_or_lt_of_le hn with h | h
  · rw [roundF64_toRat_zero x h.symm]
  · exact le_of_lt (roundF64_pos x h hd)

/-- Rounding is monotone on non-negative values. -/
theorem roundF64_mono (x y : Frac) (hx : 0 ≤ x.num) (hdx : 0 < x.den) (hdy : 0 < y.den)
    (hxy : x.toRat ≤ y.toRat) : (roundF64 x).toRat ≤ (roundF64 y).toRat := by
  rcases eq_or_lt_of_le hx with h | h
  · rw [roundF64_toRat_zero x h.symm]
    have hy0 : 0 ≤ y.toRat := by
      have : x.toRat = 0 := (toRat_eq_zero_iff x hdx).2 h.symm
      linarith
    rcases eq_or_lt_of_le hy0 with h0 | h0
    · rw [roundF64_toRat_zero y ((toRat_eq_zero_iff y hdy).1 h0.symm)]
    · exact le_of_lt (roundF64_pos y ((toRat_pos_iff y hdy).1 h0) hdy)
  · have hxpos : 0 < x.toRat := (toRat_pos_iff x hdx).2 h
    have hy : 0 < y.num := (toRat_pos_iff y hdy).1 (lt_of_lt_of_le hxpos hxy)
    rw [roundF64_toRat_pos x h hdx, roundF64_toRat_pos y hy hdy]
    obtain ⟨a1, a2⟩ := toRat_binade x h hdx
    obtain ⟨b1, b2⟩ := toRat_binade y hy hdy
    exact roundAt_mono _ _ _ _ a1 a2 b1 b2 hxy

/-- Rounding leaves a value with at most 53 significant bits unchanged. -/
theorem roundF64_exact (x : Frac) (hx : 0 ≤ x.num) (hdx : 0 < x.den) (m k : ℤ)
    (hm : m < 2 ^ 53) (hv : x.toRat = (m : ℚ) * (2 : ℚ) ^ k) : (roundF64 x).toRat = x.toRat := by
  rcases eq_or_lt_of_le hx with h | h
  · rw [roundF64_toRat_zero x h.symm, (toRat_eq_zero_iff x hdx).2 h.symm]
  · rw [roundF64_toRat_pos x h hdx]
    exact roundAt_exact _ k m _ (toRat_binade x h hdx).1 hm hv

theorem roundF64_ofInt_exact (i : ℤ) (h0 : 0 ≤ i) (h : i < 2 ^ 53) :
    (roundF64 (Frac.ofInt i)).toRat = (i : ℚ) := by
  have := roundF64_exact (Frac.ofInt i) h0 (by simp [Frac.ofInt]) i 0 h (by simp [Frac.ofInt, Frac.toRat])
  rw [this]
  simp [Frac.ofInt, Frac.toRat]

theorem roundF64_nonpos (x : Frac) (hn : x.num ≤ 0) (hd : 0 < x.den) :
    (roundF64 x).toRat ≤ 0 := by
  have key : ∀ (n : ℤ) (d : ℕ), 0 < d → n ≤ 0 → roundHalfEven n d ≤ 0 := by
    intro n d hd0 hn0
    rw [roundHalfEven_eq n d hd0]
    have hq : (n : ℚ) / (d : ℚ) ≤ ((0 : ℤ) : ℚ) := by
      have : (n : ℚ) ≤ 0 := by exact_mod_cast hn0
      have hdq : (0 : ℚ) < (d : ℚ) := by exact_mod_cast hd0
      simpa using div_nonpos_of_nonpos_of_nonneg this (le_of_lt hdq)
    have := rneQ_mono hq
    rwa [rneQ_intCast] at this
  by_cases h0 : x.num = 0
  · rw [roundF64_toRat_zero x h0]
  by_cases he : 0 ≤ ilog2 x.num.natAbs x.den - 52
  · rw [roundF64_of_exp_nonneg x h0 he]
    have hpos : 0 < x.den * 2 ^ (ilog2 x.num.natAbs x.den - 52).toNat := by positivity
    have := key x.num _ hpos hn
    simp only [Frac.toRat, Nat.cast_one, div_one]
    have h2 : (0 : ℤ) ≤ 2 ^ (ilog2 x.num.natAbs x.den - 52).toNat := by positivity
    exact_mod_cast Int.mul_nonpos_of_nonpos_of_nonneg this h2
  · rw [roundF64_of_exp_neg x h0 he]
    have hnum : x.num * 2 ^ (-(ilog2 x.num.natAbs x.den - 52)).toNat ≤ 0 :=
      Int.mul_nonpos_of_nonpos_of_nonneg hn (by positivity)
    have := key _ x.den hd hnum
    simp only [Frac.toRat]
    apply div_nonpos_of_nonpos_of_nonneg
    · exact_mod_cast this
    · positivity

theorem Frac.lt_iff (a b : Frac) (ha : 0 < a.den) (hb : 0 < b.den) :
    Frac.lt a b = true ↔ a.toRat < b.toRat := by
  have haq : (0 : ℚ) < (a.den : ℚ) := by exact_mod_cast ha
  have hbq : (0 : ℚ) < (b.den : ℚ) := by exact_mod_cast hb
  unfold Frac.lt Frac.toRat
  rw [decide_eq_true_eq, div_lt_div_iff₀ haq hbq]
  exact_mod_cast Iff.rfl

theorem Frac.toRat_add (a b : Frac) (ha : 0 < a.den) (hb : 0 < b.den) :
    (Frac.add a b).toRat = a.toRat + b.toRat := by
  have haq : (a.den : ℚ) ≠ 0 := by exact_mod_cast (ne_of_gt ha)
  have hbq : (b.den : ℚ) ≠ 0 := by exact_mod_cast (ne_of_gt hb)
  unfold Frac.add Frac.toRat
  push_cast
  field_simp

theorem Frac.toRat_div (a b : Frac) (ha : 0 < a.den) (hb : 0 < b.den) (hbn : 0 < b.num) :
    (Frac.div a b).toRat = a.toRat / b.toRat := by
  have haq : (a.den : ℚ) ≠ 0 := by exact_mod_cast (ne_of_gt ha)
  have hbq : (b.den : ℚ) ≠ 0 := by exact_mod_cast (ne_of_gt hb)
  have hbnq : (b.num : ℚ) ≠ 0 := by exact_mod_cast (ne_of_gt hbn)
  have e : ((b.num.natAbs : ℕ) : ℚ) = (b.num : ℚ) := natAbs_cast_of_pos _ hbn
  unfold Frac.div Frac.toRat
  simp only [le_of_lt hbn, if_true]
  push_cast
  rw [e]
  field_simp

theorem toRat_nonneg_iff (x : Frac) (hd : 0 < x.den) : 0 ≤ x.toRat ↔ 0 ≤ x.num := by
  have hdq : (0 : ℚ) < (x.den : ℚ) := by exact_mod_cast hd
  unfold Frac.toRat
  rw [le_div_iff₀ hdq, zero_mul]
  exact_mod_cast Iff.rfl

theorem roundF64_num_nonneg (x : Frac) (hn : 0 ≤ x.num) (hd : 0 < x.den) :
    0 ≤ (roundF64 x).num :=
  (toRat_nonneg_iff _ (roundF64_den_pos x)).1 (roundF64_nonneg x hn hd)

theorem roundF64_giga :
    roundF64 (Frac.ofInt 1000000000) = ⟨8388608000000000, 8388608⟩ := by decide

theorem roundF64_fraction_top :
    roundF64 (Frac.div ⟨999999999, 1⟩ ⟨8388608000000000, 8388608⟩)
      = ⟨9007199245733793, 9007199254740992⟩ := by decide

/-- The fraction part of `Seconds`: `float64(nsec) / 1e9` for `0 ≤ nsec < 10 ^ 9`. -/
theorem fraction_bounds (N : ℤ) (h0 : 0 ≤ N) (h1 : N < 1000000000) :
    0 ≤ (roundF64 (Frac.div (roundF64 (Frac.ofInt N)) (roundF64 (Frac.ofInt 1000000000)))).num
    ∧ (roundF64 (Frac.div (roundF64 (Frac.ofInt N)) (roundF64 (Frac.ofInt 1000000000)))).toRat
        ≤ 9007199245733793 / 9007199254740992 := by
  have hN : (roundF64 (Frac.ofInt N)).toRat = (N : ℚ) :=
    roundF64_ofInt_exact N h0 (by omega)
  have hNd := roundF64_den_pos (Frac.ofInt N)
  have hNn : 0 ≤ (roundF64 (Frac.ofInt N)).num :=
    roundF64_num_nonneg _ (by simpa [Frac.ofInt] using h0) (by simp [Frac.ofInt])
  rw [roundF64_giga]
  have hQd : 0 < (Frac.div (roundF64 (Frac.ofInt N)) ⟨8388608000000000, 8388608⟩).den := by
    simp only [Frac.div]
    norm_num
    exact hNd
  have hQn : 0 ≤ (Frac.div (roundF64 (Frac.ofInt N)) ⟨8388608000000000, 8388608⟩).num := by
    simp only [Frac.div]
    norm_num
    exact hNn
  have hQ : (Frac.div (roundF64 (Frac.ofInt N)) ⟨8388608000000000, 8388608⟩).toRat
      = (N : ℚ) / 1000000000 := by
    rw [Frac.toRat_div _ _ hNd (by norm_num) (by norm_num), hN]
    simp only [Frac.toRat]
    norm_num
  refine ⟨roundF64_num_nonneg _ hQn hQd, ?_⟩
  have htop : (Frac.div ⟨999999999, 1⟩ ⟨8388608000000000, 8388608⟩ : Frac).toRat
      = (999999999 : ℚ) / 1000000000 := by
    rw [Frac.toRat_div _ _ (by norm_num) (by norm_num) (by norm_num)]
    simp only [Frac.toRat]
    norm_num
  have hmono := roundF64_mono _ (Frac.div ⟨999999999, 1⟩ ⟨8388608000000000, 8388608⟩) hQn hQd
    (by simp [Frac.div]) (by
      rw [hQ, htop]
      have : (N : ℚ) ≤ 999999999 := by exact_mod_cast (by omega : N ≤ 999999999)
      linarith)
  rw [roundF64_fraction_top] at hmono
  simpa [Frac.toRat] using hmono

theorem rneQ_lt_of_lt_sub_half (z : ℚ) (K : ℤ) (h : z < (K : ℚ) - 1 / 2) : rneQ z < K := by
  have h1 : (⌊z⌋ : ℚ) ≤ z := Int.floor_le z
  have hfl : ⌊z⌋ < K := by
    have : (⌊z⌋ : ℚ) < (K : ℚ) := by linarith
    exact_mod_cast this
  unfold rneQ
  split_ifs with a b c
  · exact hfl
  · have : (⌊z⌋ : ℚ) + 1 < (K : ℚ) := by linarith
    exact_mod_cast this
  · exact hfl
  · have hge : (1 : ℚ) / 2 ≤ z - ⌊z⌋ := not_lt.1 a
    have : (⌊z⌋ : ℚ) + 1 < (K : ℚ) := by linarith
    exact_mod_cast this

/-- A value below `2 ^ 24` that stays `9007199 / 2 ^ 53` under an integer rounds
to a value under that integer. -/
theorem roundF64_lt_int (x : Frac) (hn : 0 < x.num) (hd : 0 < x.den) (I : ℤ)
    (hI : (I : ℚ) ≤ 16777216) (hx : x.toRat ≤ (I : ℚ) - 9007199 / 9007199254740992) :
    (roundF64 x).toRat < (I : ℚ) := by
  obtain ⟨b1, b2⟩ := toRat_binade x hn hd
  set e := ilog2 x.num.natAbs x.den with he
  have hlt : (2 : ℚ) ^ e < (2 : ℚ) ^ (24 : ℤ) := by
    have : (2 : ℚ) ^ (24 : ℤ) = 16777216 := by norm_num
    rw [this]
    linarith
  have he24 : e < 24 := (zpow_lt_zpow_iff_right₀ (by norm_num : (1 : ℚ) < 2)).1 hlt
  have hj : 0 ≤ 52 - e := by omega
  have hp := two_zpow_pos (e - 52)
  have hpinv : (2 : ℚ) ^ (e - 52) * (2 : ℚ) ^ (52 - e) = 1 := by
    rw [← zpow_add₀ (by norm_num : (2 : ℚ) ≠ 0)]; simp
  have hK : ((I * 2 ^ (52 - e).toNat : ℤ) : ℚ) = (I : ℚ) * (2 : ℚ) ^ (52 - e) := by
    push_cast
    rw [← zpow_natCast, Int.toNat_of_nonneg hj]
  have hbig : (2 : ℚ) ^ (29 : ℤ) ≤ (2 : ℚ) ^ (52 - e) :=
    (zpow_le_zpow_iff_right₀ (by norm_num : (1 : ℚ) < 2)).2 (by omega)
  have h29 : (2 : ℚ) ^ (29 : ℤ) = 536870912 := by norm_num
  have hz : x.toRat / (2 : ℚ) ^ (e - 52) < ((I * 2 ^ (52 - e).toNat : ℤ) : ℚ) - 1 / 2 := by
    rw [hK, div_lt_iff₀ hp]
    have hq := two_zpow_pos (52 - e)
    have : ((I : ℚ) * (2 : ℚ) ^ (52 - e) - 1 / 2) * (2 : ℚ) ^ (e - 52)
        = (I : ℚ) - 1 / 2 * (2 : ℚ) ^ (e - 52) := by
      have : (I : ℚ) * (2 : ℚ) ^ (52 - e) * (2 : ℚ) ^ (e - 52) = (I : ℚ) := by
        rw [mul_assoc, mul_comm ((2 : ℚ) ^ (52 - e)), hpinv, mul_one]
      linarith [this]
    rw [this]
    have hsmall : (2 : ℚ) ^ (e - 52) ≤ 1 / 536870912 := by
      have h1 : (2 : ℚ) ^ (e - 52) * 536870912 ≤ (2 : ℚ) ^ (e - 52) * (2 : ℚ) ^ (52 - e) := by
        rw [← h29]
        exact mul_le_mul_of_nonneg_left hbig (le_of_lt hp)
      rw [hpinv] at h1
      rw [le_div_iff₀ (by norm_num)]
      exact h1
    have : (9007199 : ℚ) / 9007199254740992 > 1 / 2 * (1 / 536870912) := by norm_num
    nlinarith
  have hr := rneQ_lt_of_lt_sub_half _ _ hz
  have hr' : rneQ (x.toRat / (2 : ℚ) ^ (e - 52)) ≤ I * 2 ^ (52 - e).toNat - 1 := by omega
  have hrq : (rneQ (x.toRat / (2 : ℚ) ^ (e - 52)) : ℚ) ≤ (I : ℚ) * (2 : ℚ) ^ (52 - e) - 1 := by
    rw [← hK]
    exact_mod_cast hr'
  rw [roundF64_toRat_pos x hn hd, ← he]
  unfold roundAt
  calc (rneQ (x.toRat / (2 : ℚ) ^ (e - 52)) : ℚ) * (2 : ℚ) ^ (e - 52)
      ≤ ((I : ℚ) * (2 : ℚ) ^ (52 - e) - 1) * (2 : ℚ) ^ (e - 52) :=
        mul_le_mul_of_nonneg_right hrq (le_of_lt hp)
    _ = (I : ℚ) - (2 : ℚ) ^ (e - 52) := by
        have : (I : ℚ) * (2 : ℚ) ^ (52 - e) * (2 : ℚ) ^ (e - 52) = (I : ℚ) := by
          rw [mul_assoc, mul_comm ((2 : ℚ) ^ (52 - e)), hpinv, mul_one]
        linarith [this]
    _ < (I : ℚ) := by linarith

/-! ## The throttle decision -/

/-- The exact sum that `Seconds` rounds last, for a non-negative duration:
whole seconds plus the rounded fraction. -/
theorem seconds_sum (d : ℤ) (h0 : 0 ≤ d) (hmax : d ≤ maxDuration) :
    ∃ s : Frac, Seconds d = roundF64 s ∧ 0 < s.den ∧ 0 ≤ s.num
      ∧ ((d / 1000000000 : ℤ) : ℚ) ≤ s.toRat
      ∧ s.toRat ≤ ((d / 1000000000 : ℤ) : ℚ) + 9007199245733793 / 9007199254740992 := by
  have hS0 : 0 ≤ d / 1000000000 := Int.ediv_nonneg h0 (by norm_num)
  have hSlt : d / 1000000000 < 2 ^ 53 := by
    unfold maxDuration at hmax
    omega
  have hN0 : 0 ≤ d % 1000000000 := Int.emod_nonneg _ (by norm_num)
  have hN1 : d % 1000000000 < 1000000000 := Int.emod_lt_of_pos _ (by norm_num)
  obtain ⟨f1, f2⟩ := fraction_bounds (d % 1000000000) hN0 hN1
  have hA : (roundF64 (Frac.ofInt (d / 1000000000))).toRat = ((d / 1000000000 : ℤ) : ℚ) :=
    roundF64_ofInt_exact _ hS0 hSlt
  have hAd := roundF64_den_pos (Frac.ofInt (d / 1000000000))
  have hAn : 0 ≤ (roundF64 (Frac.ofInt (d / 1000000000))).num :=
    roundF64_num_nonneg _ (by simpa [Frac.ofInt] using hS0) (by simp [Frac.ofInt])
  have hFd := roundF64_den_pos
    (Frac.div (roundF64 (Frac.ofInt (d % 1000000000))) (roundF64 (Frac.ofInt 1000000000)))
  have hF0 := (toRat_nonneg_iff _ hFd).2 f1
  refine ⟨Frac.add (roundF64 (Frac.ofInt (d / 1000000000)))
    (roundF64 (Frac.div (roundF64 (Frac.ofInt (d % 1000000000)))
      (roundF64 (Frac.ofInt 1000000000)))), ?_, ?_, ?_, ?_, ?_⟩
  · unfold Seconds
    rw [Int.tdiv_eq_ediv h0 (by norm_num), Int.tmod_eq_emod h0 (by norm_num)]
  · simp only [Frac.add]
    exact Nat.mul_pos hAd hFd
  · have := Frac.toRat_add _ _ hAd hFd
    apply (toRat_nonneg_iff _ (by simp only [Frac.add]; exact Nat.mul_pos hAd hFd)).1
    rw [this, hA]
    have : (0 : ℚ) ≤ ((d / 1000000000 : ℤ) : ℚ) := by exact_mod_cast hS0
    linarith
  · rw [Frac.toRat_add _ _ hAd hFd, hA]
    linarith
  · rw [Frac.toRat_add _ _ hAd hFd, hA]
    linarith

theorem seconds_den_pos (d : ℤ) : 0 < (Seconds d).den := roundF64_den_pos _

theorem throttled_iff (d I : ℤ) :
    throttled d I = true ↔ (Seconds d).toRat < (roundF64 (Frac.ofInt I)).toRat :=
  Frac.lt_iff _ _ (seconds_den_pos d) (roundF64_den_pos _)

/-- A non-positive interval never throttles a non-negative elapsed time. -/
theorem throttled_of_interval_nonpos (d I : ℤ) (h0 : 0 ≤ d) (hmax : d ≤ maxDuration)
    (hI : I ≤ 0) : throttled d I = false := by
  rw [Bool.eq_false_iff, Ne, throttled_iff, not_lt]
  obtain ⟨s, hs, hsd, hsn, _, _⟩ := seconds_sum d h0 hmax
  rw [hs]
  calc (roundF64 (Frac.ofInt I)).toRat ≤ 0 :=
        roundF64_nonpos _ (by simpa [Frac.ofInt] using hI) (by simp [Frac.ofInt])
    _ ≤ (roundF64 s).toRat := roundF64_nonneg s hsn hsd

/-- Once the interval has elapsed in full the call is not throttled. -/
theorem throttled_of_elapsed (d I : ℤ) (hmax : d ≤ maxDuration) (hI : 0 ≤ I)
    (h : I * 1000000000 ≤ d) : throttled d I = false := by
  have h0 : 0 ≤ d := by omega
  have hS : I ≤ d / 1000000000 := by omega
  have hSlt : d / 1000000000 < 2 ^ 53 := by
    unfold maxDuration at hmax
    omega
  rw [Bool.eq_false_iff, Ne, throttled_iff, not_lt]
  obtain ⟨s, hs, hsd, hsn, hlo, _⟩ := seconds_sum d h0 hmax
  rw [hs, roundF64_ofInt_exact I hI (by omega)]
  have hmono := roundF64_mono (Frac.ofInt (d / 1000000000)) s
    (by simp only [Frac.ofInt]; omega) (by simp [Frac.ofInt]) hsd
    (by simpa [Frac.ofInt, Frac.toRat] using hlo)
  rw [roundF64_ofInt_exact _ (by omega) hSlt] at hmono
  have : (I : ℚ) ≤ ((d / 1000000000 : ℤ) : ℚ) := by exact_mod_cast hS
  linarith

/-- Within an interval of at most `2 ^ 24` seconds the call is throttled. -/
theorem throttled_of_within (d I : ℤ) (h0 : 0 ≤ d) (hI : I ≤ 16777216)
    (h : d < I * 1000000000) : throttled d I = true := by
  have hIpos : 0 < I := by omega
  have hS : d / 1000000000 ≤ I - 1 := by omega
  have hmax : d ≤ maxDuration := by
    unfold maxDuration
    omega
  rw [throttled_iff]
  obtain ⟨s, hs, hsd, hsn, _, hhi⟩ := seconds_sum d h0 hmax
  rw [hs, roundF64_ofInt_exact I (le_of_lt hIpos) (by omega)]
  have hIq : (I : ℚ) ≤ 16777216 := by exact_mod_cast hI
  have hSq : ((d / 1000000000 : ℤ) : ℚ) ≤ (I : ℚ) - 1 := by exact_mod_cast hS
  rcases eq_or_lt_of_le hsn with hz | hp
  · rw [roundF64_toRat_zero s hz.symm]
    exact_mod_cast hIpos
  · apply roundF64_lt_int s hp hsd I hIq
    have : (9007199245733793 : ℚ) / 9007199254740992 = 1 - 9007199 / 9007199254740992 := by
      norm_num
    linarith

/-! ## Presence of the summary entries -/

theorem mapLookup_isSome_insert {β : Type} (m : List (String × β)) (k k' : String) (v : β)
    (h : (mapLookup m k').isSome = true) : (mapLookup (mapInsert m k v) k').isSome = true := by
  by_cases e : k' = k
  · subst e
    rw [mapLookup_insert_self]; rfl
  · rw [mapLookup_insert_ne _ _ _ _ e]; exact h

theorem mapLookup_eq_some_of_get (m : List (String × Nat)) (k : String)
    (h : (mapLookup m k).isSome = true) : mapLookup m k = some (seriesGet m k) := by
  unfold seriesGet
  cases hm : mapLookup m k with
  | none => rw [hm] at h; cases h
  | some v => rfl

theorem fsStep_summary_present (s : List (String × Nat)) (f : FsStats) :
    (mapLookup (fsStep s f) "fs_summary.fs_limit").isSome = true
    ∧ (mapLookup (fsStep s f) "fs_summary.fs_usage").isSome = true := by
  have e1 : colFsSummary ++ "." ++ colFsLimit = "fs_summary.fs_limit" := by decide
  have e2 : colFsSummary ++ "." ++ colFsUsage = "fs_summary.fs_usage" := by decide
  unfold fsStep
  simp only [e1, e2]
  constructor
  · apply mapLookup_isSome_insert
    apply mapLookup_isSome_insert
    apply mapLookup_isSome_insert
    rw [mapLookup_insert_self]; rfl
  · apply mapLookup_isSome_insert
    apply mapLookup_isSome_insert
    rw [mapLookup_insert_self]; rfl

theorem foldl_summary_present (fs : List FsStats) (s : List (String × Nat))
    (h : (mapLookup s "fs_summary.fs_limit").isSome = true
      ∧ (mapLookup s "fs_summary.fs_usage").isSome = true) :
    (mapLookup (fs.foldl fsStep s) "fs_summary.fs_limit").isSome = true
    ∧ (mapLookup (fs.foldl fsStep s) "fs_summary.fs_usage").isSome = true := by
  induction fs generalizing s with
  | nil => exact h
  | cons f fs ih => exact ih _ (fsStep_summary_present s f)

/-! ## Clock and duration lemmas -/

theorem clampDuration_le (d : ℤ) : clampDuration d ≤ maxDuration := by
  unfold clampDuration maxDuration minDuration
  split_ifs <;> omega

theorem clampDuration_id (d : ℤ) (h1 : minDuration ≤ d) (h2 : d ≤ maxDuration) :
    clampDuration d = d := by
  unfold clampDuration
  unfold maxDuration minDuration at *
  split_ifs <;> omega

theorem clampDuration_top (d : ℤ) (h : maxDuration ≤ d) : clampDuration d = maxDuration := by
  unfold clampDuration
  unfold maxDuration minDuration at *
  split_ifs <;> omega

theorem Time.Sub_le (t u : Time) : t.Sub u ≤ maxDuration := by
  unfold Time.Sub
  split <;> exact clampDuration_le _

theorem Time.Sub_zero (t : Time) (h : maxDuration ≤ t.wall) : t.Sub zeroTime = maxDuration := by
  unfold Time.Sub zeroTime
  cases t.mono <;> simp [clampDuration_top _ h]

theorem Time.Sub_mono (t u : Time) (a b : ℤ) (ht : t.mono = some a) (hu : u.mono = some b) :
    t.Sub u = clampDuration (a - b) := by
  unfold Time.Sub
  rw [ht, hu]

theorem lastFlushOf_fresh (driver : wavefrontStorage) (name : String)
    (h : mapLookup driver.LastFlush name = none) : lastFlushOf driver name = zeroTime := by
  simp [lastFlushOf, h]

theorem mapInsert_ne_nil {β : Type} (m : List (String × β)) (k : String) (v : β) :
    mapInsert m k v ≠ [] := by
  cases m with
  | nil => simp [mapInsert]
  | cons p m =>
    obtain ⟨k', v'⟩ := p
    simp only [mapInsert]
    split_ifs <;> simp

theorem series_ne_nil (stats : ContainerStats) :
    containerFsStatsToValues (containerStatsToValues stats) stats ≠ [] := by
  unfold containerFsStatsToValues
  have key : ∀ (fs : List FsStats) (s : List (String × Nat)), s ≠ [] → fs.foldl fsStep s ≠ [] := by
    intro fs
    induction fs with
    | nil => intro s hs; exact hs
    | cons f fs ih =>
      intro s _
      rw [List.foldl_cons]
      exact ih _ (mapInsert_ne_nil _ _ _)
  apply key
  rw [containerStatsToValues_eq]
  simp [baseEntries]

theorem order_ne_nil {α : Type} (o : RangeOrder α) (l : List α) (h : l ≠ []) : o.order l ≠ [] := by
  intro e
  have := o.perm l
  rw [e] at this
  exact h (List.Perm.nil_eq this).symm

/-- A flushing call over a healthy connection delivers at least one line. -/
theorem linesWritten_flush_ne_nil (env : Env) (driver : wavefrontStorage)
    (ref : ContainerReference) (stats : ContainerStats)
    (h : throttled (env.current.Sub (lastFlushOf driver (displayName ref))) driver.WfInterval = false)
    (hc : driver.Conn.faults = []) :
    linesWritten driver (AddStats env driver ref (some stats)).1 ≠ [] := by
  rw [linesWritten_flush env driver ref stats h hc]
  intro e
  exact order_ne_nil env.seriesOrder _ (series_ne_nil stats) (List.map_eq_nil_iff.1 e)

/-! ## Display identity -/

theorem displayName_of_no_alias (ref : ContainerReference) (h : ref.Aliases = []) :
    displayName ref = ref.Name := by
  simp [displayName, h]

theorem displayName_of_alias (ref : ContainerReference) (a : String) (rest : List String)
    (h : ref.Aliases = a :: rest) : displayName ref = a := by
  simp [displayName, h]

/-- The text handed to `Fprintf` always holds the container tag. -/
theorem lineFormat_has_container_tag (p ts src name add app : String) (kv : String × Nat) :
    ("container=\"" ++ name ++ "\"").data <:+: (lineFormat p ts src name add app kv).data := by
  unfold lineFormat
  split_ifs
  · refine ⟨(p ++ (Split kv.1 '~').getD 1 "" ++ " " ++ formatUint kv.2 ++ " " ++ ts ++ " source="
      ++ src ++ " ").data, (" device=\"" ++ (Split kv.1 '~').getD 0 "" ++ "\" " ++ add ++ " " ++ app
      ++ " \n").data, ?_⟩
    simp [sprintfDevice, String.data_append]
  · refine ⟨(p ++ kv.1 ++ " " ++ formatUint kv.2 ++ " " ++ ts ++ " source=" ++ src ++ " ").data,
      (" " ++ add ++ " " ++ app ++ " \n").data, ?_⟩
    simp [sprintfPlain, String.data_append]

/-- A written line holds the container tag when its text has no `%`. -/
theorem lineText_has_container_tag (p ts src name add app : String) (kv : String × Nat)
    (h : '%' ∉ (lineFormat p ts src name add app kv).data) :
    ("container=\"" ++ name ++ "\"").data <:+: (lineText p ts src name add app kv).data := by
  rw [lineText, formatNoArgs_of_no_percent _ h]
  exact lineFormat_has_container_tag p ts src name add app kv

/-! ## Claim C1 -/

set_option maxRecDepth 100000 in
/-- C1, as stated, fails: with interval `33554432` seconds and a second call
one nanosecond less than the interval after the first, both calls write lines. -/
theorem throttle_early_flush :
    (0 : ℤ) ≤ 33554431999999999 - 0
    ∧ (33554431999999999 : ℤ) - 0 < 33554432 * 1000000000
    ∧ mapLookup (freshDriver 33554432).LastFlush (displayName plainRef) = none
    ∧ linesWritten (freshDriver 33554432)
        (AddStats (envAt 0) (freshDriver 33554432) plainRef (some oneDeviceStats)).1 ≠ []
    ∧ linesWritten (AddStats (envAt 0) (freshDriver 33554432) plainRef (some oneDeviceStats)).1
        (AddStats (envAt 33554431999999999)
          (AddStats (envAt 0) (freshDriver 33554432) plainRef (some oneDeviceStats)).1
          plainRef (some oneDeviceStats)).1 ≠ [] := by
  decide

/-- C1, amended: for every container and every configured interval
`0 < I ≤ 16777216` (`2 ^ 24` seconds), two `AddStats` calls for the container
with non-nil snapshots at times `t1` and `t2` with `0 ≤ t2 - t1 < I` seconds
(container not flushed before `t1`, healthy connection) produce output only
for the first call: the first writes at least one line, the second writes
none and leaves the driver state unchanged.  Here `t1`, `t2` are the monotonic
readings `m0`, `m2` of the first `time.Now()` of each call, `m1` is the reading
the first call records, and the wall clock shows a date later than the year
293, the reach of a `time.Duration` from the zero time. -/
theorem throttle_within_interval (driver : wavefrontStorage) (ref : ContainerReference)
    (st1 st2 : ContainerStats) (env1 env2 : Env) (I m0 m1 m2 : ℤ)
    (hI0 : 0 < I) (hI : I ≤ 16777216) (hint : driver.WfInterval = I)
    (hconn : driver.Conn.faults = [])
    (hfresh : mapLookup driver.LastFlush (displayName ref) = none)
    (hwall : maxDuration ≤ env1.current.wall)
    (h0 : env1.current.mono = some m0) (h1 : env1.flushed.mono = some m1)
    (h2 : env2.current.mono = some m2)
    (hord : m0 ≤ m1 ∧ m1 ≤ m2) (hgap : m2 - m0 < I * 1000000000) :
    linesWritten driver (AddStats env1 driver ref (some st1)).1 ≠ []
    ∧ linesWritten (AddStats env1 driver ref (some st1)).1
        (AddStats env2 (AddStats env1 driver ref (some st1)).1 ref (some st2)).1 = []
    ∧ (AddStats env2 (AddStats env1 driver ref (some st1)).1 ref (some st2)).1
        = (AddStats env1 driver ref (some st1)).1 := by
  have _ := h0
  have hfirst : throttled (env1.current.Sub (lastFlushOf driver (displayName ref)))
      driver.WfInterval = false := by
    rw [lastFlushOf_fresh _ _ hfresh, Time.Sub_zero _ hwall, hint]
    apply throttled_of_elapsed _ _ (le_refl _) (le_of_lt hI0)
    unfold maxDuration
    omega
  have hsecond : throttled (env2.current.Sub
      (lastFlushOf (AddStats env1 driver ref (some st1)).1 (displayName ref)))
      (AddStats env1 driver ref (some st1)).1.WfInterval = true := by
    rw [AddStats_flush _ _ _ _ hfirst]
    simp only [lastFlushOf, mapLookup_insert_self, Option.getD_some]
    rw [Time.Sub_mono _ _ m2 m1 h2 h1, hint,
      clampDuration_id _ (by unfold minDuration; omega) (by unfold maxDuration; omega)]
    exact throttled_of_within _ _ (by omega) hI (by omega)
  have hsame := AddStats_throttled env2 _ ref st2 hsecond
  refine ⟨linesWritten_flush_ne_nil env1 driver ref st1 hfirst hconn, ?_, ?_⟩
  · rw [hsame]
    exact linesWritten_self _
  · rw [hsame]

/-- The amended C1 at interval `10`: a second call five seconds after the first. -/
theorem throttle_within_interval_witness :
    (0 : ℤ) < 10 ∧ (10 : ℤ) ≤ 16777216
    ∧ (freshDriver 10).WfInterval = 10
    ∧ (freshDriver 10).Conn.faults = []
    ∧ mapLookup (freshDriver 10).LastFlush (displayName plainRef) = none
    ∧ maxDuration ≤ (envAt 0).current.wall
    ∧ (envAt 0).current.mono = some 0 ∧ (envAt 0).flushed.mono = some 0
    ∧ (envAt 5000000000).current.mono = some 5000000000
    ∧ ((0 : ℤ) ≤ 0 ∧ (0 : ℤ) ≤ 5000000000) ∧ (5000000000 : ℤ) - 0 < 10 * 1000000000
    ∧ (linesWritten (freshDriver 10)
          (AddStats (envAt 0) (freshDriver 10) plainRef (some oneDeviceStats)).1 ≠ []
      ∧ linesWritten (AddStats (envAt 0) (freshDriver 10) plainRef (some oneDeviceStats)).1
          (AddStats (envAt 5000000000)
            (AddStats (envAt 0) (freshDriver 10) plainRef (some oneDeviceStats)).1
            plainRef (some oneDeviceStats)).1 = []
      ∧ (AddStats (envAt 5000000000)
            (AddStats (envAt 0) (freshDriver 10) plainRef (some oneDeviceStats)).1
            plainRef (some oneDeviceStats)).1
          = (AddStats (envAt 0) (freshDriver 10) plainRef (some oneDeviceStats)).1) :=
  ⟨by decide, by decide, rfl, rfl, rfl, by decide, rfl, rfl, rfl, by decide, by decide,
    throttle_within_interval (freshDriver 10) plainRef oneDeviceStats oneDeviceStats
      (envAt 0) (envAt 5000000000) 10 0 0 5000000000 (by decide) (by decide) rfl rfl rfl
      (by decide) rfl rfl rfl (by decide) (by decide)⟩

/-! ## Claims C3, C4, C5 -/

/-- C3: `AddStats` with a nil snapshot returns nil, writes no line and leaves
the `LastFlush` map (and the whole driver state) as it was. -/
theorem addStats_nil_noop (env : Env) (driver : wavefrontStorage) (ref : ContainerReference) :
    (AddStats env driver ref none).2 = none
    ∧ linesWritten driver (AddStats env driver ref none).1 = []
    ∧ (AddStats env driver ref none).1.LastFlush = driver.LastFlush
    ∧ (AddStats env driver ref none).1 = driver := by
  refine ⟨rfl, ?_, rfl, rfl⟩
  exact linesWritten_self driver

/-- C4: `containerStatsToValues` returns a map with exactly the seven keys
`cpu_cumulative_usage`, `memory_usage`, `memory_working_set`, `rx_bytes`,
`rx_errors`, `tx_bytes`, `tx_errors`, each holding the unmodified snapshot field. -/
theorem containerStatsToValues_exact (stats : ContainerStats) :
    mapKeys (containerStatsToValues stats)
      = ["cpu_cumulative_usage", "memory_usage", "memory_working_set", "rx_bytes", "rx_errors",
         "tx_bytes", "tx_errors"]
    ∧ mapLookup (containerStatsToValues stats) "cpu_cumulative_usage" = some stats.Cpu.Usage.Total
    ∧ mapLookup (containerStatsToValues stats) "memory_usage" = some stats.Memory.Usage
    ∧ mapLookup (containerStatsToValues stats) "memory_working_set" = some stats.Memory.WorkingSet
    ∧ mapLookup (containerStatsToValues stats) "rx_bytes" = some stats.Network.RxBytes
    ∧ mapLookup (containerStatsToValues stats) "rx_errors" = some stats.Network.RxErrors
    ∧ mapLookup (containerStatsToValues stats) "tx_bytes" = some stats.Network.TxBytes
    ∧ mapLookup (containerStatsToValues stats) "tx_errors" = some stats.Network.TxErrors := by
  rw [containerStatsToValues_eq]
  refine ⟨rfl, ?_, ?_, ?_, ?_, ?_, ?_, ?_⟩ <;> simp [baseEntries, mapLookup]

/-- C5, as stated, fails: two device records with `uint64` limits
`2 ^ 63` each leave `fs_summary.fs_limit` at `0`, not at their sum `2 ^ 64`. -/
theorem fs_summary_sum_overflow :
    overflowStats.Filesystem ≠ []
    ∧ (∀ f ∈ overflowStats.Filesystem, f.Limit < 2 ^ 64 ∧ f.Usage < 2 ^ 64)
    ∧ mapLookup (containerFsStatsToValues (containerStatsToValues overflowStats) overflowStats)
        "fs_summary.fs_limit" = some 0
    ∧ (overflowStats.Filesystem.map FsStats.Limit).sum = 18446744073709551616
    ∧ mapLookup (containerFsStatsToValues (containerStatsToValues overflowStats) overflowStats)
        "fs_summary.fs_limit" ≠ some (overflowStats.Filesystem.map FsStats.Limit).sum := by
  decide

/-- C5, amended: for a snapshot with at least one device record whose limits
and usages each add up to less than `2 ^ 64`, the entries `fs_summary.fs_limit`
and `fs_summary.fs_usage` after `containerFsStatsToValues` hold the sum of
`Limit` resp. `Usage` over all device records (any identifiers, duplicates
allowed). -/
theorem fs_summary_sums (stats : ContainerStats) (hne : stats.Filesystem ≠ [])
    (hL : (stats.Filesystem.map FsStats.Limit).sum < 2 ^ 64)
    (hU : (stats.Filesystem.map FsStats.Usage).sum < 2 ^ 64) :
    mapLookup (containerFsStatsToValues (containerStatsToValues stats) stats) "fs_summary.fs_limit"
      = some (stats.Filesystem.map FsStats.Limit).sum
    ∧ mapLookup (containerFsStatsToValues (containerStatsToValues stats) stats) "fs_summary.fs_usage"
      = some (stats.Filesystem.map FsStats.Usage).sum := by
  have hb := base_no_summary stats
  have hp : (mapLookup (containerFsStatsToValues (containerStatsToValues stats) stats)
        "fs_summary.fs_limit").isSome = true
      ∧ (mapLookup (containerFsStatsToValues (containerStatsToValues stats) stats)
        "fs_summary.fs_usage").isSome = true := by
    unfold containerFsStatsToValues
    cases hfs : stats.Filesystem with
    | nil => exact absurd hfs hne
    | cons f fs =>
      rw [List.foldl_cons]
      exact foldl_summary_present fs _ (fsStep_summary_present _ f)
  rw [mapLookup_eq_some_of_get _ _ hp.1, mapLookup_eq_some_of_get _ _ hp.2,
    fs_summary_limit_eq _ _ (by rw [hb.1]; norm_num),
    fs_summary_usage_eq _ _ (by rw [hb.2]; norm_num), hb.1, hb.2]
  simp only [Nat.zero_add]
  rw [Nat.mod_eq_of_lt hL, Nat.mod_eq_of_lt hU]
  exact ⟨rfl, rfl⟩

/-- The amended C5 at the snapshot of the spec's round-trip scenario. -/
theorem fs_summary_sums_witness :
    oneDeviceStats.Filesystem ≠ []
    ∧ (oneDeviceStats.Filesystem.map FsStats.Limit).sum < 2 ^ 64
    ∧ (oneDeviceStats.Filesystem.map FsStats.Usage).sum < 2 ^ 64
    ∧ (mapLookup (containerFsStatsToValues (containerStatsToValues oneDeviceStats) oneDeviceStats)
        "fs_summary.fs_limit" = some 100
      ∧ mapLookup (containerFsStatsToValues (containerStatsToValues oneDeviceStats) oneDeviceStats)
        "fs_summary.fs_usage" = some 5) :=
  ⟨by decide, by decide, by decide,
    fs_summary_sums oneDeviceStats (by decide) (by decide) (by decide)⟩

/-! ## Claim C6 -/

set_option maxRecDepth 100000 in
/-- C6 at the container name `/batch%1` (no alias): the display identity is
the name and it is the `LastFlush` key, but no written line carries
`container="/batch%1"`: the formatted line is used as the format of
`Fprintf`, which renders `%1"` as `%!"(MISSING)`. -/
theorem container_tag_garbled :
    displayName percentRef = "/batch%1"
    ∧ mapKeys (AddStats (envAt 0) (freshDriver 0) percentRef (some noDeviceStats)).1.LastFlush
        = ["/batch%1"]
    ∧ linesWritten (freshDriver 0)
        (AddStats (envAt 0) (freshDriver 0) percentRef (some noDeviceStats)).1
      = ["cadvisor.cpu_cumulative_usage 100 1790000000 source=host1 container=\"/batch%!\"(MISSING)   \n",
         "cadvisor.memory_usage 50 1790000000 source=host1 container=\"/batch%!\"(MISSING)   \n",
         "cadvisor.memory_working_set 40 1790000000 source=host1 container=\"/batch%!\"(MISSING)   \n",
         "cadvisor.rx_bytes 10 1790000000 source=host1 container=\"/batch%!\"(MISSING)   \n",
         "cadvisor.rx_errors 0 1790000000 source=host1 container=\"/batch%!\"(MISSING)   \n",
         "cadvisor.tx_bytes 20 1790000000 source=host1 container=\"/batch%!\"(MISSING)   \n",
         "cadvisor.tx_errors 1 1790000000 source=host1 container=\"/batch%!\"(MISSING)   \n"]
    ∧ ∀ line ∈ linesWritten (freshDriver 0)
        (AddStats (envAt 0) (freshDriver 0) percentRef (some noDeviceStats)).1,
        ¬ ("container=\"/batch%1\"".data <:+: line.data) := by
  decide

/-! ## Claim C7 -/

theorem series_of_no_devices (stats : ContainerStats) (h : stats.Filesystem = []) :
    containerFsStatsToValues (containerStatsToValues stats) stats = baseEntries stats := by
  rw [containerFsStatsToValues, h, List.foldl_nil, containerStatsToValues_eq]

theorem lineText_base (p ts src name add app : String) (stats : ContainerStats) :
    (baseEntries stats).map (lineText p ts src name add app)
      = (baseEntries stats).map
          (fun kv => formatNoArgs (sprintfPlain p kv.1 kv.2 ts src name add app)) := by
  apply List.map_congr_left
  intro kv hkv
  have hk : kv.1 ∈ mapKeys (baseEntries stats) := List.mem_map_of_mem Prod.fst hkv
  rw [lineText, lineFormat_plain _ _ _ _ _ _ _ (baseKeys_no_tilde stats _ hk)]

/-- C7: for a snapshot with zero filesystem device records the metric set
after `containerStatsToValues` and `containerFsStatsToValues` has exactly the
seven CPU, memory and network keys (no `fs_summary` key, no per-device key),
and a flushing `AddStats` call over a healthy connection writes exactly seven
lines, the plain (not device-tagged) renderings of those seven entries. -/
theorem no_devices_seven_lines (env : Env) (driver : wavefrontStorage)
    (ref : ContainerReference) (stats : ContainerStats) (hfs : stats.Filesystem = [])
    (hflush : throttled (env.current.Sub (lastFlushOf driver (displayName ref)))
      driver.WfInterval = false)
    (hc : driver.Conn.faults = []) :
    mapKeys (containerFsStatsToValues (containerStatsToValues stats) stats)
      = ["cpu_cumulative_usage", "memory_usage", "memory_working_set", "rx_bytes", "rx_errors",
         "tx_bytes", "tx_errors"]
    ∧ mapLookup (containerFsStatsToValues (containerStatsToValues stats) stats)
        "fs_summary.fs_limit" = none
    ∧ mapLookup (containerFsStatsToValues (containerStatsToValues stats) stats)
        "fs_summary.fs_usage" = none
    ∧ (∀ k ∈ mapKeys (containerFsStatsToValues (containerStatsToValues stats) stats),
        containsChar k '~' = false)
    ∧ (linesWritten driver (AddStats env driver ref (some stats)).1).length = 7
    ∧ List.Perm (linesWritten driver (AddStats env driver ref (some stats)).1)
        ((baseEntries stats).map (fun kv =>
          formatNoArgs (sprintfPlain driver.WfPrefix kv.1 kv.2 (FormatInt env.stamped.Unix)
            driver.Source (displayName ref) driver.WfAddTags (appendTagsOf env.labelOrder ref)))) := by
  have hs := series_of_no_devices stats hfs
  have hl := linesWritten_flush env driver ref stats hflush hc
  rw [hs] at hl ⊢
  have hperm := env.seriesOrder.perm (baseEntries stats)
  refine ⟨rfl, ?_, ?_, ?_, ?_, ?_⟩
  · simp [baseEntries, mapLookup]
  · simp [baseEntries, mapLookup]
  · intro k hk
    exact containsChar_eq_false k (baseKeys_no_tilde stats k hk)
  · rw [hl, List.length_map, hperm.length_eq]
    rfl
  · rw [hl, ← lineText_base]
    exact hperm.map _

set_option maxRecDepth 100000 in
/-- C7 at the snapshot without devices, flushed by a fresh driver. -/
theorem no_devices_seven_lines_witness :
    noDeviceStats.Filesystem = []
    ∧ throttled ((envAt 0).current.Sub (lastFlushOf (freshDriver 0) (displayName plainRef)))
        (freshDriver 0).WfInterval = false
    ∧ (freshDriver 0).Conn.faults = []
    ∧ (linesWritten (freshDriver 0)
        (AddStats (envAt 0) (freshDriver 0) plainRef (some noDeviceStats)).1).length = 7
    ∧ linesWritten (freshDriver 0)
        (AddStats (envAt 0) (freshDriver 0) plainRef (some noDeviceStats)).1
      = ["cadvisor.cpu_cumulative_usage 100 1790000000 source=host1 container=\"c1\"   \n",
         "cadvisor.memory_usage 50 1790000000 source=host1 container=\"c1\"   \n",
         "cadvisor.memory_working_set 40 1790000000 source=host1 container=\"c1\"   \n",
         "cadvisor.rx_bytes 10 1790000000 source=host1 container=\"c1\"   \n",
         "cadvisor.rx_errors 0 1790000000 source=host1 container=\"c1\"   \n",
         "cadvisor.tx_bytes 20 1790000000 source=host1 container=\"c1\"   \n",
         "cadvisor.tx_errors 1 1790000000 source=host1 container=\"c1\"   \n"] :=
  ⟨rfl, by decide, rfl,
    (no_devices_seven_lines (envAt 0) (freshDriver 0) plainRef noDeviceStats rfl (by decide)
      rfl).2.2.2.2.1,
    by decide⟩

/-! ## Claim C8 -/

theorem sprintfPlain_no_percent (p key : String) (v : Nat) (unix : ℤ) (src name add app : String)
    (hp : '%' ∉ p.data) (hk : '%' ∉ key.data) (hs : '%' ∉ src.data) (hn : '%' ∉ name.data)
    (ha : '%' ∉ add.data) (hb : '%' ∉ app.data) :
    '%' ∉ (sprintfPlain p key v (FormatInt unix) src name add app).data := by
  have h1 := formatUint_no_percent v
  have h2 := FormatInt_no_percent unix
  simp only [sprintfPlain, String.data_append, List.mem_append, not_or]
  repeat' apply And.intro
  all_goals first | assumption | decide

theorem sprintfDevice_no_percent (p key : String) (v : Nat) (unix : ℤ)
    (src name dev add app : String)
    (hp : '%' ∉ p.data) (hk : '%' ∉ key.data) (hs : '%' ∉ src.data) (hn : '%' ∉ name.data)
    (hd : '%' ∉ dev.data) (ha : '%' ∉ add.data) (hb : '%' ∉ app.data) :
    '%' ∉ (sprintfDevice p key v (FormatInt unix) src name dev add app).data := by
  have h1 := formatUint_no_percent v
  have h2 := FormatInt_no_percent unix
  simp only [sprintfDevice, String.data_append, List.mem_append, not_or]
  repeat' apply And.intro
  all_goals first | assumption | decide

set_option maxRecDepth 100000 in
/-- C8, as stated, fails: the written text has a space between the appended
tags and the newline.  With prefix `cadvisor.`, source `host1`, container
`c1`, extra tags `az="us"` and appended tags ` namespace="prod"` the line of
`memory_usage` is not the text the claim describes. -/
theorem line_has_trailing_space :
    linesWritten { freshDriver 0 with WfAddTags := "az=\"us\"" }
        (AddStats (envAt 0) { freshDriver 0 with WfAddTags := "az=\"us\"" } namespacedRef
          (some noDeviceStats)).1
      = ["cadvisor.cpu_cumulative_usage 100 1790000000 source=host1 container=\"c1\" az=\"us\"  namespace=\"prod\" \n",
         "cadvisor.memory_usage 50 1790000000 source=host1 container=\"c1\" az=\"us\"  namespace=\"prod\" \n",
         "cadvisor.memory_working_set 40 1790000000 source=host1 container=\"c1\" az=\"us\"  namespace=\"prod\" \n",
         "cadvisor.rx_bytes 10 1790000000 source=host1 container=\"c1\" az=\"us\"  namespace=\"prod\" \n",
         "cadvisor.rx_errors 0 1790000000 source=host1 container=\"c1\" az=\"us\"  namespace=\"prod\" \n",
         "cadvisor.tx_bytes 20 1790000000 source=host1 container=\"c1\" az=\"us\"  namespace=\"prod\" \n",
         "cadvisor.tx_errors 1 1790000000 source=host1 container=\"c1\" az=\"us\"  namespace=\"prod\" \n"]
    ∧ appendTagsOf (envAt 0).labelOrder namespacedRef = " namespace=\"prod\""
    ∧ ("cadvisor." ++ "memory_usage" ++ " " ++ formatUint 50 ++ " " ++ FormatInt (envAt 0).stamped.Unix
          ++ " source=" ++ "host1" ++ " container=\"" ++ "c1" ++ "\" " ++ "az=\"us\"" ++ " "
          ++ " namespace=\"prod\"" ++ "\n")
        ∉ linesWritten { freshDriver 0 with WfAddTags := "az=\"us\"" }
            (AddStats (envAt 0) { freshDriver 0 with WfAddTags := "az=\"us\"" } namespacedRef
              (some noDeviceStats)).1 := by
  decide

/-- C8, amended: for every metric key without the separator `~`, every value
and every prefix, source, container identity, extra-tag string and
appended-tag string without `%`, the text written for the entry is exactly
`<prefix><metric-name>`, a space, the decimal rendering of the value, a space,
the Unix-seconds timestamp, ` source=<source> container="<container>" `, the
extra tags, a space, the appended tags, a space and one newline. -/
theorem plain_line_text (c : Conn) (p key : String) (v : Nat) (unix : ℤ)
    (src name add app : String) (hc : c.faults = []) (hkey : '~' ∉ key.data)
    (hp : '%' ∉ p.data) (hk : '%' ∉ key.data) (hs : '%' ∉ src.data) (hn : '%' ∉ name.data)
    (ha : '%' ∉ add.data) (hb : '%' ∉ app.data) :
    (Fprintf c (lineFormat p (FormatInt unix) src name add app (key, v))).1.sent
      = c.sent ++ [p ++ key ++ " " ++ Nat.repr v ++ " " ++ Int.repr unix ++ " source=" ++ src
          ++ " container=\"" ++ name ++ "\" " ++ add ++ " " ++ app ++ " \n"] := by
  rw [Fprintf, write_healthy _ _ hc, lineFormat_plain _ _ _ _ _ _ _ hkey,
    formatNoArgs_of_no_percent _ (sprintfPlain_no_percent p key v unix src name add app
      hp hk hs hn ha hb)]
  rfl

/-- The amended C8 at the `memory_usage` entry of the scenario above. -/
theorem plain_line_text_witness :
    (⟨[], []⟩ : Conn).faults = []
    ∧ '~' ∉ "memory_usage".data ∧ '%' ∉ "cadvisor.".data ∧ '%' ∉ "memory_usage".data
    ∧ '%' ∉ "host1".data ∧ '%' ∉ "c1".data ∧ '%' ∉ "az=\"us\"".data
    ∧ '%' ∉ " namespace=\"prod\"".data
    ∧ (Fprintf ⟨[], []⟩ (lineFormat "cadvisor." (FormatInt 1790000000) "host1" "c1" "az=\"us\""
          " namespace=\"prod\"" ("memory_usage", 50))).1.sent
        = ["cadvisor.memory_usage 50 1790000000 source=host1 container=\"c1\" az=\"us\"  namespace=\"prod\" \n"] :=
  ⟨rfl, by decide, by decide, by decide, by decide, by decide, by decide, by decide,
    plain_line_text ⟨[], []⟩ "cadvisor." "memory_usage" 50 1790000000 "host1" "c1" "az=\"us\""
      " namespace=\"prod\"" rfl (by decide) (by decide) (by decide) (by decide) (by decide)
      (by decide) (by decide)⟩

/-! ## Claim C9 -/

theorem mem_perDeviceEntries (fs : List FsStats) (f : FsStats) (hf : f ∈ fs) :
    (f.Device ++ "~" ++ colFsLimit, f.Limit) ∈ perDeviceEntries fs
    ∧ (f.Device ++ "~" ++ colFsUsage, f.Usage) ∈ perDeviceEntries fs := by
  unfold perDeviceEntries
  simp only [List.mem_flatMap]
  exact ⟨⟨f, hf, by simp⟩, ⟨f, hf, by simp⟩⟩

theorem length_perDeviceEntries (fs : List FsStats) :
    (perDeviceEntries fs).length = 2 * fs.length := by
  induction fs with
  | nil => rfl
  | cons f fs ih =>
    simp only [perDeviceEntries, List.flatMap_cons, List.length_append, List.length_cons,
      List.length_nil] at ih ⊢
    omega

set_option maxRecDepth 100000 in
/-- C9, as stated, fails: for the device identifier `a~b` (limit 7, usage 3)
the key `a~b~fs_limit` is split into device `a` and metric name `b`; no line
starts with `cadvisor.fs_limit 7 ` and no line carries `device="a~b"`. -/
theorem device_with_separator_misparsed :
    (tildeDeviceStats.Filesystem.map FsStats.Device).Nodup
    ∧ Split ("a~b" ++ "~" ++ colFsLimit) '~' = ["a", "b", "fs_limit"]
    ∧ linesWritten (freshDriver 0)
        (AddStats (envAt 0) (freshDriver 0) plainRef (some tildeDeviceStats)).1
      = ["cadvisor.cpu_cumulative_usage 100 1790000000 source=host1 container=\"c1\"   \n",
         "cadvisor.memory_usage 50 1790000000 source=host1 container=\"c1\"   \n",
         "cadvisor.memory_working_set 40 1790000000 source=host1 container=\"c1\"   \n",
         "cadvisor.rx_bytes 10 1790000000 source=host1 container=\"c1\"   \n",
         "cadvisor.rx_errors 0 1790000000 source=host1 container=\"c1\"   \n",
         "cadvisor.tx_bytes 20 1790000000 source=host1 container=\"c1\"   \n",
         "cadvisor.tx_errors 1 1790000000 source=host1 container=\"c1\"   \n",
         "cadvisor.fs_summary.fs_limit 7 1790000000 source=host1 container=\"c1\"   \n",
         "cadvisor.fs_summary.fs_usage 3 1790000000 source=host1 container=\"c1\"   \n",
         "cadvisor.b 7 1790000000 source=host1 container=\"c1\" device=\"a\"   \n",
         "cadvisor.b 3 1790000000 source=host1 container=\"c1\" device=\"a\"   \n"]
    ∧ ∀ line ∈ linesWritten (freshDriver 0)
        (AddStats (envAt 0) (freshDriver 0) plainRef (some tildeDeviceStats)).1,
        ¬ ("cadvisor.fs_limit 7 ".data <+: line.data) ∧ ¬ ("device=\"a~b\"".data <:+: line.data) := by
  decide

/-- C9, amended: for every filesystem device record with an identifier `d`
without the separator `~`, limit `L` and usage `U`, in a snapshot whose
device identifiers are pairwise distinct, a flushing call over a healthy
connection (no `%` in the prefix, source, container identity, tags and `d`)
writes the line `<prefix>fs_limit L <timestamp> source=<source>
container="<container>" device="d" <extra-tags> <appended-tags> ` and the
same line with `fs_usage U`. -/
theorem device_lines_written (env : Env) (driver : wavefrontStorage)
    (ref : ContainerReference) (stats : ContainerStats) (f : FsStats)
    (hflush : throttled (env.current.Sub (lastFlushOf driver (displayName ref)))
      driver.WfInterval = false)
    (hc : driver.Conn.faults = []) (hf : f ∈ stats.Filesystem)
    (hnd : (stats.Filesystem.map FsStats.Device).Nodup) (hd : '~' ∉ f.Device.data)
    (hp : '%' ∉ driver.WfPrefix.data) (hs : '%' ∉ driver.Source.data)
    (hn : '%' ∉ (displayName ref).data) (hdev : '%' ∉ f.Device.data)
    (ha : '%' ∉ driver.WfAddTags.data)
    (hb : '%' ∉ (appendTagsOf env.labelOrder ref).data) :
    (driver.WfPrefix ++ "fs_limit" ++ " " ++ Nat.repr f.Limit ++ " "
        ++ Int.repr env.stamped.Unix ++ " source=" ++ driver.Source ++ " container=\""
        ++ displayName ref ++ "\" device=\"" ++ f.Device ++ "\" " ++ driver.WfAddTags ++ " "
        ++ appendTagsOf env.labelOrder ref ++ " \n")
      ∈ linesWritten driver (AddStats env driver ref (some stats)).1
    ∧ (driver.WfPrefix ++ "fs_usage" ++ " " ++ Nat.repr f.Usage ++ " "
        ++ Int.repr env.stamped.Unix ++ " source=" ++ driver.Source ++ " container=\""
        ++ displayName ref ++ "\" device=\"" ++ f.Device ++ "\" " ++ driver.WfAddTags ++ " "
        ++ appendTagsOf env.labelOrder ref ++ " \n")
      ∈ linesWritten driver (AddStats env driver ref (some stats)).1 := by
  have hne : stats.Filesystem ≠ [] := List.ne_nil_of_mem hf
  have hl := linesWritten_flush env driver ref stats hflush hc
  have hshape := series_shape stats hne hnd
  obtain ⟨m1, m2⟩ := mem_perDeviceEntries stats.Filesystem f hf
  have hmem : ∀ kv ∈ perDeviceEntries stats.Filesystem,
      kv ∈ env.seriesOrder.order
        (containerFsStatsToValues (containerStatsToValues stats) stats) := by
    intro kv hkv
    rw [(env.seriesOrder.perm _).mem_iff, hshape]
    simp [hkv]
  rw [hl]
  constructor
  · have := List.mem_map_of_mem (lineText driver.WfPrefix (FormatInt env.stamped.Unix)
      driver.Source (displayName ref) driver.WfAddTags (appendTagsOf env.labelOrder ref))
      (hmem _ m1)
    rw [lineText, lineFormat_device _ _ _ _ _ _ _ _ _ hd (by decide),
      formatNoArgs_of_no_percent _ (sprintfDevice_no_percent _ _ _ _ _ _ _ _ _ hp (by decide) hs hn
        hdev ha hb)] at this
    exact this
  · have := List.mem_map_of_mem (lineText driver.WfPrefix (FormatInt env.stamped.Unix)
      driver.Source (displayName ref) driver.WfAddTags (appendTagsOf env.labelOrder ref))
      (hmem _ m2)
    rw [lineText, lineFormat_device _ _ _ _ _ _ _ _ _ hd (by decide),
      formatNoArgs_of_no_percent _ (sprintfDevice_no_percent _ _ _ _ _ _ _ _ _ hp (by decide) hs hn
        hdev ha hb)] at this
    exact this

set_option maxRecDepth 100000 in
/-- The amended C9 at the device `/dev/sda1` of the round-trip scenario. -/
theorem device_lines_written_witness :
    throttled ((envAt 0).current.Sub (lastFlushOf (freshDriver 0) (displayName plainRef)))
        (freshDriver 0).WfInterval = false
    ∧ (freshDriver 0).Conn.faults = []
    ∧ (⟨"/dev/sda1", 100, 5⟩ : FsStats) ∈ oneDeviceStats.Filesystem
    ∧ (oneDeviceStats.Filesystem.map FsStats.Device).Nodup
    ∧ '~' ∉ "/dev/sda1".data ∧ '%' ∉ "/dev/sda1".data
    ∧ '%' ∉ (freshDriver 0).WfPrefix.data ∧ '%' ∉ (freshDriver 0).Source.data
    ∧ '%' ∉ (displayName plainRef).data ∧ '%' ∉ (freshDriver 0).WfAddTags.data
    ∧ '%' ∉ (appendTagsOf (envAt 0).labelOrder plainRef).data
    ∧ ("cadvisor.fs_limit 100 1790000000 source=host1 container=\"c1\" device=\"/dev/sda1\"   \n"
        ∈ linesWritten (freshDriver 0)
            (AddStats (envAt 0) (freshDriver 0) plainRef (some oneDeviceStats)).1
      ∧ "cadvisor.fs_usage 5 1790000000 source=host1 container=\"c1\" device=\"/dev/sda1\"   \n"
        ∈ linesWritten (freshDriver 0)
            (AddStats (envAt 0) (freshDriver 0) plainRef (some oneDeviceStats)).1) :=
  ⟨by decide, rfl, by decide, by decide, by decide, by decide, by decide, by decide, by decide,
    by decide, by decide,
    device_lines_written (envAt 0) (freshDriver 0) plainRef oneDeviceStats ⟨"/dev/sda1", 100, 5⟩
      (by decide) rfl (by decide) (by decide) (by decide) (by decide) (by decide) (by decide)
      (by decide) (by decide) (by decide)⟩

/-! ## Claim C10 -/

theorem perDeviceEntries_contains_sep (fs : List FsStats) :
    ∀ kv ∈ perDeviceEntries fs, containsChar kv.1 '~' = true := by
  intro kv hkv
  unfold perDeviceEntries at hkv
  simp only [List.mem_flatMap, List.mem_cons, List.mem_singleton, List.not_mem_nil,
    or_false] at hkv
  obtain ⟨f, _, h | h⟩ := hkv <;> rw [h] <;> exact containsChar_devKey _ _

/-- C10: a flushing `AddStats` call (healthy connection) writes exactly one
line per metric set entry: for every snapshot whose `n ≥ 1` device records
have pairwise distinct identifiers it writes exactly `9 + 2 n` lines, one for
each of the seven base metrics, one each for `fs_summary.fs_limit` and
`fs_summary.fs_usage`, and two device-tagged lines per device. -/
theorem flush_line_count (env : Env) (driver : wavefrontStorage) (ref : ContainerReference)
    (stats : ContainerStats)
    (hflush : throttled (env.current.Sub (lastFlushOf driver (displayName ref)))
      driver.WfInterval = false)
    (hc : driver.Conn.faults = []) (hne : stats.Filesystem ≠ [])
    (hnd : (stats.Filesystem.map FsStats.Device).Nodup) :
    (linesWritten driver (AddStats env driver ref (some stats)).1).length
      = 9 + 2 * stats.Filesystem.length
    ∧ List.Perm (linesWritten driver (AddStats env driver ref (some stats)).1)
        ((baseEntries stats
            ++ ("fs_summary.fs_limit", (stats.Filesystem.map FsStats.Limit).sum % 2 ^ 64)
            :: ("fs_summary.fs_usage", (stats.Filesystem.map FsStats.Usage).sum % 2 ^ 64)
            :: perDeviceEntries stats.Filesystem).map
          (lineText driver.WfPrefix (FormatInt env.stamped.Unix) driver.Source (displayName ref)
            driver.WfAddTags (appendTagsOf env.labelOrder ref)))
    ∧ (baseEntries stats).length = 7
    ∧ (perDeviceEntries stats.Filesystem).length = 2 * stats.Filesystem.length
    ∧ (∀ kv ∈ perDeviceEntries stats.Filesystem, containsChar kv.1 '~' = true)
    ∧ (∀ kv ∈ baseEntries stats
          ++ [("fs_summary.fs_limit", (stats.Filesystem.map FsStats.Limit).sum % 2 ^ 64),
              ("fs_summary.fs_usage", (stats.Filesystem.map FsStats.Usage).sum % 2 ^ 64)],
        containsChar kv.1 '~' = false) := by
  have hl := linesWritten_flush env driver ref stats hflush hc
  have hshape := series_shape stats hne hnd
  have hperm := env.seriesOrder.perm
    (containerFsStatsToValues (containerStatsToValues stats) stats)
  refine ⟨?_, ?_, rfl, length_perDeviceEntries _, perDeviceEntries_contains_sep _, ?_⟩
  · rw [hl, List.length_map, hperm.length_eq, hshape, List.length_append, List.length_cons,
      List.length_cons, length_perDeviceEntries]
    simp only [baseEntries, List.length_cons, List.length_nil]
    omega
  · rw [hl, ← hshape]
    exact hperm.map _
  · intro kv hkv
    rw [List.mem_append] at hkv
    rcases hkv with h | h
    · exact containsChar_eq_false _
        (baseKeys_no_tilde stats _ (List.mem_map_of_mem Prod.fst h))
    · simp only [List.mem_cons, List.mem_singleton, List.not_mem_nil, or_false] at h
      rcases h with h | h <;> rw [h] <;> rfl

set_option maxRecDepth 100000 in
/-- C10 at the round-trip scenario of the spec: snapshot `{CPU=100,
MemUsage=50, MemWorkingSet=40, RxBytes=10, RxErrors=0, TxBytes=20, TxErrors=1,
Filesystem=[{/dev/sda1, Usage 5, Limit 100}]}`, container `c1`, prefix
`cadvisor.`, source `host1`, interval 0 gives 11 lines. -/
theorem flush_line_count_witness :
    throttled ((envAt 0).current.Sub (lastFlushOf (freshDriver 0) (displayName plainRef)))
        (freshDriver 0).WfInterval = false
    ∧ (freshDriver 0).Conn.faults = []
    ∧ oneDeviceStats.Filesystem ≠ []
    ∧ (oneDeviceStats.Filesystem.map FsStats.Device).Nodup
    ∧ (linesWritten (freshDriver 0)
        (AddStats (envAt 0) (freshDriver 0) plainRef (some oneDeviceStats)).1).length = 11
    ∧ linesWritten (freshDriver 0)
        (AddStats (envAt 0) (freshDriver 0) plainRef (some oneDeviceStats)).1
      = ["cadvisor.cpu_cumulative_usage 100 1790000000 source=host1 container=\"c1\"   \n",
         "cadvisor.memory_usage 50 1790000000 source=host1 container=\"c1\"   \n",
         "cadvisor.memory_working_set 40 1790000000 source=host1 container=\"c1\"   \n",
         "cadvisor.rx_bytes 10 1790000000 source=host1 container=\"c1\"   \n",
         "cadvisor.rx_errors 0 1790000000 source=host1 container=\"c1\"   \n",
         "cadvisor.tx_bytes 20 1790000000 source=host1 container=\"c1\"   \n",
         "cadvisor.tx_errors 1 1790000000 source=host1 container=\"c1\"   \n",
         "cadvisor.fs_summary.fs_limit 100 1790000000 source=host1 container=\"c1\"   \n",
         "cadvisor.fs_summary.fs_usage 5 1790000000 source=host1 container=\"c1\"   \n",
         "cadvisor.fs_limit 100 1790000000 source=host1 container=\"c1\" device=\"/dev/sda1\"   \n",
         "cadvisor.fs_usage 5 1790000000 source=host1 container=\"c1\" device=\"/dev/sda1\"   \n"] :=
  ⟨by decide, rfl, by decide, by decide,
    (flush_line_count (envAt 0) (freshDriver 0) plainRef oneDeviceStats (by decide) rfl
      (by decide) (by decide)).1,
    by decide⟩

/-! ## Claim C11 -/

theorem writeSeries_sent (entries : List (String × Nat)) (c : Conn)
    (p ts src name add app : String) :
    (writeSeries c p ts src name add app entries).sent
      = c.sent ++ delivered c.faults (entries.map (lineText p ts src name add app)) := by
  induction entries generalizing c with
  | nil => simp [writeSeries, delivered]
  | cons kv entries ih =>
    obtain ⟨sent, faults⟩ := c
    simp only [writeSeries, List.foldl_cons, Fprintf, List.map_cons] at ih ⊢
    cases faults with
    | nil =>
      have h : ∀ x, (Conn.Write ⟨sent, []⟩ x).1 = ⟨sent ++ [x], []⟩ := fun _ => rfl
      rw [h, ih]
      simp [delivered, lineText]
    | cons b faults =>
      cases b
      · have h : ∀ x, (Conn.Write ⟨sent, false :: faults⟩ x).1 = ⟨sent ++ [x], faults⟩ :=
          fun _ => rfl
        rw [h, ih]
        simp [delivered, lineText]
      · have h : ∀ x, (Conn.Write ⟨sent, true :: faults⟩ x).1 = ⟨sent, faults⟩ := fun _ => rfl
        rw [h, ih]
        simp [delivered]

set_option maxRecDepth 100000 in
/-- C11, as stated, fails: the second `Write` of the flush fails (the
`memory_usage` line is not delivered), yet `AddStats` returns nil. -/
theorem write_failure_not_returned :
    (Fprintf ⟨["cadvisor.cpu_cumulative_usage 100 1790000000 source=host1 container=\"c1\"   \n"], [true]⟩
        "cadvisor.memory_usage 50 1790000000 source=host1 container=\"c1\"   \n").2 = true
    ∧ (AddStats (envAt 0) faultyDriver plainRef (some noDeviceStats)).2 = none
    ∧ (AddStats (envAt 0) faultyDriver plainRef (some noDeviceStats)).1.Conn.sent
      = ["cadvisor.cpu_cumulative_usage 100 1790000000 source=host1 container=\"c1\"   \n",
         "cadvisor.memory_working_set 40 1790000000 source=host1 container=\"c1\"   \n",
         "cadvisor.rx_bytes 10 1790000000 source=host1 container=\"c1\"   \n",
         "cadvisor.rx_errors 0 1790000000 source=host1 container=\"c1\"   \n",
         "cadvisor.tx_bytes 20 1790000000 source=host1 container=\"c1\"   \n",
         "cadvisor.tx_errors 1 1790000000 source=host1 container=\"c1\"   \n"] := by
  decide

/-- C11, amended: if writing a metric line fails during a flush, `AddStats`
drops the failure and still returns nil; it goes on with the remaining
entries, the lines written before the failure stay written (what was sent
before the call is a prefix of what is sent after it, followed by the texts
of the writes that succeeded) and the `LastFlush` update made before the
writes is kept. -/
theorem write_failures_dropped (env : Env) (driver : wavefrontStorage)
    (ref : ContainerReference) (stats : ContainerStats)
    (hflush : throttled (env.current.Sub (lastFlushOf driver (displayName ref)))
      driver.WfInterval = false) :
    (AddStats env driver ref (some stats)).2 = none
    ∧ mapLookup (AddStats env driver ref (some stats)).1.LastFlush (displayName ref)
        = some env.flushed
    ∧ (AddStats env driver ref (some stats)).1.Conn.sent
        = driver.Conn.sent ++ delivered driver.Conn.faults
            ((env.seriesOrder.order
              (containerFsStatsToValues (containerStatsToValues stats) stats)).map
              (lineText driver.WfPrefix (FormatInt env.stamped.Unix) driver.Source
                (displayName ref) driver.WfAddTags (appendTagsOf env.labelOrder ref)))
    ∧ driver.Conn.sent <+: (AddStats env driver ref (some stats)).1.Conn.sent := by
  rw [AddStats_flush _ _ _ _ hflush]
  refine ⟨rfl, mapLookup_insert_self _ _ _, ?_, ?_⟩
  · exact writeSeries_sent _ _ _ _ _ _ _ _
  · simp only
    rw [writeSeries_sent]
    exact List.prefix_append _ _

set_option maxRecDepth 100000 in
/-- The amended C11 at the flush whose second write fails. -/
theorem write_failures_dropped_witness :
    throttled ((envAt 0).current.Sub (lastFlushOf faultyDriver (displayName plainRef)))
        faultyDriver.WfInterval = false
    ∧ (AddStats (envAt 0) faultyDriver plainRef (some noDeviceStats)).2 = none
    ∧ mapLookup (AddStats (envAt 0) faultyDriver plainRef (some noDeviceStats)).1.LastFlush
        (displayName plainRef) = some (envAt 0).flushed
    ∧ faultyDriver.Conn.sent
        <+: (AddStats (envAt 0) faultyDriver plainRef (some noDeviceStats)).1.Conn.sent :=
  ⟨by decide,
    (write_failures_dropped (envAt 0) faultyDriver plainRef noDeviceStats (by decide)).1,
    (write_failures_dropped (envAt 0) faultyDriver plainRef noDeviceStats (by decide)).2.1,
    (write_failures_dropped (envAt 0) faultyDriver plainRef noDeviceStats (by decide)).2.2.2⟩

/-! ## Claim C13 -/

set_option maxRecDepth 100000 in
/-- C13, as stated, fails: with interval `9223372037` seconds (a value the
64-bit `int` holds) the first-ever call for a container is throttled: the
elapsed time since the zero time saturates at the largest `Duration`,
`9223372036.854775807` seconds. -/
theorem first_call_throttled_by_huge_interval :
    mapLookup (freshDriver 9223372037).LastFlush (displayName plainRef) = none
    ∧ (9223372037 : ℤ) < 2 ^ 63
    ∧ (envAt 0).current.Sub (lastFlushOf (freshDriver 9223372037) (displayName plainRef))
        = 9223372036854775807
    ∧ AddStats (envAt 0) (freshDriver 9223372037) plainRef (some oneDeviceStats)
        = (freshDriver 9223372037, none)
    ∧ linesWritten (freshDriver 9223372037)
        (AddStats (envAt 0) (freshDriver 9223372037) plainRef (some oneDeviceStats)).1 = [] := by
  decide

/-- C13, amended: the first-ever call for a container flushes for every
interval up to `9223372036` seconds (negative ones included): for every
container identity with no `LastFlush` entry and every current time later
than the year 293 (the reach of a `Duration` from the zero time), `AddStats`
with a non-nil snapshot passes the throttle gate, records `LastFlush` for the
container and, over a healthy connection, writes its lines. -/
theorem first_call_flushes (env : Env) (driver : wavefrontStorage) (ref : ContainerReference)
    (stats : ContainerStats) (hI : driver.WfInterval ≤ 9223372036)
    (hfresh : mapLookup driver.LastFlush (displayName ref) = none)
    (hwall : maxDuration ≤ env.current.wall) :
    throttled (env.current.Sub (lastFlushOf driver (displayName ref))) driver.WfInterval = false
    ∧ mapLookup (AddStats env driver ref (some stats)).1.LastFlush (displayName ref)
        = some env.flushed
    ∧ (driver.Conn.faults = [] →
        linesWritten driver (AddStats env driver ref (some stats)).1
          = (env.seriesOrder.order
              (containerFsStatsToValues (containerStatsToValues stats) stats)).map
              (lineText driver.WfPrefix (FormatInt env.stamped.Unix) driver.Source
                (displayName ref) driver.WfAddTags (appendTagsOf env.labelOrder ref))
        ∧ linesWritten driver (AddStats env driver ref (some stats)).1 ≠ []) := by
  have hflush : throttled (env.current.Sub (lastFlushOf driver (displayName ref)))
      driver.WfInterval = false := by
    rw [lastFlushOf_fresh _ _ hfresh, Time.Sub_zero _ hwall]
    rcases le_or_lt driver.WfInterval 0 with h | h
    · exact throttled_of_interval_nonpos _ _ (by unfold maxDuration; omega) (le_refl _) h
    · apply throttled_of_elapsed _ _ (le_refl _) (le_of_lt h)
      unfold maxDuration
      omega
  refine ⟨hflush, ?_, ?_⟩
  · rw [AddStats_flush _ _ _ _ hflush]
    exact mapLookup_insert_self _ _ _
  · intro hc
    exact ⟨linesWritten_flush env driver ref stats hflush hc,
      linesWritten_flush_ne_nil env driver ref stats hflush hc⟩

set_option maxRecDepth 100000 in
/-- The amended C13 at the largest interval it covers. -/
theorem first_call_flushes_witness :
    (freshDriver 9223372036).WfInterval ≤ 9223372036
    ∧ mapLookup (freshDriver 9223372036).LastFlush (displayName plainRef) = none
    ∧ maxDuration ≤ (envAt 0).current.wall
    ∧ throttled ((envAt 0).current.Sub (lastFlushOf (freshDriver 9223372036) (displayName plainRef)))
        (freshDriver 9223372036).WfInterval = false
    ∧ mapLookup (AddStats (envAt 0) (freshDriver 9223372036) plainRef
        (some oneDeviceStats)).1.LastFlush (displayName plainRef) = some (envAt 0).flushed :=
  ⟨by decide, rfl, by decide,
    (first_call_flushes (envAt 0) (freshDriver 9223372036) plainRef oneDeviceStats (by decide)
      rfl (by decide)).1,
    (first_call_flushes (envAt 0) (freshDriver 9223372036) plainRef oneDeviceStats (by decide)
      rfl (by decide)).2.1⟩

/-! ## Claim C12 -/

theorem lastFlushOf_flush_other (env : Env) (driver : wavefrontStorage)
    (ref : ContainerReference) (stats : Option ContainerStats) (name : String)
    (h : name ≠ displayName ref) :
    mapLookup (AddStats env driver ref stats).1.LastFlush name = mapLookup driver.LastFlush name := by
  cases stats with
  | none => rfl
  | some st =>
    cases ht : throttled (env.current.Sub (lastFlushOf driver (displayName ref))) driver.WfInterval
    · rw [AddStats_flush _ _ _ _ ht]
      exact mapLookup_insert_ne _ _ _ _ h
    · rw [AddStats_throttled _ _ _ _ ht]

theorem AddStats_interval (env : Env) (driver : wavefrontStorage) (ref : ContainerReference)
    (stats : Option ContainerStats) :
    (AddStats env driver ref stats).1.WfInterval = driver.WfInterval := by
  cases stats with
  | none => rfl
  | some st =>
    cases ht : throttled (env.current.Sub (lastFlushOf driver (displayName ref))) driver.WfInterval
    · rw [AddStats_flush _ _ _ _ ht]
    · rw [AddStats_throttled _ _ _ _ ht]

set_option maxRecDepth 100000 in
/-- C12, as stated, fails: with interval `33554432` seconds and
`LastFlush[c1]` recorded `33554431.999999999` seconds before the call, the
elapsed seconds are below the interval, yet the call rewrites `LastFlush[c1]`
and writes lines. -/
theorem flush_state_changed_below_interval :
    (0 : ℤ) ≤ (envAt 33554431999999999).current.Sub
        (lastFlushOf { freshDriver 33554432 with LastFlush := [("c1", readingAt 0)] }
          (displayName plainRef))
    ∧ (envAt 33554431999999999).current.Sub
        (lastFlushOf { freshDriver 33554432 with LastFlush := [("c1", readingAt 0)] }
          (displayName plainRef)) < 33554432 * 1000000000
    ∧ (AddStats (envAt 33554431999999999)
        { freshDriver 33554432 with LastFlush := [("c1", readingAt 0)] } plainRef
        (some noDeviceStats)).1.LastFlush = [("c1", readingAt 33554431999999999)]
    ∧ (linesWritten { freshDriver 33554432 with LastFlush := [("c1", readingAt 0)] }
        (AddStats (envAt 33554431999999999)
          { freshDriver 33554432 with LastFlush := [("c1", readingAt 0)] } plainRef
          (some noDeviceStats)).1).length = 7 := by
  decide

/-- C12, amended: `AddStats` changes the flush state only when it flushes.
For every state with an interval of at most `2 ^ 24` seconds, every container
identity `C` and every call whose clock reading is not earlier than
`LastFlush[C]`: if the time elapsed since `LastFlush[C]` is below the interval
the call returns nil, writes nothing and leaves the whole driver state
unchanged; otherwise it returns nil, sets `LastFlush[C]` to the clock reading
taken right after the gate and leaves the entry of every other container
identity unchanged. -/
theorem flush_state_only_on_flush (env : Env) (driver : wavefrontStorage)
    (ref : ContainerReference) (stats : ContainerStats) (hI : driver.WfInterval ≤ 16777216)
    (hel : 0 ≤ env.current.Sub (lastFlushOf driver (displayName ref))) :
    (env.current.Sub (lastFlushOf driver (displayName ref)) < driver.WfInterval * 1000000000 →
        AddStats env driver ref (some stats) = (driver, none)
        ∧ linesWritten driver (AddStats env driver ref (some stats)).1 = [])
    ∧ (driver.WfInterval * 1000000000 ≤ env.current.Sub (lastFlushOf driver (displayName ref)) →
        (AddStats env driver ref (some stats)).2 = none
        ∧ mapLookup (AddStats env driver ref (some stats)).1.LastFlush (displayName ref)
            = some env.flushed
        ∧ ∀ other : String, other ≠ displayName ref →
            mapLookup (AddStats env driver ref (some stats)).1.LastFlush other
              = mapLookup driver.LastFlush other) := by
  constructor
  · intro hlt
    have ht := throttled_of_within _ _ hel hI hlt
    rw [AddStats_throttled _ _ _ _ ht]
    exact ⟨rfl, linesWritten_self _⟩
  · intro hge
    have ht : throttled (env.current.Sub (lastFlushOf driver (displayName ref)))
        driver.WfInterval = false := by
      rcases le_or_lt driver.WfInterval 0 with h | h
      · exact throttled_of_interval_nonpos _ _ hel (Time.Sub_le _ _) h
      · exact throttled_of_elapsed _ _ (Time.Sub_le _ _) (le_of_lt h) hge
    refine ⟨?_, ?_, ?_⟩
    · rw [AddStats_flush _ _ _ _ ht]
    · rw [AddStats_flush _ _ _ _ ht]
      exact mapLookup_insert_self _ _ _
    · intro other hne
      exact lastFlushOf_flush_other env driver ref (some stats) other hne

set_option maxRecDepth 100000 in
/-- The amended C12 at interval `10`, five seconds after the recorded flush. -/
theorem flush_state_only_on_flush_witness :
    ({ freshDriver 10 with LastFlush := [("c1", readingAt 0), ("c2", readingAt 3)] }
        : wavefrontStorage).WfInterval ≤ 16777216
    ∧ 0 ≤ (envAt 5000000000).current.Sub
        (lastFlushOf { freshDriver 10 with LastFlush := [("c1", readingAt 0), ("c2", readingAt 3)] }
          (displayName plainRef))
    ∧ (envAt 5000000000).current.Sub
        (lastFlushOf { freshDriver 10 with LastFlush := [("c1", readingAt 0), ("c2", readingAt 3)] }
          (displayName plainRef)) < 10 * 1000000000
    ∧ AddStats (envAt 5000000000)
        { freshDriver 10 with LastFlush := [("c1", readingAt 0), ("c2", readingAt 3)] } plainRef
        (some noDeviceStats)
      = ({ freshDriver 10 with LastFlush := [("c1", readingAt 0), ("c2", readingAt 3)] }, none) :=
  ⟨by decide, by decide, by decide,
    ((flush_state_only_on_flush (envAt 5000000000)
      { freshDriver 10 with LastFlush := [("c1", readingAt 0), ("c2", readingAt 3)] } plainRef
      noDeviceStats (by decide) (by decide)).1 (by decide)).1⟩

/-! ## Claim C20 -/

set_option maxRecDepth 100000 in
/-- C20, as stated, fails: with interval `33554432` seconds, after a flush
for the reference `/docker/0a1b2c` (first alias `web`), a call for the
reference `/docker/9f8e7d` (same first alias) made one nanosecond less than
the interval later writes lines and rewrites `LastFlush[web]`. -/
theorem shared_alias_early_flush :
    webRefA.Name ≠ webRefB.Name
    ∧ displayName webRefA = "web" ∧ displayName webRefB = "web"
    ∧ (33554431999999999 : ℤ) - 0 < 33554432 * 1000000000
    ∧ (AddStats (envAt 0) (freshDriver 33554432) webRefA (some noDeviceStats)).1.LastFlush
        = [("web", readingAt 0)]
    ∧ (AddStats (envAt 33554431999999999)
        (AddStats (envAt 0) (freshDriver 33554432) webRefA (some noDeviceStats)).1
        webRefB (some noDeviceStats)).1.LastFlush = [("web", readingAt 33554431999999999)]
    ∧ (linesWritten (AddStats (envAt 0) (freshDriver 33554432) webRefA (some noDeviceStats)).1
        (AddStats (envAt 33554431999999999)
          (AddStats (envAt 0) (freshDriver 33554432) webRefA (some noDeviceStats)).1
          webRefB (some noDeviceStats)).1).length = 7 := by
  decide

/-- C20, amended: throttle state is keyed by display identity.  For every
interval `0 < I ≤ 16777216` (`2 ^ 24` seconds) and two references with the
same display identity (whatever their names), once `AddStats` has flushed for
one of them, a call for the other made less than `I` seconds later writes no
line and changes no state; and a call for one display identity, flushing or
not, never changes the throttle decision of a call for a different display
identity. -/
theorem throttle_keyed_by_display_identity (driver : wavefrontStorage)
    (refA refB : ContainerReference) (stA stB : ContainerStats) (env1 env2 : Env)
    (I m0 m1 m2 : ℤ) (hI0 : 0 < I) (hI : I ≤ 16777216) (hint : driver.WfInterval = I)
    (hsame : displayName refA = displayName refB)
    (hflushA : throttled (env1.current.Sub (lastFlushOf driver (displayName refA)))
      driver.WfInterval = false)
    (h0 : env1.current.mono = some m0) (h1 : env1.flushed.mono = some m1)
    (h2 : env2.current.mono = some m2) (hord : m0 ≤ m1 ∧ m1 ≤ m2)
    (hgap : m2 - m0 < I * 1000000000) :
    (AddStats env2 (AddStats env1 driver refA (some stA)).1 refB (some stB)
        = ((AddStats env1 driver refA (some stA)).1, none)
      ∧ linesWritten (AddStats env1 driver refA (some stA)).1
          (AddStats env2 (AddStats env1 driver refA (some stA)).1 refB (some stB)).1 = [])
    ∧ ∀ (refC : ContainerReference) (env3 : Env), displayName refC ≠ displayName refA →
        throttled (env3.current.Sub
            (lastFlushOf (AddStats env1 driver refA (some stA)).1 (displayName refC)))
            (AddStats env1 driver refA (some stA)).1.WfInterval
          = throttled (env3.current.Sub (lastFlushOf driver (displayName refC)))
              driver.WfInterval := by
  have _ := h0
  constructor
  · have hsecond : throttled (env2.current.Sub
        (lastFlushOf (AddStats env1 driver refA (some stA)).1 (displayName refB)))
        (AddStats env1 driver refA (some stA)).1.WfInterval = true := by
      rw [AddStats_flush _ _ _ _ hflushA, ← hsame]
      simp only [lastFlushOf, mapLookup_insert_self, Option.getD_some]
      rw [Time.Sub_mono _ _ m2 m1 h2 h1, hint,
        clampDuration_id _ (by unfold minDuration; omega) (by unfold maxDuration; omega)]
      exact throttled_of_within _ _ (by omega) hI (by omega)
    rw [AddStats_throttled _ _ _ _ hsecond]
    exact ⟨rfl, linesWritten_self _⟩
  · intro refC env3 hne
    rw [AddStats_interval]
    unfold lastFlushOf
    rw [lastFlushOf_flush_other env1 driver refA (some stA) _ hne]

set_option maxRecDepth 100000 in
/-- The amended C20 at interval `10`: the second reference five seconds after
the flush for the first. -/
theorem throttle_keyed_by_display_identity_witness :
    (0 : ℤ) < 10 ∧ (10 : ℤ) ≤ 16777216 ∧ (freshDriver 10).WfInterval = 10
    ∧ displayName webRefA = displayName webRefB
    ∧ throttled ((envAt 0).current.Sub (lastFlushOf (freshDriver 10) (displayName webRefA)))
        (freshDriver 10).WfInterval = false
    ∧ (envAt 0).current.mono = some 0 ∧ (envAt 0).flushed.mono = some 0
    ∧ (envAt 5000000000).current.mono = some 5000000000
    ∧ ((0 : ℤ) ≤ 0 ∧ (0 : ℤ) ≤ 5000000000) ∧ (5000000000 : ℤ) - 0 < 10 * 1000000000
    ∧ AddStats (envAt 5000000000)
        (AddStats (envAt 0) (freshDriver 10) webRefA (some noDeviceStats)).1 webRefB
        (some oneDeviceStats)
      = ((AddStats (envAt 0) (freshDriver 10) webRefA (some noDeviceStats)).1, none) :=
  ⟨by decide, by decide, rfl, by decide, by decide, rfl, rfl, rfl, by decide, by decide,
    (throttle_keyed_by_display_identity (freshDriver 10) webRefA webRefB noDeviceStats
      oneDeviceStats (envAt 0) (envAt 5000000000) 10 0 0 5000000000 (by decide) (by decide) rfl
      (by decide) (by decide) rfl rfl rfl (by decide) (by decide)).1.1⟩

/-! ## Claim C17 -/

theorem mapLookup_fsStep_of_ne (s : List (String × Nat)) (g : FsStats) (k : String)
    (h1 : k ≠ "fs_summary.fs_limit") (h2 : k ≠ "fs_summary.fs_usage")
    (h3 : k ≠ g.Device ++ "~" ++ colFsLimit) (h4 : k ≠ g.Device ++ "~" ++ colFsUsage) :
    mapLookup (fsStep s g) k = mapLookup s k := by
  have e1 : colFsSummary ++ "." ++ colFsLimit = "fs_summary.fs_limit" := by decide
  have e2 : colFsSummary ++ "." ++ colFsUsage = "fs_summary.fs_usage" := by decide
  unfold fsStep
  simp only [e1, e2]
  rw [mapLookup_insert_ne _ _ _ _ h4, mapLookup_insert_ne _ _ _ _ h3,
    mapLookup_insert_ne _ _ _ _ h2, mapLookup_insert_ne _ _ _ _ h1]

theorem mapLookup_fsStep_device (s : List (String × Nat)) (f : FsStats) :
    mapLookup (fsStep s f) (f.Device ++ "~" ++ colFsLimit) = some f.Limit
    ∧ mapLookup (fsStep s f) (f.Device ++ "~" ++ colFsUsage) = some f.Usage := by
  unfold fsStep
  constructor
  · rw [mapLookup_insert_ne _ _ _ _ (fun h => absurd (devKey_inj _ _ _ _ (by decide) h).2
      (by decide)), mapLookup_insert_self]
  · rw [mapLookup_insert_self]

/-- Later records of other devices leave a per-device entry alone. -/
theorem mapLookup_foldl_other_devices (post : List FsStats) (s : List (String × Nat))
    (d suffix : String) (hs : suffix = colFsLimit ∨ suffix = colFsUsage)
    (h : ∀ g ∈ post, g.Device ≠ d) :
    mapLookup (post.foldl fsStep s) (d ++ "~" ++ suffix) = mapLookup s (d ++ "~" ++ suffix) := by
  induction post generalizing s with
  | nil => rfl
  | cons g post ih =>
    rw [List.foldl_cons, ih _ (fun x hx => h x (List.mem_cons_of_mem _ hx))]
    have hg : g.Device ≠ d := h g (List.mem_cons_self _ _)
    apply mapLookup_fsStep_of_ne
    · exact devKey_ne_of_no_tilde _ _ _ (by decide)
    · exact devKey_ne_of_no_tilde _ _ _ (by decide)
    · intro e
      rcases hs with hs | hs <;> subst hs
      · exact hg (devKey_inj _ _ _ _ rfl e).1.symm
      · exact absurd (devKey_inj _ _ _ _ (by decide) e).2 (by decide)
    · intro e
      rcases hs with hs | hs <;> subst hs
      · exact absurd (devKey_inj _ _ _ _ (by decide) e).2 (by decide)
      · exact hg (devKey_inj _ _ _ _ rfl e).1.symm

theorem seriesGet_summary (stats : ContainerStats) :
    seriesGet (containerFsStatsToValues (containerStatsToValues stats) stats) "fs_summary.fs_limit"
      = (stats.Filesystem.map FsStats.Limit).sum % 2 ^ 64
    ∧ seriesGet (containerFsStatsToValues (containerStatsToValues stats) stats) "fs_summary.fs_usage"
      = (stats.Filesystem.map FsStats.Usage).sum % 2 ^ 64 := by
  have hb := base_no_summary stats
  rw [fs_summary_limit_eq _ _ (by rw [hb.1]; norm_num),
    fs_summary_usage_eq _ _ (by rw [hb.2]; norm_num), hb.1, hb.2]
  simp only [Nat.zero_add, and_self]

/-- C17: device records are not deduplicated.  For every snapshot and every
record that is the last one with its device identifier `d` (so also when `d`
occurs in earlier records), after `containerFsStatsToValues` the per-device
entries of `d` hold the `Limit` and `Usage` of that last record, while the
`fs_summary` totals are the sums over every record (modulo `2 ^ 64`). -/
theorem duplicate_devices_last_wins (stats : ContainerStats) (pre post : List FsStats)
    (f : FsStats) (hfs : stats.Filesystem = pre ++ f :: post)
    (hlast : ∀ g ∈ post, g.Device ≠ f.Device) :
    mapLookup (containerFsStatsToValues (containerStatsToValues stats) stats)
        (f.Device ++ "~" ++ colFsLimit) = some f.Limit
    ∧ mapLookup (containerFsStatsToValues (containerStatsToValues stats) stats)
        (f.Device ++ "~" ++ colFsUsage) = some f.Usage
    ∧ seriesGet (containerFsStatsToValues (containerStatsToValues stats) stats)
        "fs_summary.fs_limit" = (stats.Filesystem.map FsStats.Limit).sum % 2 ^ 64
    ∧ seriesGet (containerFsStatsToValues (containerStatsToValues stats) stats)
        "fs_summary.fs_usage" = (stats.Filesystem.map FsStats.Usage).sum % 2 ^ 64 := by
  refine ⟨?_, ?_, (seriesGet_summary stats).1, (seriesGet_summary stats).2⟩
  · unfold containerFsStatsToValues
    rw [hfs, List.foldl_append, List.foldl_cons,
      mapLookup_foldl_other_devices post _ _ _ (Or.inl rfl) hlast]
    exact (mapLookup_fsStep_device _ f).1
  · unfold containerFsStatsToValues
    rw [hfs, List.foldl_append, List.foldl_cons,
      mapLookup_foldl_other_devices post _ _ _ (Or.inr rfl) hlast]
    exact (mapLookup_fsStep_device _ f).2

/-- C17 at a snapshot with two records of `/dev/sda1`: the per-device entries
hold the second record (200, 7), the summary holds 300 and 12, more than the
per-device entries add up to. -/
theorem duplicate_devices_last_wins_witness :
    duplicateDeviceStats.Filesystem = [⟨"/dev/sda1", 100, 5⟩] ++ ⟨"/dev/sda1", 200, 7⟩ :: []
    ∧ (∀ g ∈ ([] : List FsStats), g.Device ≠ "/dev/sda1")
    ∧ (mapLookup (containerFsStatsToValues (containerStatsToValues duplicateDeviceStats)
          duplicateDeviceStats) "/dev/sda1~fs_limit" = some 200
      ∧ mapLookup (containerFsStatsToValues (containerStatsToValues duplicateDeviceStats)
          duplicateDeviceStats) "/dev/sda1~fs_usage" = some 7
      ∧ seriesGet (containerFsStatsToValues (containerStatsToValues duplicateDeviceStats)
          duplicateDeviceStats) "fs_summary.fs_limit" = 300
      ∧ seriesGet (containerFsStatsToValues (containerStatsToValues duplicateDeviceStats)
          duplicateDeviceStats) "fs_summary.fs_usage" = 12)
    ∧ containerFsStatsToValues (containerStatsToValues duplicateDeviceStats) duplicateDeviceStats
      = [("cpu_cumulative_usage", 100), ("memory_usage", 50), ("memory_working_set", 40),
         ("rx_bytes", 10), ("rx_errors", 0), ("tx_bytes", 20), ("tx_errors", 1),
         ("fs_summary.fs_limit", 300), ("fs_summary.fs_usage", 12),
         ("/dev/sda1~fs_limit", 200), ("/dev/sda1~fs_usage", 7)] :=
  ⟨rfl, by decide,
    duplicate_devices_last_wins duplicateDeviceStats [⟨"/dev/sda1", 100, 5⟩] []
      ⟨"/dev/sda1", 200, 7⟩ rfl (by decide),
    by decide⟩

/-! ## Claims C18, C19 -/

theorem mem_mapKeys_insert {β : Type} (m : List (String × β)) (k k' : String) (v : β)
    (h : k' ∈ mapKeys (mapInsert m k v)) : k' ∈ mapKeys m ∨ k' = k := by
  induction m with
  | nil =>
    simp only [mapInsert, mapKeys, List.map_cons, List.map_nil, List.mem_singleton] at h
    exact Or.inr h
  | cons p m ih =>
    obtain ⟨k0, v0⟩ := p
    simp only [mapInsert] at h
    split_ifs at h with e
    · simp only [mapKeys, List.map_cons, List.mem_cons] at h ⊢
      rcases h with h | h
      · exact Or.inr h
      · exact Or.inl (Or.inr h)
    · simp only [mapKeys, List.map_cons, List.mem_cons] at h ⊢
      rcases h with h | h
      · exact Or.inl (Or.inl h)
      · rcases ih h with h' | h'
        · exact Or.inl (Or.inr h')
        · exact Or.inr h'

theorem mem_mapKeys_fsStep (s : List (String × Nat)) (f : FsStats) (k : String)
    (h : k ∈ mapKeys (fsStep s f)) :
    k ∈ mapKeys s ∨ k = "fs_summary.fs_limit" ∨ k = "fs_summary.fs_usage"
      ∨ containsChar k '~' = true := by
  have e1 : colFsSummary ++ "." ++ colFsLimit = "fs_summary.fs_limit" := by decide
  have e2 : colFsSummary ++ "." ++ colFsUsage = "fs_summary.fs_usage" := by decide
  unfold fsStep at h
  simp only [e1, e2] at h
  rcases mem_mapKeys_insert _ _ _ _ h with h | h
  · rcases mem_mapKeys_insert _ _ _ _ h with h | h
    · rcases mem_mapKeys_insert _ _ _ _ h with h | h
      · rcases mem_mapKeys_insert _ _ _ _ h with h | h
        · exact Or.inl h
        · exact Or.inr (Or.inl h)
      · exact Or.inr (Or.inr (Or.inl h))
    · exact Or.inr (Or.inr (Or.inr (h ▸ containsChar_devKey _ _)))
  · exact Or.inr (Or.inr (Or.inr (h ▸ containsChar_devKey _ _)))

theorem mem_mapKeys_foldl_fsStep (fs : List FsStats) (s : List (String × Nat)) (k : String)
    (h : k ∈ mapKeys (fs.foldl fsStep s)) :
    k ∈ mapKeys s ∨ k = "fs_summary.fs_limit" ∨ k = "fs_summary.fs_usage"
      ∨ containsChar k '~' = true := by
  induction fs generalizing s with
  | nil => exact Or.inl h
  | cons f fs ih =>
    rw [List.foldl_cons] at h
    rcases ih _ h with h | h
    · exact mem_mapKeys_fsStep s f k h
    · exact Or.inr h

theorem mapLookup_foldl_fsStep_base (fs : List FsStats) (s : List (String × Nat)) (k : String)
    (h0 : '~' ∉ k.data) (h1 : k ≠ "fs_summary.fs_limit") (h2 : k ≠ "fs_summary.fs_usage") :
    mapLookup (fs.foldl fsStep s) k = mapLookup s k := by
  induction fs generalizing s with
  | nil => rfl
  | cons f fs ih =>
    rw [List.foldl_cons, ih]
    exact mapLookup_fsStep_of_ne s f k h1 h2
      (fun e => devKey_ne_of_no_tilde _ _ _ h0 e.symm)
      (fun e => devKey_ne_of_no_tilde _ _ _ h0 e.symm)

/-- C18: the filesystem step never disturbs the base metrics and never merges
distinct devices.  For every snapshot (arbitrary identifier strings), every
key of the metric set after `containerFsStatsToValues` is a key of the series
it started from, one of the two `fs_summary` keys or a key that contains `~`;
every entry under a key without `~` other than the two summary keys keeps its
value, in particular the seven base entries; and the per-device keys of two
records coincide only when the records have the same identifier and the same
metric. -/
theorem fs_step_frame (stats : ContainerStats) :
    (∀ (s : List (String × Nat)) (k : String),
        k ∈ mapKeys (containerFsStatsToValues s stats) →
        k ∈ mapKeys s ∨ k = "fs_summary.fs_limit" ∨ k = "fs_summary.fs_usage"
          ∨ containsChar k '~' = true)
    ∧ (∀ (s : List (String × Nat)) (k : String), containsChar k '~' = false →
        k ≠ "fs_summary.fs_limit" → k ≠ "fs_summary.fs_usage" →
        mapLookup (containerFsStatsToValues s stats) k = mapLookup s k)
    ∧ (mapLookup (containerFsStatsToValues (containerStatsToValues stats) stats)
          "cpu_cumulative_usage" = some stats.Cpu.Usage.Total
      ∧ mapLookup (containerFsStatsToValues (containerStatsToValues stats) stats)
          "memory_usage" = some stats.Memory.Usage
      ∧ mapLookup (containerFsStatsToValues (containerStatsToValues stats) stats)
          "memory_working_set" = some stats.Memory.WorkingSet
      ∧ mapLookup (containerFsStatsToValues (containerStatsToValues stats) stats)
          "rx_bytes" = some stats.Network.RxBytes
      ∧ mapLookup (containerFsStatsToValues (containerStatsToValues stats) stats)
          "rx_errors" = some stats.Network.RxErrors
      ∧ mapLookup (containerFsStatsToValues (containerStatsToValues stats) stats)
          "tx_bytes" = some stats.Network.TxBytes
      ∧ mapLookup (containerFsStatsToValues (containerStatsToValues stats) stats)
          "tx_errors" = some stats.Network.TxErrors)
    ∧ (∀ (f g : FsStats) (a b : String), (a = colFsLimit ∨ a = colFsUsage) →
        (b = colFsLimit ∨ b = colFsUsage) →
        f.Device ++ "~" ++ a = g.Device ++ "~" ++ b → f.Device = g.Device ∧ a = b) := by
  refine ⟨?_, ?_, ?_, ?_⟩
  · intro s k hk
    exact mem_mapKeys_foldl_fsStep _ s k hk
  · intro s k h0 h1 h2
    exact mapLookup_foldl_fsStep_base _ s k (by simpa [containsChar] using h0) h1 h2
  · unfold containerFsStatsToValues
    refine ⟨?_, ?_, ?_, ?_, ?_, ?_, ?_⟩ <;>
      rw [mapLookup_foldl_fsStep_base _ _ _ (by decide) (by decide) (by decide),
        containerStatsToValues_eq] <;>
      simp [baseEntries, mapLookup]
  · intro f g a b ha hb e
    have hlen : a.data.length = b.data.length := by
      rcases ha with ha | ha <;> rcases hb with hb | hb <;> subst ha <;> subst hb <;> decide
    exact devKey_inj _ _ _ _ hlen e

/-- C18 at the snapshot with two records of one device. -/
theorem fs_step_frame_witness :
    mapLookup (containerFsStatsToValues (containerStatsToValues duplicateDeviceStats)
        duplicateDeviceStats) "cpu_cumulative_usage" = some 100
    ∧ mapLookup (containerFsStatsToValues (containerStatsToValues duplicateDeviceStats)
        duplicateDeviceStats) "tx_errors" = some 1
    ∧ (("/dev/sda1" ++ "~" ++ colFsLimit = "/dev/sda1" ++ "~" ++ colFsLimit) →
        "/dev/sda1" = "/dev/sda1" ∧ colFsLimit = colFsLimit) :=
  ⟨(fs_step_frame duplicateDeviceStats).2.2.1.1,
    (fs_step_frame duplicateDeviceStats).2.2.1.2.2.2.2.2.2,
    fun e => (fs_step_frame duplicateDeviceStats).2.2.2 ⟨"/dev/sda1", 100, 5⟩
      ⟨"/dev/sda1", 200, 7⟩ colFsLimit colFsLimit (Or.inl rfl) (Or.inl rfl) e⟩

/-- C19: the filesystem summary is accumulated in unsigned 64-bit
arithmetic.  For every list of device records the entries
`fs_summary.fs_limit` and `fs_summary.fs_usage` read after
`containerFsStatsToValues` are the sums of all `Limit` resp. `Usage` values
reduced modulo `2 ^ 64`, and are the exact sums whenever those are below
`2 ^ 64`. -/
theorem fs_summary_wraps (stats : ContainerStats) :
    seriesGet (containerFsStatsToValues (containerStatsToValues stats) stats) "fs_summary.fs_limit"
      = (stats.Filesystem.map FsStats.Limit).sum % 2 ^ 64
    ∧ seriesGet (containerFsStatsToValues (containerStatsToValues stats) stats)
        "fs_summary.fs_usage" = (stats.Filesystem.map FsStats.Usage).sum % 2 ^ 64
    ∧ ((stats.Filesystem.map FsStats.Limit).sum < 2 ^ 64 →
        seriesGet (containerFsStatsToValues (containerStatsToValues stats) stats)
          "fs_summary.fs_limit" = (stats.Filesystem.map FsStats.Limit).sum)
    ∧ ((stats.Filesystem.map FsStats.Usage).sum < 2 ^ 64 →
        seriesGet (containerFsStatsToValues (containerStatsToValues stats) stats)
          "fs_summary.fs_usage" = (stats.Filesystem.map FsStats.Usage).sum) := by
  obtain ⟨h1, h2⟩ := seriesGet_summary stats
  refine ⟨h1, h2, ?_, ?_⟩
  · intro h
    rw [h1, Nat.mod_eq_of_lt h]
  · intro h
    rw [h2, Nat.mod_eq_of_lt h]

/-- C19 at two records with limit `2 ^ 63` each: the limit total wraps to
`0`, the usage total `3` is exact. -/
theorem fs_summary_wraps_witness :
    seriesGet (containerFsStatsToValues (containerStatsToValues overflowStats) overflowStats)
        "fs_summary.fs_limit" = 0
    ∧ (overflowStats.Filesystem.map FsStats.Usage).sum < 2 ^ 64
    ∧ seriesGet (containerFsStatsToValues (containerStatsToValues overflowStats) overflowStats)
        "fs_summary.fs_usage" = 3 :=
  ⟨(fs_summary_wraps overflowStats).1, by decide,
    (fs_summary_wraps overflowStats).2.2.2 (by decide)⟩

/-! ## Negative durations -/

theorem roundF64_toRat_of_ne_zero (x : Frac) (hne : x.num ≠ 0) (hd : 0 < x.den) :
    (roundF64 x).toRat = roundAt (ilog2 x.num.natAbs x.den) x.toRat := by
  unfold roundAt
  by_cases he : 0 ≤ ilog2 x.num.natAbs x.den - 52
  · rw [roundF64_of_exp_nonneg x hne he]
    have hpos : 0 < x.den * 2 ^ (ilog2 x.num.natAbs x.den - 52).toNat := by positivity
    rw [roundHalfEven_eq _ _ hpos]
    have e2 : (2 : ℚ) ^ (ilog2 x.num.natAbs x.den - 52)
        = ((2 ^ (ilog2 x.num.natAbs x.den - 52).toNat : ℕ) : ℚ) := by
      rw [Nat.cast_pow, ← zpow_natCast, Int.toNat_of_nonneg he]; norm_num
    simp only [Frac.toRat]
    rw [e2]
    push_cast
    rw [div_div]
    simp
  · rw [roundF64_of_exp_neg x hne he]
    have hneg : 0 ≤ -(ilog2 x.num.natAbs x.den - 52) := by omega
    rw [roundHalfEven_eq _ _ hd]
    have e2 : (2 : ℚ) ^ (ilog2 x.num.natAbs x.den - 52)
        = (((2 ^ (-(ilog2 x.num.natAbs x.den - 52)).toNat : ℕ) : ℚ))⁻¹ := by
      rw [Nat.cast_pow, ← zpow_natCast, Int.toNat_of_nonneg hneg, zpow_neg, inv_inv]; norm_num
    simp only [Frac.toRat]
    rw [e2]
    push_cast
    rw [div_inv_eq_mul, div_eq_mul_inv (rneQ _ : ℚ)]
    congr 2
    ring_nf

/-- Rounding keeps a negative value negative. -/
theorem roundF64_neg (x : Frac) (hn : x.num < 0) (hd : 0 < x.den) : (roundF64 x).toRat < 0 := by
  rw [roundF64_toRat_of_ne_zero x (ne_of_lt hn) hd]
  have hb := (ilog2_spec x.num.natAbs x.den (Int.natAbs_pos.2 (ne_of_lt hn)) hd).1
  have hcast : ((x.num.natAbs : ℕ) : ℚ) = -(x.num : ℚ) := by
    rw [Nat.cast_natAbs, abs_of_neg hn]
    push_cast
    rfl
  rw [hcast] at hb
  set e := ilog2 x.num.natAbs x.den with he
  have hp := two_zpow_pos (e - 52)
  have hpe := two_zpow_pos e
  have hx : x.toRat ≤ -(2 : ℚ) ^ e := by
    unfold Frac.toRat
    rw [neg_div] at hb
    linarith
  have hz2 : x.toRat / (2 : ℚ) ^ (e - 52) ≤ ((-1 : ℤ) : ℚ) := by
    rw [div_le_iff₀ hp]
    have h52 : (2 : ℚ) ^ (e - 52) ≤ (2 : ℚ) ^ e :=
      (zpow_le_zpow_iff_right₀ (by norm_num : (1 : ℚ) < 2)).2 (by omega)
    push_cast
    linarith
  have hr := rneQ_mono hz2
  rw [rneQ_intCast] at hr
  have hrq : (rneQ (x.toRat / (2 : ℚ) ^ (e - 52)) : ℚ) ≤ -1 := by exact_mod_cast hr
  unfold roundAt
  nlinarith

theorem toRat_neg_iff (x : Frac) (hd : 0 < x.den) : x.toRat < 0 ↔ x.num < 0 := by
  have hdq : (0 : ℚ) < (x.den : ℚ) := by exact_mod_cast hd
  unfold Frac.toRat
  rw [div_lt_iff₀ hdq, zero_mul]
  exact_mod_cast Iff.rfl

theorem toRat_nonpos_iff (x : Frac) (hd : 0 < x.den) : x.toRat ≤ 0 ↔ x.num ≤ 0 := by
  have hdq : (0 : ℚ) < (x.den : ℚ) := by exact_mod_cast hd
  unfold Frac.toRat
  rw [div_le_iff₀ hdq, zero_mul]
  exact_mod_cast Iff.rfl

/-- `Seconds` of a negative duration is negative. -/
theorem seconds_neg (d : ℤ) (h : d < 0) : (Seconds d).toRat < 0 := by
  have hS : Int.tdiv d 1000000000 ≤ 0 := by
    have := Int.tdiv_nonneg (a := -d) (b := 1000000000) (by omega) (by norm_num)
    rw [Int.neg_tdiv] at this
    omega
  have hN : Int.tmod d 1000000000 ≤ 0 := by
    have h0 := Int.tmod_nonneg (a := -d) 1000000000 (by omega)
    have h1 := Int.tmod_def (-d) 1000000000
    rw [Int.neg_tdiv] at h1
    have h2 := Int.tmod_def d 1000000000
    omega
  have hsum : Int.tdiv d 1000000000 * 1000000000 + Int.tmod d 1000000000 = d := by
    have := Int.tdiv_add_tmod d 1000000000
    linarith
  have hAd := roundF64_den_pos (Frac.ofInt (Int.tdiv d 1000000000))
  have hA0 : (roundF64 (Frac.ofInt (Int.tdiv d 1000000000))).toRat ≤ 0 :=
    roundF64_nonpos _ (by simpa [Frac.ofInt] using hS) (by simp [Frac.ofInt])
  have hNd := roundF64_den_pos (Frac.ofInt (Int.tmod d 1000000000))
  have hN0 : (roundF64 (Frac.ofInt (Int.tmod d 1000000000))).num ≤ 0 :=
    (toRat_nonpos_iff _ hNd).1
      (roundF64_nonpos _ (by simpa [Frac.ofInt] using hN) (by simp [Frac.ofInt]))
  have hQd : 0 < (Frac.div (roundF64 (Frac.ofInt (Int.tmod d 1000000000)))
      ⟨8388608000000000, 8388608⟩).den := by
    simp only [Frac.div]
    norm_num
    exact hNd
  have hQn : (Frac.div (roundF64 (Frac.ofInt (Int.tmod d 1000000000)))
      ⟨8388608000000000, 8388608⟩).num
      = (roundF64 (Frac.ofInt (Int.tmod d 1000000000))).num * 8388608 := by
    simp only [Frac.div]
    norm_num
  have hFd := roundF64_den_pos (Frac.div (roundF64 (Frac.ofInt (Int.tmod d 1000000000)))
    ⟨8388608000000000, 8388608⟩)
  have hF0 : (roundF64 (Frac.div (roundF64 (Frac.ofInt (Int.tmod d 1000000000)))
      ⟨8388608000000000, 8388608⟩)).toRat ≤ 0 :=
    roundF64_nonpos _ (by rw [hQn]; omega) hQd
  have hsd : 0 < (Frac.add (roundF64 (Frac.ofInt (Int.tdiv d 1000000000)))
      (roundF64 (Frac.div (roundF64 (Frac.ofInt (Int.tmod d 1000000000)))
        ⟨8388608000000000, 8388608⟩))).den := by
    simp only [Frac.add]
    exact Nat.mul_pos hAd hFd
  unfold Seconds
  rw [roundF64_giga]
  apply roundF64_neg _ _ hsd
  apply (toRat_neg_iff _ hsd).1
  rw [Frac.toRat_add _ _ hAd hFd]
  rcases lt_or_eq_of_le hS with hs | hs
  · have : (roundF64 (Frac.ofInt (Int.tdiv d 1000000000))).toRat < 0 :=
      roundF64_neg _ (by simpa [Frac.ofInt] using hs) (by simp [Frac.ofInt])
    linarith
  · have hn : Int.tmod d 1000000000 < 0 := by
      rw [hs] at hsum
      omega
    have h1 : (roundF64 (Frac.ofInt (Int.tmod d 1000000000))).num < 0 :=
      (toRat_neg_iff _ hNd).1
        (roundF64_neg _ (by simpa [Frac.ofInt] using hn) (by simp [Frac.ofInt]))
    have : (roundF64 (Frac.div (roundF64 (Frac.ofInt (Int.tmod d 1000000000)))
        ⟨8388608000000000, 8388608⟩)).toRat < 0 :=
      roundF64_neg _ (by rw [hQn]; omega) hQd
    linarith

/-- A call whose clock reading is earlier than the recorded flush is throttled
by every non-negative interval. -/
theorem throttled_of_negative (d I : ℤ) (hd : d < 0) (hI : 0 ≤ I) : throttled d I = true := by
  rw [throttled_iff]
  calc (Seconds d).toRat < 0 := seconds_neg d hd
    _ ≤ (roundF64 (Frac.ofInt I)).toRat :=
      roundF64_nonneg _ (by simpa [Frac.ofInt] using hI) (by simp [Frac.ofInt])

theorem clampDuration_neg_iff (d : ℤ) : clampDuration d < 0 ↔ d < 0 := by
  unfold clampDuration maxDuration minDuration
  split_ifs <;> omega

theorem Time.Sub_neg_iff (t u : Time) : t.Sub u < 0 ↔ t.Before u = true := by
  unfold Time.Sub Time.Before
  cases t.mono <;> cases u.mono <;> simp [clampDuration_neg_iff]

/-- A reading taken later from the same clock is not before whatever the
earlier reading is not before. -/
theorem not_before_of_laterReading (old t u : Time) (h : laterReading t u = true)
    (hb : t.Before old = false) : u.Before old = false := by
  unfold laterReading at h
  unfold Time.Before at hb ⊢
  rcases ht : t.mono with _ | a <;> rcases hu : u.mono with _ | b <;>
    rcases ho : old.mono with _ | c <;>
    simp only [ht, hu, ho, Bool.and_eq_true, decide_eq_true_eq, decide_eq_false_iff_not, not_lt,
      Bool.and_false, Bool.false_eq_true, and_false, and_true] at h hb ⊢ <;> omega

/-! ## Claim C14 -/

set_option maxRecDepth 100000 in
/-- C14, as stated, fails: with `WF_INTERVAL=-10` and a wall clock that was
set back five seconds after the recorded flush, the call passes the gate
(`-5 < -10` is false) and replaces `LastFlush[c1]` by an earlier time. -/
theorem flush_time_goes_back_with_negative_interval :
    (freshDriver (-10)).WfInterval = -10
    ∧ (envWallAt 15000000000).current.Sub (wallReadingAt 20000000000) = -5000000000
    ∧ (AddStats (envWallAt 15000000000)
        { freshDriver (-10) with LastFlush := [("c1", wallReadingAt 20000000000)] } plainRef
        (some noDeviceStats)).1.LastFlush = [("c1", wallReadingAt 15000000000)]
    ∧ (wallReadingAt 15000000000).Before (wallReadingAt 20000000000) = true
    ∧ laterReading (envWallAt 15000000000).current (envWallAt 15000000000).flushed = true := by
  decide

/-- C14, amended: flush state timestamps are non-decreasing per container
for every configured interval `I ≥ 0`: for every container and every call
(whatever its clock reads, the readings taken within the call not running
backwards), an update of `LastFlush[C]` stores a time that is not before the
value it replaces. -/
theorem flush_times_non_decreasing (env : Env) (driver : wavefrontStorage)
    (ref : ContainerReference) (stats : Option ContainerStats) (old : Time)
    (hI : 0 ≤ driver.WfInterval)
    (hold : mapLookup driver.LastFlush (displayName ref) = some old)
    (hupd : (AddStats env driver ref stats).1.LastFlush ≠ driver.LastFlush)
    (hstep : laterReading env.current env.flushed = true) :
    mapLookup (AddStats env driver ref stats).1.LastFlush (displayName ref) = some env.flushed
    ∧ env.flushed.Before old = false
    ∧ env.current.Before old = false := by
  cases stats with
  | none => exact absurd rfl hupd
  | some st =>
    cases ht : throttled (env.current.Sub (lastFlushOf driver (displayName ref)))
      driver.WfInterval
    · have hcur : env.current.Before old = false := by
        by_contra hb
        have hb' : env.current.Before old = true := by simpa using hb
        have hneg : env.current.Sub old < 0 := (Time.Sub_neg_iff _ _).2 hb'
        have hlast : lastFlushOf driver (displayName ref) = old := by
          simp [lastFlushOf, hold]
        rw [hlast, throttled_of_negative _ _ hneg hI] at ht
        cases ht
      refine ⟨?_, not_before_of_laterReading old _ _ hstep hcur, hcur⟩
      rw [AddStats_flush _ _ _ _ ht]
      exact mapLookup_insert_self _ _ _
    · rw [AddStats_throttled _ _ _ _ ht] at hupd
      exact absurd rfl hupd

set_option maxRecDepth 100000 in
/-- The amended C14 at interval `10`, twenty seconds after the recorded flush. -/
theorem flush_times_non_decreasing_witness :
    (0 : ℤ) ≤ ({ freshDriver 10 with LastFlush := [("c1", readingAt 0)] } : wavefrontStorage).WfInterval
    ∧ mapLookup ({ freshDriver 10 with LastFlush := [("c1", readingAt 0)] }
        : wavefrontStorage).LastFlush (displayName plainRef) = some (readingAt 0)
    ∧ (AddStats (envAt 20000000000) { freshDriver 10 with LastFlush := [("c1", readingAt 0)] }
        plainRef (some noDeviceStats)).1.LastFlush
        ≠ ({ freshDriver 10 with LastFlush := [("c1", readingAt 0)] } : wavefrontStorage).LastFlush
    ∧ laterReading (envAt 20000000000).current (envAt 20000000000).flushed = true
    ∧ (envAt 20000000000).flushed.Before (readingAt 0) = false :=
  ⟨by decide, rfl, by decide, by decide,
    (flush_times_non_decreasing (envAt 20000000000)
      { freshDriver 10 with LastFlush := [("c1", readingAt 0)] } plainRef (some noDeviceStats)
      (readingAt 0) (by decide) rfl (by decide) (by decide)).2.1⟩

/-! ## Texts without a percent sign -/

theorem mem_of_mem_splitChars (sep : Char) (cs : List Char) :
    ∀ p ∈ splitChars sep cs, ∀ c ∈ p, c ∈ cs := by
  induction cs with
  | nil =>
    intro p hp c hc
    simp only [splitChars, List.mem_singleton] at hp
    subst hp
    exact absurd hc (List.not_mem_nil c)
  | cons a cs ih =>
    intro p hp c hc
    simp only [splitChars] at hp
    split_ifs at hp with e
    · rcases List.mem_cons.1 hp with h | h
      · subst h
        exact absurd hc (List.not_mem_nil c)
      · exact List.mem_cons_of_mem _ (ih p h c hc)
    · cases hs : splitChars sep cs with
      | nil =>
        rw [hs] at hp
        simp only [List.mem_singleton] at hp
        subst hp
        simp only [List.mem_singleton] at hc
        subst hc
        exact List.mem_cons_self _ _
      | cons q qs =>
        rw [hs] at hp
        rcases List.mem_cons.1 hp with h | h
        · subst h
          rcases List.mem_cons.1 hc with h' | h'
          · subst h'
            exact List.mem_cons_self _ _
          · exact List.mem_cons_of_mem _ (ih q (by rw [hs]; exact List.mem_cons_self _ _) c h')
        · exact List.mem_cons_of_mem _ (ih p (by rw [hs]; exact List.mem_cons_of_mem _ h) c hc)

theorem Split_getD_no_char (s : String) (i : Nat) (c : Char) (h : c ∉ s.data) :
    c ∉ ((Split s '~').getD i "").data := by
  unfold Split
  rw [List.getD_eq_getElem?_getD]
  cases hget : ((splitChars '~' s.data).map String.mk)[i]? with
  | none => simp
  | some p =>
    simp only [Option.getD_some]
    have hmem : p ∈ (splitChars '~' s.data).map String.mk := List.getElem?_mem hget
    obtain ⟨q, hq, rfl⟩ := List.mem_map.1 hmem
    intro hc
    exact h (mem_of_mem_splitChars '~' s.data q hq c hc)

/-- The text handed to `Fprintf` has no `%` when none of its parts has one. -/
theorem lineFormat_no_percent (p : String) (unix : ℤ) (src name add app : String)
    (kv : String × Nat)
    (hp : '%' ∉ p.data) (hk : '%' ∉ kv.1.data) (hs : '%' ∉ src.data) (hn : '%' ∉ name.data)
    (ha : '%' ∉ add.data) (hb : '%' ∉ app.data) :
    '%' ∉ (lineFormat p (FormatInt unix) src name add app kv).data := by
  unfold lineFormat
  split_ifs
  · exact sprintfDevice_no_percent _ _ _ _ _ _ _ _ _ hp (Split_getD_no_char _ _ _ hk) hs hn
      (Split_getD_no_char _ _ _ hk) ha hb
  · exact sprintfPlain_no_percent _ _ _ _ _ _ _ _ hp hk hs hn ha hb

theorem mem_mapKeys_fsStep_device (s : List (String × Nat)) (f : FsStats) (k : String)
    (h : k ∈ mapKeys (fsStep s f)) :
    k ∈ mapKeys s ∨ k = "fs_summary.fs_limit" ∨ k = "fs_summary.fs_usage"
      ∨ k = f.Device ++ "~" ++ colFsLimit ∨ k = f.Device ++ "~" ++ colFsUsage := by
  have e1 : colFsSummary ++ "." ++ colFsLimit = "fs_summary.fs_limit" := by decide
  have e2 : colFsSummary ++ "." ++ colFsUsage = "fs_summary.fs_usage" := by decide
  unfold fsStep at h
  simp only [e1, e2] at h
  rcases mem_mapKeys_insert _ _ _ _ h with h | h
  · rcases mem_mapKeys_insert _ _ _ _ h with h | h
    · rcases mem_mapKeys_insert _ _ _ _ h with h | h
      · rcases mem_mapKeys_insert _ _ _ _ h with h | h
        · exact Or.inl h
        · exact Or.inr (Or.inl h)
      · exact Or.inr (Or.inr (Or.inl h))
    · exact Or.inr (Or.inr (Or.inr (Or.inl h)))
  · exact Or.inr (Or.inr (Or.inr (Or.inr h)))

/-- No key of the metric set has a `%` when no device identifier has one. -/
theorem series_keys_no_percent (stats : ContainerStats)
    (hdev : ∀ f ∈ stats.Filesystem, '%' ∉ f.Device.data) :
    ∀ k ∈ mapKeys (containerFsStatsToValues (containerStatsToValues stats) stats),
      '%' ∉ k.data := by
  have key : ∀ (fs : List FsStats) (s : List (String × Nat)),
      (∀ f ∈ fs, '%' ∉ f.Device.data) → (∀ k ∈ mapKeys s, '%' ∉ k.data) →
      ∀ k ∈ mapKeys (fs.foldl fsStep s), '%' ∉ k.data := by
    intro fs
    induction fs with
    | nil => intro s _ hs k hk; exact hs k hk
    | cons f fs ih =>
      intro s hfs hs k hk
      rw [List.foldl_cons] at hk
      refine ih (fsStep s f) (fun g hg => hfs g (List.mem_cons_of_mem _ hg)) ?_ k hk
      intro k' hk'
      have hf := hfs f (List.mem_cons_self _ _)
      rcases mem_mapKeys_fsStep_device s f k' hk' with h | h | h | h | h
      · exact hs k' h
      · rw [h]; decide
      · rw [h]; decide
      · rw [h]
        simp only [String.data_append, List.mem_append, not_or]
        exact ⟨⟨hf, by decide⟩, by decide⟩
      · rw [h]
        simp only [String.data_append, List.mem_append, not_or]
        exact ⟨⟨hf, by decide⟩, by decide⟩
  apply key _ _ hdev
  rw [containerStatsToValues_eq]
  intro k hk
  simp only [baseEntries, mapKeys, List.map_cons, List.map_nil, List.mem_cons, List.mem_singleton,
    List.not_mem_nil, or_false] at hk
  rcases hk with h | h | h | h | h | h | h <;> subst h <;> decide

/-! ## Tags inside a line -/

/-- The text handed to `Fprintf` holds the extra tags, the appended tags and
the timestamp. -/
theorem lineFormat_has_tags (p ts src name add app : String) (kv : String × Nat) :
    add.data <:+: (lineFormat p ts src name add app kv).data
    ∧ app.data <:+: (lineFormat p ts src name add app kv).data
    ∧ (" " ++ ts ++ " source=").data <:+: (lineFormat p ts src name add app kv).data := by
  unfold lineFormat
  split_ifs
  · refine ⟨⟨(p ++ (Split kv.1 '~').getD 1 "" ++ " " ++ formatUint kv.2 ++ " " ++ ts ++ " source="
        ++ src ++ " container=\"" ++ name ++ "\" device=\"" ++ (Split kv.1 '~').getD 0 ""
        ++ "\" ").data, (" " ++ app ++ " \n").data, ?_⟩,
      ⟨(p ++ (Split kv.1 '~').getD 1 "" ++ " " ++ formatUint kv.2 ++ " " ++ ts ++ " source="
        ++ src ++ " container=\"" ++ name ++ "\" device=\"" ++ (Split kv.1 '~').getD 0 ""
        ++ "\" " ++ add ++ " ").data, (" \n" : String).data, ?_⟩,
      ⟨(p ++ (Split kv.1 '~').getD 1 "" ++ " " ++ formatUint kv.2).data,
        (src ++ " container=\"" ++ name ++ "\" device=\"" ++ (Split kv.1 '~').getD 0 ""
        ++ "\" " ++ add ++ " " ++ app ++ " \n").data, ?_⟩⟩ <;>
      simp [sprintfDevice, String.data_append]
  · refine ⟨⟨(p ++ kv.1 ++ " " ++ formatUint kv.2 ++ " " ++ ts ++ " source="
        ++ src ++ " container=\"" ++ name ++ "\" ").data, (" " ++ app ++ " \n").data, ?_⟩,
      ⟨(p ++ kv.1 ++ " " ++ formatUint kv.2 ++ " " ++ ts ++ " source="
        ++ src ++ " container=\"" ++ name ++ "\" " ++ add ++ " ").data, (" \n" : String).data, ?_⟩,
      ⟨(p ++ kv.1 ++ " " ++ formatUint kv.2).data,
        (src ++ " container=\"" ++ name ++ "\" " ++ add ++ " " ++ app ++ " \n").data, ?_⟩⟩ <;>
      simp [sprintfPlain, String.data_append]

theorem foldl_tags_extends (l : List (String × String)) (acc : String) :
    acc.data <+: (l.foldl (fun acc kv => acc ++ " " ++ kv.1 ++ "=\"" ++ kv.2 ++ "\"") acc).data := by
  induction l generalizing acc with
  | nil => exact List.prefix_refl _
  | cons kv l ih =>
    rw [List.foldl_cons]
    refine List.IsPrefix.trans ?_ (ih _)
    simp only [String.data_append, List.append_assoc]
    exact List.prefix_append _ _

theorem foldl_tags_contains (l : List (String × String)) (acc : String) (kv : String × String)
    (h : kv ∈ l) :
    (kv.1 ++ "=\"" ++ kv.2 ++ "\"").data
      <:+: (l.foldl (fun acc kv => acc ++ " " ++ kv.1 ++ "=\"" ++ kv.2 ++ "\"") acc).data := by
  induction l generalizing acc with
  | nil => exact absurd h (List.not_mem_nil _)
  | cons a l ih =>
    rw [List.foldl_cons]
    rcases List.mem_cons.1 h with e | e
    · subst e
      refine List.IsInfix.trans ?_ (foldl_tags_extends l _).isInfix
      refine ⟨(acc ++ " ").data, [], ?_⟩
      simp [String.data_append]
    · exact ih _ e

theorem foldl_tags_no_percent (l : List (String × String)) (acc : String)
    (hacc : '%' ∉ acc.data) (hl : ∀ kv ∈ l, '%' ∉ kv.1.data ∧ '%' ∉ kv.2.data) :
    '%' ∉ (l.foldl (fun acc kv => acc ++ " " ++ kv.1 ++ "=\"" ++ kv.2 ++ "\"") acc).data := by
  induction l generalizing acc with
  | nil => exact hacc
  | cons a l ih =>
    rw [List.foldl_cons]
    apply ih _ _ (fun kv hkv => hl kv (List.mem_cons_of_mem _ hkv))
    obtain ⟨h1, h2⟩ := hl a (List.mem_cons_self _ _)
    simp only [String.data_append, List.mem_append, not_or]
    repeat' apply And.intro
    all_goals first | assumption | decide

/-- The appended tags hold the namespace tag of a non-empty namespace and
the tag of every label. -/
theorem appendTagsOf_has_tags (order : RangeOrder (String × String)) (ref : ContainerReference) :
    (ref.Namespace ≠ "" →
      ("namespace=\"" ++ ref.Namespace ++ "\"").data <:+: (appendTagsOf order ref).data)
    ∧ ∀ kv ∈ ref.Labels,
        (kv.1 ++ "=\"" ++ kv.2 ++ "\"").data <:+: (appendTagsOf order ref).data := by
  constructor
  · intro hns
    unfold appendTagsOf
    simp only [hns, ne_eq, not_false_eq_true, if_true]
    refine List.IsInfix.trans ?_ (foldl_tags_extends _ _).isInfix
    refine ⟨[' '], [], ?_⟩
    simp [String.data_append]
  · intro kv hkv
    unfold appendTagsOf
    exact foldl_tags_contains _ _ kv ((order.perm ref.Labels).mem_iff.2 hkv)

theorem appendTagsOf_no_percent (order : RangeOrder (String × String)) (ref : ContainerReference)
    (hns : '%' ∉ ref.Namespace.data)
    (hl : ∀ kv ∈ ref.Labels, '%' ∉ kv.1.data ∧ '%' ∉ kv.2.data) :
    '%' ∉ (appendTagsOf order ref).data := by
  unfold appendTagsOf
  apply foldl_tags_no_percent
  · split_ifs
    · simp only [String.data_append, List.mem_append, not_or]
      repeat' apply And.intro
      all_goals first | assumption | decide
    · decide
  · intro kv hkv
    exact hl kv ((order.perm ref.Labels).mem_iff.1 hkv)

/-! ## Claim C15 -/

/-- Every line of a flushing call over a healthy connection holds the one
timestamp of the call, whatever the iteration order, when the texts have no
`%`. -/
theorem lines_share_timestamp (env : Env) (driver : wavefrontStorage)
    (ref : ContainerReference) (stats : ContainerStats)
    (hflush : throttled (env.current.Sub (lastFlushOf driver (displayName ref)))
      driver.WfInterval = false)
    (hc : driver.Conn.faults = [])
    (hp : '%' ∉ driver.WfPrefix.data) (hs : '%' ∉ driver.Source.data)
    (hn : '%' ∉ (displayName ref).data) (ha : '%' ∉ driver.WfAddTags.data)
    (hns : '%' ∉ ref.Namespace.data)
    (hl : ∀ kv ∈ ref.Labels, '%' ∉ kv.1.data ∧ '%' ∉ kv.2.data)
    (hdev : ∀ f ∈ stats.Filesystem, '%' ∉ f.Device.data) :
    ∀ line ∈ linesWritten driver (AddStats env driver ref (some stats)).1,
      (" " ++ FormatInt env.stamped.Unix ++ " source=").data <:+: line.data := by
  rw [linesWritten_flush env driver ref stats hflush hc]
  intro line hline
  obtain ⟨kv, hkv, rfl⟩ := List.mem_map.1 hline
  have hk : '%' ∉ kv.1.data :=
    series_keys_no_percent stats hdev kv.1
      (List.mem_map_of_mem Prod.fst ((env.seriesOrder.perm _).mem_iff.1 hkv))
  have hfree := lineFormat_no_percent driver.WfPrefix env.stamped.Unix driver.Source
    (displayName ref) driver.WfAddTags (appendTagsOf env.labelOrder ref) kv hp hk hs hn ha
    (appendTagsOf_no_percent env.labelOrder ref hns hl)
  rw [lineText, formatNoArgs_of_no_percent _ hfree]
  exact (lineFormat_has_tags _ _ _ _ _ _ kv).2.2

set_option maxRecDepth 100000 in
/-- C15 at the prefix `wf%[` with the extra tags `rack="r[1]"`: the call
flushes and captures the timestamp `1790000000`, but none of the seven lines
it writes carries it: the formatted line is used as the format of `Fprintf`,
which reads `%[` up to the closing bracket of the extra tags as a bad argument
index and so swallows the metric name, the value and the timestamp. -/
theorem timestamp_swallowed_by_prefix :
    FormatInt (envAt 0).stamped.Unix = "1790000000"
    ∧ linesWritten bracketDriver
        (AddStats (envAt 0) bracketDriver plainRef (some noDeviceStats)).1
      = ["wf%!\"(BADINDEX)  \n", "wf%!\"(BADINDEX)  \n", "wf%!\"(BADINDEX)  \n",
         "wf%!\"(BADINDEX)  \n", "wf%!\"(BADINDEX)  \n", "wf%!\"(BADINDEX)  \n",
         "wf%!\"(BADINDEX)  \n"]
    ∧ ∀ line ∈ linesWritten bracketDriver
        (AddStats (envAt 0) bracketDriver plainRef (some noDeviceStats)).1,
        ¬ ("1790000000".data <:+: line.data) := by
  decide

/-! ## Claim C2 -/

set_option maxRecDepth 100000 in
/-- C2, as stated, fails: with interval `0` and a flush state whose entry
`LastFlush[c1]` lies five seconds after the reading of the clock (the wall
clock was set back), the elapsed time is negative, `-5 < 0` holds, and the
call returns nil without writing a line or recording anything. -/
theorem interval_zero_call_throttled :
    ({ freshDriver 0 with LastFlush := [("c1", wallReadingAt 20000000000)] }
        : wavefrontStorage).WfInterval = 0
    ∧ (envWallAt 15000000000).current.Sub
        (lastFlushOf { freshDriver 0 with LastFlush := [("c1", wallReadingAt 20000000000)] }
          (displayName plainRef)) = -5000000000
    ∧ AddStats (envWallAt 15000000000)
        { freshDriver 0 with LastFlush := [("c1", wallReadingAt 20000000000)] } plainRef
        (some oneDeviceStats)
      = ({ freshDriver 0 with LastFlush := [("c1", wallReadingAt 20000000000)] }, none)
    ∧ linesWritten { freshDriver 0 with LastFlush := [("c1", wallReadingAt 20000000000)] }
        (AddStats (envWallAt 15000000000)
          { freshDriver 0 with LastFlush := [("c1", wallReadingAt 20000000000)] } plainRef
          (some oneDeviceStats)).1 = [] := by
  decide

/-- C2, amended: with interval `0` (the value `newStorage` leaves when
`WF_INTERVAL` is unset, whatever else the environment holds) an `AddStats`
call with a non-nil snapshot flushes exactly when its clock reading is not
before `LastFlush` of the container, for every container, every prior flush
state and every spacing between calls.  In that case it returns nil, records
`LastFlush` for the container and performs the write loop over the whole
metric set, which over a healthy connection delivers one line per entry, at
least one.  When the clock reading is before `LastFlush` of the container the
call returns nil, writes nothing and leaves the state unchanged. -/
theorem interval_zero_flushes_unless_clock_behind (env : Env) (driver : wavefrontStorage)
    (ref : ContainerReference) (stats : ContainerStats) (hI : driver.WfInterval = 0) :
    (∀ (getenv : String → String) (atoi : String → Int) (conn : Conn) (source addr : String),
        getenv "WF_INTERVAL" = "" → (newStorage getenv atoi conn source addr).WfInterval = 0)
    ∧ (env.current.Before (lastFlushOf driver (displayName ref)) = false →
        (AddStats env driver ref (some stats)).2 = none
        ∧ mapLookup (AddStats env driver ref (some stats)).1.LastFlush (displayName ref)
            = some env.flushed
        ∧ (AddStats env driver ref (some stats)).1.Conn
            = writeSeries driver.Conn driver.WfPrefix (FormatInt env.stamped.Unix) driver.Source
                (displayName ref) driver.WfAddTags (appendTagsOf env.labelOrder ref)
                (env.seriesOrder.order
                  (containerFsStatsToValues (containerStatsToValues stats) stats))
        ∧ (driver.Conn.faults = [] →
            linesWritten driver (AddStats env driver ref (some stats)).1
              = (env.seriesOrder.order
                  (containerFsStatsToValues (containerStatsToValues stats) stats)).map
                  (lineText driver.WfPrefix (FormatInt env.stamped.Unix) driver.Source
                    (displayName ref) driver.WfAddTags (appendTagsOf env.labelOrder ref))
            ∧ linesWritten driver (AddStats env driver ref (some stats)).1 ≠ []))
    ∧ (env.current.Before (lastFlushOf driver (displayName ref)) = true →
        AddStats env driver ref (some stats) = (driver, none)
        ∧ linesWritten driver (AddStats env driver ref (some stats)).1 = []) := by
  refine ⟨?_, ?_, ?_⟩
  · intro getenv atoi conn source addr h
    unfold newStorage
    simp only [h, ne_eq, not_true_eq_false, if_false]
    split_ifs <;> rfl
  · intro hb
    have hclock : 0 ≤ env.current.Sub (lastFlushOf driver (displayName ref)) := by
      by_contra hneg
      have := (Time.Sub_neg_iff _ _).1 (not_le.1 hneg)
      rw [hb] at this
      cases this
    have hflush : throttled (env.current.Sub (lastFlushOf driver (displayName ref)))
        driver.WfInterval = false := by
      rw [hI]
      exact throttled_of_interval_nonpos _ _ hclock (Time.Sub_le _ _) (le_refl _)
    refine ⟨?_, ?_, ?_, ?_⟩
    · rw [AddStats_flush _ _ _ _ hflush]
    · rw [AddStats_flush _ _ _ _ hflush]
      exact mapLookup_insert_self _ _ _
    · rw [AddStats_flush _ _ _ _ hflush]
    · intro hc
      exact ⟨linesWritten_flush env driver ref stats hflush hc,
        linesWritten_flush_ne_nil env driver ref stats hflush hc⟩
  · intro hb
    have ht : throttled (env.current.Sub (lastFlushOf driver (displayName ref)))
        driver.WfInterval = true := by
      rw [hI]
      exact throttled_of_negative _ _ ((Time.Sub_neg_iff _ _).2 hb) (le_refl _)
    rw [AddStats_throttled _ _ _ _ ht]
    exact ⟨rfl, linesWritten_self _⟩

set_option maxRecDepth 100000 in
/-- The amended C2 at a call made in the same instant as the recorded flush
of the container, which flushes, and at a call whose clock was set back five
seconds, which does not. -/
theorem interval_zero_flushes_unless_clock_behind_witness :
    ({ freshDriver 0 with LastFlush := [("c1", readingAt 7)] } : wavefrontStorage).WfInterval = 0
    ∧ (envAt 7).current.Before
        (lastFlushOf { freshDriver 0 with LastFlush := [("c1", readingAt 7)] }
          (displayName plainRef)) = false
    ∧ mapLookup (AddStats (envAt 7) { freshDriver 0 with LastFlush := [("c1", readingAt 7)] }
        plainRef (some oneDeviceStats)).1.LastFlush (displayName plainRef) = some (envAt 7).flushed
    ∧ (linesWritten { freshDriver 0 with LastFlush := [("c1", readingAt 7)] }
        (AddStats (envAt 7) { freshDriver 0 with LastFlush := [("c1", readingAt 7)] }
          plainRef (some oneDeviceStats)).1).length = 11
    ∧ (envWallAt 15000000000).current.Before
        (lastFlushOf { freshDriver 0 with LastFlush := [("c1", wallReadingAt 20000000000)] }
          (displayName plainRef)) = true
    ∧ AddStats (envWallAt 15000000000)
        { freshDriver 0 with LastFlush := [("c1", wallReadingAt 20000000000)] } plainRef
        (some noDeviceStats)
      = ({ freshDriver 0 with LastFlush := [("c1", wallReadingAt 20000000000)] }, none) :=
  ⟨rfl, by decide,
    ((interval_zero_flushes_unless_clock_behind (envAt 7)
      { freshDriver 0 with LastFlush := [("c1", readingAt 7)] } plainRef oneDeviceStats rfl).2.1
      (by decide)).2.1,
    by decide, by decide,
    ((interval_zero_flushes_unless_clock_behind (envWallAt 15000000000)
      { freshDriver 0 with LastFlush := [("c1", wallReadingAt 20000000000)] } plainRef
      noDeviceStats rfl).2.2 (by decide)).1⟩

/-! ## Occurrences of a word -/

/-- A word without the character `c` that occurs in `A ++ c :: B` occurs in
`A` or in `B`. -/
theorem occurs_split_at_char (P A B : List Char) (c : Char) (hc : c ∉ P)
    (h : P <:+: A ++ c :: B) : P <:+: A ∨ P <:+: B := by
  obtain ⟨s, t, e⟩ := h
  rcases List.append_eq_append_iff.1 e with ⟨a1, hA, _⟩ | ⟨c1, hsP, hcB⟩
  · exact Or.inl ⟨s, a1, hA.symm⟩
  · cases c1 with
    | nil =>
      rw [List.append_nil] at hsP
      exact Or.inl ⟨s, [], by rw [List.append_nil, hsP]⟩
    | cons x c2 =>
      rw [List.cons_append] at hcB
      obtain ⟨hx, hB⟩ := List.cons.inj hcB
      subst hx
      rcases List.append_eq_append_iff.1 hsP with ⟨a2, _, hP⟩ | ⟨c3, _, hc3⟩
      · exact absurd (by rw [hP]; simp) hc
      · cases c3 with
        | nil =>
          rw [List.nil_append] at hc3
          exact absurd (by rw [← hc3]; simp) hc
        | cons y c4 =>
          rw [List.cons_append] at hc3
          obtain ⟨_, h4⟩ := List.cons.inj hc3
          refine Or.inr ⟨c4, t, ?_⟩
          rw [hB, h4]

theorem no_word_sep (P A B : List Char) (c : Char) (hc : c ∉ P) (hA : ¬ P <:+: A)
    (hB : ¬ P <:+: B) : ¬ P <:+: A ++ c :: B := by
  intro h
  rcases occurs_split_at_char P A B c hc h with h | h
  · exact hA h
  · exact hB h

/-- A word that occurs in `A ++ B` occurs in `A`, occurs in `B`, or ends in a
proper beginning of `B`. -/
theorem occurs_append_cases (P A B : List Char) (h : P <:+: A ++ B) :
    P <:+: A ∨ P <:+: B ∨ ∃ n, n < P.length ∧ 0 < n ∧ P.drop n <+: B := by
  obtain ⟨s, t, e⟩ := h
  rcases List.append_eq_append_iff.1 e with ⟨a1, hA, _⟩ | ⟨c1, hsP, hB⟩
  · exact Or.inl ⟨s, a1, hA.symm⟩
  · rcases List.append_eq_append_iff.1 hsP with ⟨a2, _, hP⟩ | ⟨c3, _, hc3⟩
    · cases a2 with
      | nil =>
        rw [List.nil_append] at hP
        exact Or.inr (Or.inl ⟨[], t, by rw [List.nil_append, hP, hB]⟩)
      | cons x a3 =>
        cases c1 with
        | nil =>
          rw [List.append_nil] at hsP
          exact Or.inl ⟨s, [], by rw [List.append_nil, hsP]⟩
        | cons y c2 =>
          refine Or.inr (Or.inr ⟨(x :: a3).length, ?_, ?_, ?_⟩)
          · rw [hP]; simp
          · simp
          · rw [hP, List.drop_left, hB]
            exact List.prefix_append _ _
    · refine Or.inr (Or.inl ⟨c3, t, ?_⟩)
      rw [hB, hc3]

theorem no_word_junction (P A N : List Char) (hA : ¬ P <:+: A) (hN : ¬ P <:+: N)
    (hj : ∀ n, n < P.length → 0 < n → ¬ P.drop n <+: N) : ¬ P <:+: A ++ N := by
  intro h
  rcases occurs_append_cases P A N h with h | h | ⟨n, h1, h2, h3⟩
  · exact hA h
  · exact hN h
  · exact hj n h1 h2 h3

theorem no_word_of_not_mem (P L : List Char) (c : Char) (hP : c ∈ P) (hL : c ∉ L) :
    ¬ P <:+: L := fun h => hL (h.subset hP)

theorem FormatInt_no_letter (i : Int) : 'n' ∉ (FormatInt i).data := by
  intro h
  cases i with
  | ofNat m =>
    have := natRepr_isDigit m _ (by simpa [FormatInt, Int.repr] using h)
    exact absurd this (by decide)
  | negSucc m =>
    simp only [FormatInt, Int.repr, String.data_append, List.mem_append] at h
    rcases h with h | h
    · exact absurd h (by decide)
    · exact absurd (natRepr_isDigit _ _ h) (by decide)

theorem formatUint_no_letter (n : Nat) : 'n' ∉ (formatUint n).data := by
  intro h
  have := natRepr_isDigit n _ h
  exact absurd this (by decide)

theorem sprintfPlain_no_word (p k : String) (v : Nat) (unix : ℤ) (src name add app : String)
    (hpk : ¬ "namespace".data <:+: p.data ++ k.data) (hs : ¬ "namespace".data <:+: src.data)
    (hn : ¬ "namespace".data <:+: name.data) (ha : ¬ "namespace".data <:+: add.data)
    (hb : ¬ "namespace".data <:+: app.data) :
    ¬ "namespace".data <:+: (sprintfPlain p k v (FormatInt unix) src name add app).data := by
  have e : (sprintfPlain p k v (FormatInt unix) src name add app).data
      = (p.data ++ k.data) ++ ' ' :: ((formatUint v).data ++ ' ' :: ((FormatInt unix).data
        ++ ' ' :: (['s', 'o', 'u', 'r', 'c', 'e'] ++ '=' :: (src.data
        ++ ' ' :: (['c', 'o', 'n', 't', 'a', 'i', 'n', 'e', 'r'] ++ '=' :: ([]
        ++ '"' :: (name.data ++ '"' :: ([] ++ ' ' :: (add.data ++ ' ' :: (app.data
        ++ ' ' :: ['\n'])))))))))) := by
    have e1 : (" " : String).data = [' '] := rfl
    have e2 : (" source=" : String).data = [' ', 's', 'o', 'u', 'r', 'c', 'e', '='] := rfl
    have e3 : (" container=\"" : String).data
        = [' ', 'c', 'o', 'n', 't', 'a', 'i', 'n', 'e', 'r', '=', '"'] := rfl
    have e4 : ("\" " : String).data = ['"', ' '] := rfl
    have e5 : (" \n" : String).data = [' ', '\n'] := rfl
    simp only [sprintfPlain, String.data_append, e1, e2, e3, e4, e5, List.append_assoc,
      List.cons_append, List.nil_append]
  rw [e]
  have hv := no_word_of_not_mem "namespace".data _ 'n' (by decide) (formatUint_no_letter v)
  have ht := no_word_of_not_mem "namespace".data _ 'n' (by decide) (FormatInt_no_letter unix)
  refine no_word_sep _ _ _ _ (by decide) hpk (no_word_sep _ _ _ _ (by decide) hv
    (no_word_sep _ _ _ _ (by decide) ht (no_word_sep _ _ _ _ (by decide) (by decide)
    (no_word_sep _ _ _ _ (by decide) hs (no_word_sep _ _ _ _ (by decide) (by decide)
    (no_word_sep _ _ _ _ (by decide) (by decide) (no_word_sep _ _ _ _ (by decide) hn
    (no_word_sep _ _ _ _ (by decide) (by decide) (no_word_sep _ _ _ _ (by decide) ha
    (no_word_sep _ _ _ _ (by decide) hb (by decide)))))))))))

theorem sprintfDevice_no_word (p k : String) (v : Nat) (unix : ℤ)
    (src name dev add app : String)
    (hpk : ¬ "namespace".data <:+: p.data ++ k.data) (hs : ¬ "namespace".data <:+: src.data)
    (hn : ¬ "namespace".data <:+: name.data) (hd : ¬ "namespace".data <:+: dev.data)
    (ha : ¬ "namespace".data <:+: add.data) (hb : ¬ "namespace".data <:+: app.data) :
    ¬ "namespace".data <:+: (sprintfDevice p k v (FormatInt unix) src name dev add app).data := by
  have e : (sprintfDevice p k v (FormatInt unix) src name dev add app).data
      = (p.data ++ k.data) ++ ' ' :: ((formatUint v).data ++ ' ' :: ((FormatInt unix).data
        ++ ' ' :: (['s', 'o', 'u', 'r', 'c', 'e'] ++ '=' :: (src.data
        ++ ' ' :: (['c', 'o', 'n', 't', 'a', 'i', 'n', 'e', 'r'] ++ '=' :: ([]
        ++ '"' :: (name.data ++ '"' :: ([] ++ ' ' :: (['d', 'e', 'v', 'i', 'c', 'e']
        ++ '=' :: ([] ++ '"' :: (dev.data ++ '"' :: ([] ++ ' ' :: (add.data
        ++ ' ' :: (app.data ++ ' ' :: ['\n'])))))))))))))) := by
    have e1 : (" " : String).data = [' '] := rfl
    have e2 : (" source=" : String).data = [' ', 's', 'o', 'u', 'r', 'c', 'e', '='] := rfl
    have e3 : (" container=\"" : String).data
        = [' ', 'c', 'o', 'n', 't', 'a', 'i', 'n', 'e', 'r', '=', '"'] := rfl
    have e4 : ("\" " : String).data = ['"', ' '] := rfl
    have e5 : (" \n" : String).data = [' ', '\n'] := rfl
    have e6 : ("\" device=\"" : String).data
        = ['"', ' ', 'd', 'e', 'v', 'i', 'c', 'e', '=', '"'] := rfl
    simp only [sprintfDevice, String.data_append, e1, e2, e3, e4, e5, e6, List.append_assoc,
      List.cons_append, List.nil_append]
  rw [e]
  have hv := no_word_of_not_mem "namespace".data _ 'n' (by decide) (formatUint_no_letter v)
  have ht := no_word_of_not_mem "namespace".data _ 'n' (by decide) (FormatInt_no_letter unix)
  refine no_word_sep _ _ _ _ (by decide) hpk (no_word_sep _ _ _ _ (by decide) hv
    (no_word_sep _ _ _ _ (by decide) ht (no_word_sep _ _ _ _ (by decide) (by decide)
    (no_word_sep _ _ _ _ (by decide) hs (no_word_sep _ _ _ _ (by decide) (by decide)
    (no_word_sep _ _ _ _ (by decide) (by decide) (no_word_sep _ _ _ _ (by decide) hn
    (no_word_sep _ _ _ _ (by decide) (by decide) (no_word_sep _ _ _ _ (by decide) (by decide)
    (no_word_sep _ _ _ _ (by decide) (by decide) (no_word_sep _ _ _ _ (by decide) hd
    (no_word_sep _ _ _ _ (by decide) (by decide) (no_word_sep _ _ _ _ (by decide) ha
    (no_word_sep _ _ _ _ (by decide) hb (by decide)))))))))))))))

theorem foldl_tags_no_word (l : List (String × String)) (acc : String)
    (hacc : ¬ "namespace".data <:+: acc.data)
    (hl : ∀ kv ∈ l, ¬ "namespace".data <:+: kv.1.data ∧ ¬ "namespace".data <:+: kv.2.data) :
    ¬ "namespace".data
      <:+: (l.foldl (fun acc kv => acc ++ " " ++ kv.1 ++ "=\"" ++ kv.2 ++ "\"") acc).data := by
  induction l generalizing acc with
  | nil => exact hacc
  | cons a l ih =>
    rw [List.foldl_cons]
    apply ih _ _ (fun kv hkv => hl kv (List.mem_cons_of_mem _ hkv))
    obtain ⟨h1, h2⟩ := hl a (List.mem_cons_self _ _)
    have e : (acc ++ " " ++ a.1 ++ "=\"" ++ a.2 ++ "\"").data
        = acc.data ++ ' ' :: (a.1.data ++ '=' :: ([] ++ '"' :: (a.2.data ++ '"' :: []))) := by
      have e1 : (" " : String).data = [' '] := rfl
      have e2 : ("=\"" : String).data = ['=', '"'] := rfl
      have e3 : ("\"" : String).data = ['"'] := rfl
      simp only [String.data_append, e1, e2, e3, List.append_assoc, List.cons_append,
        List.nil_append]
    rw [e]
    exact no_word_sep _ _ _ _ (by decide) hacc (no_word_sep _ _ _ _ (by decide) h1
      (no_word_sep _ _ _ _ (by decide) (by decide) (no_word_sep _ _ _ _ (by decide) h2
      (by decide))))

/-- Without a namespace the appended tags hold the word `namespace` only when
a label does. -/
theorem appendTagsOf_no_word (order : RangeOrder (String × String)) (ref : ContainerReference)
    (hns : ref.Namespace = "")
    (hl : ∀ kv ∈ ref.Labels,
      ¬ "namespace".data <:+: kv.1.data ∧ ¬ "namespace".data <:+: kv.2.data) :
    ¬ "namespace".data <:+: (appendTagsOf order ref).data := by
  unfold appendTagsOf
  apply foldl_tags_no_word
  · simp only [hns, ne_eq, not_true_eq_false, if_false]
    decide
  · intro kv hkv
    exact hl kv ((order.perm ref.Labels).mem_iff.1 hkv)

/-- Every key of the metric set is a base key, a summary key or a per-device
key of a record. -/
theorem series_keys_cases (stats : ContainerStats) :
    ∀ k ∈ mapKeys (containerFsStatsToValues (containerStatsToValues stats) stats),
      k ∈ mapKeys (baseEntries stats) ∨ k = "fs_summary.fs_limit" ∨ k = "fs_summary.fs_usage"
        ∨ ∃ f ∈ stats.Filesystem,
            k = f.Device ++ "~" ++ colFsLimit ∨ k = f.Device ++ "~" ++ colFsUsage := by
  have key : ∀ (fs : List FsStats) (s : List (String × Nat)) (k : String),
      k ∈ mapKeys (fs.foldl fsStep s) →
      k ∈ mapKeys s ∨ k = "fs_summary.fs_limit" ∨ k = "fs_summary.fs_usage"
        ∨ ∃ f ∈ fs, k = f.Device ++ "~" ++ colFsLimit ∨ k = f.Device ++ "~" ++ colFsUsage := by
    intro fs
    induction fs with
    | nil => intro s k h; exact Or.inl h
    | cons f fs ih =>
      intro s k h
      rw [List.foldl_cons] at h
      rcases ih _ k h with h | h | h | ⟨g, hg, h⟩
      · rcases mem_mapKeys_fsStep_device s f k h with h | h | h | h | h
        · exact Or.inl h
        · exact Or.inr (Or.inl h)
        · exact Or.inr (Or.inr (Or.inl h))
        · exact Or.inr (Or.inr (Or.inr ⟨f, List.mem_cons_self _ _, Or.inl h⟩))
        · exact Or.inr (Or.inr (Or.inr ⟨f, List.mem_cons_self _ _, Or.inr h⟩))
      · exact Or.inr (Or.inl h)
      · exact Or.inr (Or.inr (Or.inl h))
      · exact Or.inr (Or.inr (Or.inr ⟨g, List.mem_cons_of_mem _ hg, h⟩))
  intro k hk
  unfold containerFsStatsToValues at hk
  rw [containerStatsToValues_eq] at hk
  exact key _ _ k hk

/-- The word `namespace` does not arise where a prefix without it meets a
metric name. -/
theorem no_word_prefix_name (p name : String) (hp : ¬ "namespace".data <:+: p.data)
    (hname : name ∈ ["cpu_cumulative_usage", "memory_usage", "memory_working_set", "rx_bytes",
      "rx_errors", "tx_bytes", "tx_errors", "fs_summary.fs_limit", "fs_summary.fs_usage",
      "fs_limit", "fs_usage"]) :
    ¬ "namespace".data <:+: p.data ++ name.data := by
  simp only [List.mem_cons, List.mem_singleton, List.not_mem_nil, or_false] at hname
  rcases hname with h | h | h | h | h | h | h | h | h | h | h <;> subst h <;>
    exact no_word_junction _ _ _ hp (by decide) (by decide)

/-- A line holds the word `namespace` only when one of its texts does. -/
theorem lineFormat_no_word (stats : ContainerStats) (p : String) (unix : ℤ)
    (src name add app : String) (kv : String × Nat)
    (hkv : kv.1 ∈ mapKeys (containerFsStatsToValues (containerStatsToValues stats) stats))
    (hdev : ∀ f ∈ stats.Filesystem, '~' ∉ f.Device.data ∧ ¬ "namespace".data <:+: f.Device.data)
    (hp : ¬ "namespace".data <:+: p.data) (hs : ¬ "namespace".data <:+: src.data)
    (hn : ¬ "namespace".data <:+: name.data) (ha : ¬ "namespace".data <:+: add.data)
    (hb : ¬ "namespace".data <:+: app.data) :
    ¬ "namespace".data <:+: (lineFormat p (FormatInt unix) src name add app kv).data := by
  obtain ⟨k, v⟩ := kv
  rcases series_keys_cases stats k hkv with h | h | h | ⟨f, hf, h⟩
  · rw [lineFormat_plain _ _ _ _ _ _ _ (baseKeys_no_tilde stats k h)]
    refine sprintfPlain_no_word _ _ _ _ _ _ _ _ (no_word_prefix_name p k hp ?_) hs hn ha hb
    simp only [baseEntries, mapKeys, List.map_cons, List.map_nil, List.mem_cons,
      List.mem_singleton, List.not_mem_nil, or_false] at h
    rcases h with h | h | h | h | h | h | h <;> subst h <;> decide
  · subst h
    have h0 : '~' ∉ ("fs_summary.fs_limit" : String).data := by decide
    rw [lineFormat_plain _ _ _ _ _ _ ("fs_summary.fs_limit", v) h0]
    exact sprintfPlain_no_word _ _ _ _ _ _ _ _
      (no_word_prefix_name p "fs_summary.fs_limit" hp (by decide)) hs hn ha hb
  · subst h
    have h0 : '~' ∉ ("fs_summary.fs_usage" : String).data := by decide
    rw [lineFormat_plain _ _ _ _ _ _ ("fs_summary.fs_usage", v) h0]
    exact sprintfPlain_no_word _ _ _ _ _ _ _ _
      (no_word_prefix_name p "fs_summary.fs_usage" hp (by decide)) hs hn ha hb
  · obtain ⟨h1, h2⟩ := hdev f hf
    rcases h with h | h <;> subst h
    · rw [lineFormat_device _ _ _ _ _ _ _ _ _ h1 (by decide)]
      exact sprintfDevice_no_word _ _ _ _ _ _ _ _ _ (no_word_prefix_name p _ hp (by decide))
        hs hn h2 ha hb
    · rw [lineFormat_device _ _ _ _ _ _ _ _ _ h1 (by decide)]
      exact sprintfDevice_no_word _ _ _ _ _ _ _ _ _ (no_word_prefix_name p _ hp (by decide))
        hs hn h2 ha hb

/-! ## Claim C16 -/

/-- The constructor reads the variables `WF_INTERVAL`, `WF_ADD_TAGS` and
`WF_PREFIX` and no other: when one of them is unset the driver keeps the
default, whatever else the environment holds. -/
theorem newStorage_defaults (getenv : String → String) (atoi : String → Int) (conn : Conn)
    (source addr : String) :
    (getenv "WF_INTERVAL" = "" → (newStorage getenv atoi conn source addr).WfInterval = 0)
    ∧ (getenv "WF_ADD_TAGS" = "" → (newStorage getenv atoi conn source addr).WfAddTags = "")
    ∧ (getenv "WF_PREFIX" = "" →
        (newStorage getenv atoi conn source addr).WfPrefix = "cadvisor.") := by
  refine ⟨?_, ?_, ?_⟩ <;> intro h <;> unfold newStorage <;>
    simp only [h, ne_eq, not_true_eq_false, if_false] <;> split_ifs <;> rfl

set_option maxRecDepth 100000 in
/-- C16 fails in two ways. With the label `load` of value `50%` no written
line holds `load="50%"`: the formatted line is used as the format of
`Fprintf`, which renders `%"` as `%!"(MISSING)`. With an empty namespace and a
label named `namespace` of empty value every written line holds
`namespace=""`, so the namespace tag is not present only when the namespace is
non-empty. -/
theorem tag_values_not_verbatim :
    (linesWritten (freshDriver 0)
        (AddStats (envAt 0) (freshDriver 0) percentLabelRef (some noDeviceStats)).1
      = ["cadvisor.cpu_cumulative_usage 100 1790000000 source=host1 container=\"c1\"   load=\"50%!\"(MISSING) \n",
         "cadvisor.memory_usage 50 1790000000 source=host1 container=\"c1\"   load=\"50%!\"(MISSING) \n",
         "cadvisor.memory_working_set 40 1790000000 source=host1 container=\"c1\"   load=\"50%!\"(MISSING) \n",
         "cadvisor.rx_bytes 10 1790000000 source=host1 container=\"c1\"   load=\"50%!\"(MISSING) \n",
         "cadvisor.rx_errors 0 1790000000 source=host1 container=\"c1\"   load=\"50%!\"(MISSING) \n",
         "cadvisor.tx_bytes 20 1790000000 source=host1 container=\"c1\"   load=\"50%!\"(MISSING) \n",
         "cadvisor.tx_errors 1 1790000000 source=host1 container=\"c1\"   load=\"50%!\"(MISSING) \n"]
      ∧ ∀ line ∈ linesWritten (freshDriver 0)
          (AddStats (envAt 0) (freshDriver 0) percentLabelRef (some noDeviceStats)).1,
          ¬ ("load=\"50%\"".data <:+: line.data))
    ∧ (namespaceLabelRef.Namespace = ""
      ∧ linesWritten (freshDriver 0)
          (AddStats (envAt 0) (freshDriver 0) namespaceLabelRef (some noDeviceStats)).1
        = ["cadvisor.cpu_cumulative_usage 100 1790000000 source=host1 container=\"c1\"   namespace=\"\" \n",
           "cadvisor.memory_usage 50 1790000000 source=host1 container=\"c1\"   namespace=\"\" \n",
           "cadvisor.memory_working_set 40 1790000000 source=host1 container=\"c1\"   namespace=\"\" \n",
           "cadvisor.rx_bytes 10 1790000000 source=host1 container=\"c1\"   namespace=\"\" \n",
           "cadvisor.rx_errors 0 1790000000 source=host1 container=\"c1\"   namespace=\"\" \n",
           "cadvisor.tx_bytes 20 1790000000 source=host1 container=\"c1\"   namespace=\"\" \n",
           "cadvisor.tx_errors 1 1790000000 source=host1 container=\"c1\"   namespace=\"\" \n"]
      ∧ ∀ line ∈ linesWritten (freshDriver 0)
          (AddStats (envAt 0) (freshDriver 0) namespaceLabelRef (some noDeviceStats)).1,
          ("namespace=\"" ++ namespaceLabelRef.Namespace ++ "\"").data <:+: line.data) := by
  decide

/-- C16, amended: when neither the prefix, the source, the display identity,
the extra-tag string, the namespace, a label key or value nor a device
identifier holds a `%` (double quotes and spaces are allowed), a flushing
`AddStats` call over a healthy connection writes at least one line, and every
line it writes holds `container="<identity>"`, holds `namespace="ns"` when
the namespace `ns` is non-empty, holds `key="value"` for every label, and
holds the extra-tag string, each unchanged.  When the namespace is empty no
namespace tag is written: if the word `namespace` occurs in none of the other
texts of the line (prefix, source, display identity, extra-tag string, label
keys and values, device identifiers, these without the separator `~`), no
line holds the word `namespace`, so none holds `namespace=""`. -/
theorem tags_verbatim_without_percent (env : Env) (driver : wavefrontStorage)
    (ref : ContainerReference) (stats : ContainerStats)
    (hflush : throttled (env.current.Sub (lastFlushOf driver (displayName ref)))
      driver.WfInterval = false)
    (hc : driver.Conn.faults = [])
    (hp : '%' ∉ driver.WfPrefix.data) (hs : '%' ∉ driver.Source.data)
    (hn : '%' ∉ (displayName ref).data) (ha : '%' ∉ driver.WfAddTags.data)
    (hns : '%' ∉ ref.Namespace.data)
    (hl : ∀ kv ∈ ref.Labels, '%' ∉ kv.1.data ∧ '%' ∉ kv.2.data)
    (hdev : ∀ f ∈ stats.Filesystem, '%' ∉ f.Device.data) :
    linesWritten driver (AddStats env driver ref (some stats)).1 ≠ []
    ∧ (∀ line ∈ linesWritten driver (AddStats env driver ref (some stats)).1,
        ("container=\"" ++ displayName ref ++ "\"").data <:+: line.data
        ∧ (ref.Namespace ≠ "" →
            ("namespace=\"" ++ ref.Namespace ++ "\"").data <:+: line.data)
        ∧ (∀ kv ∈ ref.Labels, (kv.1 ++ "=\"" ++ kv.2 ++ "\"").data <:+: line.data)
        ∧ driver.WfAddTags.data <:+: line.data)
    ∧ (ref.Namespace = "" →
        ¬ "namespace".data <:+: driver.WfPrefix.data →
        ¬ "namespace".data <:+: driver.Source.data →
        ¬ "namespace".data <:+: (displayName ref).data →
        ¬ "namespace".data <:+: driver.WfAddTags.data →
        (∀ kv ∈ ref.Labels,
          ¬ "namespace".data <:+: kv.1.data ∧ ¬ "namespace".data <:+: kv.2.data) →
        (∀ f ∈ stats.Filesystem,
          '~' ∉ f.Device.data ∧ ¬ "namespace".data <:+: f.Device.data) →
        ∀ line ∈ linesWritten driver (AddStats env driver ref (some stats)).1,
          ¬ "namespace".data <:+: line.data
          ∧ ¬ ("namespace=\"" ++ ref.Namespace ++ "\"").data <:+: line.data) := by
  have hfree : ∀ kv ∈ env.seriesOrder.order
      (containerFsStatsToValues (containerStatsToValues stats) stats),
      lineText driver.WfPrefix (FormatInt env.stamped.Unix) driver.Source (displayName ref)
          driver.WfAddTags (appendTagsOf env.labelOrder ref) kv
        = lineFormat driver.WfPrefix (FormatInt env.stamped.Unix) driver.Source (displayName ref)
          driver.WfAddTags (appendTagsOf env.labelOrder ref) kv := by
    intro kv hkv
    have hk : '%' ∉ kv.1.data :=
      series_keys_no_percent stats hdev kv.1
        (List.mem_map_of_mem Prod.fst ((env.seriesOrder.perm _).mem_iff.1 hkv))
    rw [lineText, formatNoArgs_of_no_percent _
      (lineFormat_no_percent driver.WfPrefix env.stamped.Unix driver.Source
        (displayName ref) driver.WfAddTags (appendTagsOf env.labelOrder ref) kv hp hk hs hn ha
        (appendTagsOf_no_percent env.labelOrder ref hns hl))]
  refine ⟨linesWritten_flush_ne_nil env driver ref stats hflush hc, ?_, ?_⟩
  · rw [linesWritten_flush env driver ref stats hflush hc]
    intro line hline
    obtain ⟨kv, hkv, rfl⟩ := List.mem_map.1 hline
    have htags := lineFormat_has_tags driver.WfPrefix (FormatInt env.stamped.Unix) driver.Source
      (displayName ref) driver.WfAddTags (appendTagsOf env.labelOrder ref) kv
    have happ := appendTagsOf_has_tags env.labelOrder ref
    rw [hfree kv hkv]
    exact ⟨lineFormat_has_container_tag _ _ _ _ _ _ kv,
      fun h => (happ.1 h).trans htags.2.1,
      fun lab hlab => (happ.2 lab hlab).trans htags.2.1,
      htags.1⟩
  · intro hempty wp ws wn wa wl wdev
    rw [linesWritten_flush env driver ref stats hflush hc]
    intro line hline
    obtain ⟨kv, hkv, rfl⟩ := List.mem_map.1 hline
    rw [hfree kv hkv]
    have hno := lineFormat_no_word stats driver.WfPrefix env.stamped.Unix driver.Source
      (displayName ref) driver.WfAddTags (appendTagsOf env.labelOrder ref) kv
      (List.mem_map_of_mem Prod.fst ((env.seriesOrder.perm _).mem_iff.1 hkv)) wdev wp ws wn wa
      (appendTagsOf_no_word env.labelOrder ref hempty wl)
    refine ⟨hno, fun h => hno (List.IsInfix.trans ?_ h)⟩
    refine ⟨[], ("=\"" ++ ref.Namespace ++ "\"").data, ?_⟩
    simp only [String.data_append, List.nil_append, List.append_assoc]
    rfl

set_option maxRecDepth 100000 in
/-- The amended C16 at a driver with the extra tags `dc="east"` and a
snapshot with one device: for a reference with the alias `web`, the namespace
`prod` and two labels whose values hold a space and double quotes every line
holds the four tags; for a reference with an empty namespace and one label no
line holds `namespace=""`. -/
theorem tags_verbatim_without_percent_witness :
    (throttled ((envAt 0).current.Sub (lastFlushOf taggedDriver (displayName labelledRef)))
        taggedDriver.WfInterval = false
      ∧ labelledRef.Namespace ≠ ""
      ∧ linesWritten taggedDriver
          (AddStats (envAt 0) taggedDriver labelledRef (some oneDeviceStats)).1 ≠ []
      ∧ ∀ line ∈ linesWritten taggedDriver
          (AddStats (envAt 0) taggedDriver labelledRef (some oneDeviceStats)).1,
          ("container=\"" ++ displayName labelledRef ++ "\"").data <:+: line.data
          ∧ (labelledRef.Namespace ≠ "" →
              ("namespace=\"" ++ labelledRef.Namespace ++ "\"").data <:+: line.data)
          ∧ (∀ kv ∈ labelledRef.Labels, (kv.1 ++ "=\"" ++ kv.2 ++ "\"").data <:+: line.data)
          ∧ taggedDriver.WfAddTags.data <:+: line.data)
    ∧ (unnamespacedRef.Namespace = ""
      ∧ linesWritten taggedDriver
          (AddStats (envAt 0) taggedDriver unnamespacedRef (some oneDeviceStats)).1 ≠ []
      ∧ ∀ line ∈ linesWritten taggedDriver
          (AddStats (envAt 0) taggedDriver unnamespacedRef (some oneDeviceStats)).1,
          ¬ "namespace".data <:+: line.data
          ∧ ¬ ("namespace=\"" ++ unnamespacedRef.Namespace ++ "\"").data <:+: line.data) :=
  ⟨⟨by decide, by decide,
      (tags_verbatim_without_percent (envAt 0) taggedDriver labelledRef oneDeviceStats
        (by decide) (by decide) (by decide) (by decide) (by decide) (by decide) (by decide)
        (by decide) (by decide)).1,
      (tags_verbatim_without_percent (envAt 0) taggedDriver labelledRef oneDeviceStats
        (by decide) (by decide) (by decide) (by decide) (by decide) (by decide) (by decide)
        (by decide) (by decide)).2.1⟩,
    ⟨rfl,
      (tags_verbatim_without_percent (envAt 0) taggedDriver unnamespacedRef oneDeviceStats
        (by decide) (by decide) (by decide) (by decide) (by decide) (by decide) (by decide)
        (by decide) (by decide)).1,
      (tags_verbatim_without_percent (envAt 0) taggedDriver unnamespacedRef oneDeviceStats
        (by decide) (by decide) (by decide) (by decide) (by decide) (by decide) (by decide)
        (by decide) (by decide)).2.2 rfl (by decide) (by decide) (by decide) (by decide)
        (by decide) (by decide)⟩⟩

end Wavefront
